import Mathlib

/-!
# Two-phase tableau simplex (`tableau_simplex.c`)

A shallow embedding of the tableau engine of `tableau_simplex.c` and theorems
about it.

Modelling conventions.

* The cells of the tableau are C `double`s.  Finite doubles are rationals and the
  cells are embedded in `ℚ`.  The functions that compute with the cells are
  embedded twice.  The functions with the source's names (`addscaledrows`,
  `pivot`, `findpivotrow`, `phasetwo`, ...) compute with exact rational
  arithmetic: the theorems about them describe the algorithm, and its runs on
  which no result is rounded.  The functions with the suffix `Fl`
  (`addscaledrowsFl`, `pivotFl`, `findpivotrowFl`, `phasetwoFl`, ...) round every
  arithmetic result with a parameter `fl`; `fl := round64` is the IEEE 754
  binary64 rounding of the program's arithmetic, `fl := id` gives back the exact
  functions.  The functions that only copy, compare or count cells are shared.
* The `int` fields of `Tableau` hold row/column counts and offsets; they are
  embedded as `Nat`.  The functions that return a C `int` which may be negative
  (`findpivotcolumn`, `findpivotrow`, the `TabErr` codes) return `Int`.
* `data` is the flat row-major buffer `t->data`; `get`/`set` use the same index
  expression `row * cols + col` as the source.  The scratch pointer `copydata`
  is only live inside a resize operation and is a local there.
* `printf`/`getchar` calls have no effect on the tableau and are dropped.
* The `while` loop of `phasetwo` takes a fuel argument: `none` means that the
  fuel ran out, `some (err, t)` that the loop returned `err` leaving tableau `t`.
-/

namespace TableauSimplex

/-! ## Result codes and tolerance -/

/-- The C type `TabErr` (`typedef int TabErr`). -/
abbrev TabErr := Int

/-- The C constant `OK`. -/
def OK : TabErr := 0
/-- The C constant `INFEASIBLE`. -/
def INFEASIBLE : TabErr := -1
/-- The C constant `UNBOUNDED`. -/
def UNBOUNDED : TabErr := -2

/-- The C constant `EPSILON = 1.0e-10`. -/
def EPSILON : ℚ := 1 / 10000000000

/-- The C macro `flt_equals(a, b)`: `fabs(a - b) < EPSILON`. -/
def flt_equals (a b : ℚ) : Bool := decide (|a - b| < EPSILON)

/-- The C macro `flt_lt(a, b)`: `a + EPSILON < b`. -/
def flt_lt (a b : ℚ) : Bool := decide (a + EPSILON < b)

/-- Conversion of a `double` to `int` (C truncates toward zero), as performed by
the assignment `maxneg = get(...)` in `findpivotcolumn`. -/
def doubleToInt (x : ℚ) : Int := Int.tdiv x.num (x.den : Int)

/-! ## The tableau -/

/-- The C struct `Tableau` (without the scratch pointer `copydata`). -/
structure Tableau where
  rows : Nat
  cols : Nat
  numvars : Nat
  numrealvars : Nat
  numslackvars : Nat
  numartificialvars : Nat
  numconstraints : Nat
  zcolumn : Nat
  constcolumn : Nat
  basiscolumn : Nat
  data : List ℚ
deriving DecidableEq

/-- The C function `get`: `t->data[row * t->cols + col]`. -/
def get (t : Tableau) (row col : Nat) : ℚ :=
  t.data.getD (row * t.cols + col) 0

/-- The C function `set`: `t->data[row * t->cols + col] = value`. -/
def set (t : Tableau) (row col : Nat) (value : ℚ) : Tableau :=
  { t with data := t.data.set (row * t.cols + col) value }

/-- The buffer produced by the copy loops of the resize operations:
`copydata = malloc(rows * cols * ...)` followed by
`for i < rows, for j < cols: copydata[i * cols + j] = f i j`. -/
def fillData (rows cols : Nat) (f : Nat → Nat → ℚ) : List ℚ :=
  (List.range rows).foldl
    (fun d i => (List.range cols).foldl (fun d j => d.set (i * cols + j) (f i j)) d)
    (List.replicate (rows * cols) 0)

/-- The C function `addrows`: row `z` becomes row `x` + row `y`, the z and basis
columns excepted. -/
def addrows (t : Tableau) (x y z : Nat) : Tableau :=
  (List.range t.cols).foldl
    (fun t i =>
      if i ≠ t.zcolumn ∧ i ≠ t.basiscolumn then set t z i (get t x i + get t y i) else t)
    t

/-- The C function `subtractrows`: row `z` becomes row `x` - row `y`, the z and
basis columns excepted. -/
def subtractrows (t : Tableau) (x y z : Nat) : Tableau :=
  (List.range t.cols).foldl
    (fun t i =>
      if i ≠ t.zcolumn ∧ i ≠ t.basiscolumn then set t z i (get t x i - get t y i) else t)
    t

/-- The C function `addscaledrows`: row `z` becomes row `x` * `scalar` + row `y`,
the z and basis columns excepted. -/
def addscaledrows (t : Tableau) (scalar : ℚ) (x y z : Nat) : Tableau :=
  (List.range t.cols).foldl
    (fun t i =>
      if i ≠ t.zcolumn ∧ i ≠ t.basiscolumn then
        let value := get t x i * scalar
        set t z i (value + get t y i)
      else t)
    t

/-- The C function `scalerow`: row `z` is multiplied by `scalar`, the z and basis
columns excepted. -/
def scalerow (t : Tableau) (scalar : ℚ) (z : Nat) : Tableau :=
  (List.range t.cols).foldl
    (fun t i =>
      if i ≠ t.zcolumn ∧ i ≠ t.basiscolumn then set t z i (get t z i * scalar) else t)
    t

/-- The C function `addobjectiverow`. -/
def addobjectiverow (t : Tableau) : Tableau :=
  let t1 := { t with rows := t.rows + 1 }
  let copydata := fillData t1.rows t1.cols
    (fun i j => if i < t1.rows - 1 then get t1 i j else 0)
  let t2 := { t1 with data := copydata }
  set t2 (t2.rows - 1) t2.zcolumn 1

/-- The C function `deleterow`. -/
def deleterow (t : Tableau) (targetrow : Nat) : Tableau :=
  let rowskip := targetrow
  let t1 := { t with
    rows := t.rows - 1
    numconstraints :=
      if targetrow < t.numconstraints then t.numconstraints - 1 else t.numconstraints }
  let copydata := fillData t1.rows t1.cols
    (fun i j => if i < rowskip then get t1 i j else get t1 (i + 1) j)
  { t1 with data := copydata }

/-- The C function `addartificialcolumn`. -/
def addartificialcolumn (t : Tableau) (targetrow : Nat) : Tableau :=
  let colskip := t.numvars
  let t1 := { t with
    cols := t.cols + 1
    numvars := t.numvars + 1
    numartificialvars := t.numartificialvars + 1
    zcolumn := t.zcolumn + 1
    constcolumn := t.constcolumn + 1
    basiscolumn := t.basiscolumn + 1 }
  let copydata := fillData t1.rows t1.cols
    (fun i j =>
      if j < colskip then t1.data.getD (i * (t1.cols - 1) + j) 0
      else if j = colskip then (if i = targetrow then 1 else 0)
      else t1.data.getD (i * (t1.cols - 1) + j - 1) 0)
  let t2 := { t1 with data := copydata }
  set t2 targetrow t2.basiscolumn (colskip : ℚ)

/-- The C function `deletecolumn`. -/
def deletecolumn (t : Tableau) (targetcolumn : Nat) : Tableau :=
  let colskip := targetcolumn
  let t1 := { t with
    cols := t.cols - 1
    numvars := t.numvars - 1
    numartificialvars := t.numartificialvars - 1
    zcolumn := t.zcolumn - 1
    constcolumn := t.constcolumn - 1
    basiscolumn := t.basiscolumn - 1 }
  let copydata := fillData t1.rows t1.cols
    (fun i j =>
      if j < colskip then t1.data.getD (i * (t1.cols + 1) + j) 0
      else t1.data.getD (i * (t1.cols + 1) + j + 1) 0)
  { t1 with data := copydata }

/-! ## Selection rules -/

/-- The C function `isoptimal`. -/
def isoptimal (t : Tableau) : Bool :=
  (List.range t.numvars).foldl
    (fun ret i => if flt_lt (get t (t.rows - 1) i) 0 then false else ret)
    true

/-- Loop state of `findpivotcolumn`: the locals `maxnegindex` and `maxneg`
(both declared `int` in the source). -/
structure ColScan where
  maxnegindex : Int
  maxneg : Int
deriving DecidableEq

/-- One iteration of the loop of `findpivotcolumn`. -/
def colScanStep (t : Tableau) (s : ColScan) (i : Nat) : ColScan :=
  if get t (t.rows - 1) i < (s.maxneg : ℚ) then
    { maxnegindex := (i : Int), maxneg := doubleToInt (get t (t.rows - 1) i) }
  else s

/-- The C function `findpivotcolumn`. -/
def findpivotcolumn (t : Tableau) : Int :=
  ((List.range t.numvars).foldl (colScanStep t) { maxnegindex := -1, maxneg := 0 }).maxnegindex

/-- Loop state of `findpivotrow`: the locals `minratio`, `minratiorow`, `found`.
The first two are uninitialised in the source and only read once `found` is set. -/
structure RowScan where
  minratio : ℚ
  minratiorow : Nat
  found : Bool
deriving DecidableEq

/-- One iteration of the loop of `findpivotrow`. -/
def rowScanStep (t : Tableau) (pivotcolumn : Nat) (s : RowScan) (i : Nat) : RowScan :=
  let enteringvar := get t i pivotcolumn
  let constvar := get t i t.constcolumn
  if enteringvar ≤ 0 then s
  else
    let currentratio := constvar / enteringvar
    if !s.found then { minratio := currentratio, minratiorow := i, found := true }
    else if currentratio < s.minratio then
      { minratio := currentratio, minratiorow := i, found := true }
    else { s with found := true }

/-- The C function `findpivotrow`. -/
def findpivotrow (t : Tableau) (pivotcolumn : Nat) : Int :=
  let s := (List.range t.numconstraints).foldl (rowScanStep t pivotcolumn)
    { minratio := 0, minratiorow := 0, found := false }
  if !s.found then UNBOUNDED else (s.minratiorow : Int)

/-! ## Pivot -/

/-- The C function `pivot`. -/
def pivot (t : Tableau) (pivotrow pivotcolumn : Nat) : Tableau :=
  let t := set t pivotrow t.basiscolumn (pivotcolumn : ℚ)
  let scalar := 1 / get t pivotrow pivotcolumn
  let t := scalerow t scalar pivotrow
  (List.range t.rows).foldl
    (fun t i =>
      if i ≠ pivotrow then
        let scalar := -get t i pivotcolumn
        addscaledrows t scalar pivotrow i i
      else t)
    t

/-! ## Phase one / phase two -/

/-- The C function `isinsidefeasibleregion`. -/
def isinsidefeasibleregion (t : Tableau) : Bool :=
  (List.range t.numconstraints).foldl
    (fun isfeasible i => if get t i t.basiscolumn < 0 then false else isfeasible)
    true

/-- The C function `createartificialtableau`. -/
def createartificialtableau (t : Tableau) : Tableau :=
  let t := addobjectiverow t
  let t := (List.range t.numconstraints).foldl
    (fun t i =>
      if get t i t.basiscolumn < 0 then
        let t := addartificialcolumn t i
        set t (t.rows - 1) (t.numvars - 1) (-1)
      else t)
    t
  let t := (List.range t.numconstraints).foldl
    (fun t i =>
      if get t i t.basiscolumn ≥ ((t.numrealvars + t.numslackvars : Nat) : ℚ) then
        addrows t i (t.rows - 1) (t.rows - 1)
      else t)
    t
  scalerow t (-1) (t.rows - 1)

/-- The loop `for (i = numvars-1; i >= numvars-numartificialvars; i--) deletecolumn(t,i)`
of `destroyartificialtableau`; both bounds are re-read from the tableau at every
test.  `n` bounds the number of iterations (the loop index starts at `numvars-1`
and only non-negative indices name a column). -/
def deleteArtificialLoop : Nat → Tableau → Int → Tableau
  | 0, t, _ => t
  | n + 1, t, i =>
    if i ≥ (t.numvars : Int) - (t.numartificialvars : Int) then
      deleteArtificialLoop n (deletecolumn t i.toNat) (i - 1)
    else t

/-- The C function `destroyartificialtableau`. -/
def destroyartificialtableau (t : Tableau) : Tableau :=
  let t := deleterow t (t.rows - 1)
  deleteArtificialLoop t.numvars t ((t.numvars : Int) - 1)

/-- The C function `phasetwo`; `fuel` bounds the number of tests of the `while`
condition.  The column returned by `findpivotcolumn` is never negative when the
tableau is not optimal (`findpivotcolumn_nonneg`), so it is used as a column index. -/
def phasetwo : Nat → Tableau → Option (TabErr × Tableau)
  | 0, _ => none
  | fuel + 1, t =>
    if !isoptimal t then
      let pivotcolumn := findpivotcolumn t
      let pivotrow := findpivotrow t pivotcolumn.toNat
      if pivotrow < 0 then some (pivotrow, t)
      else phasetwo fuel (pivot t pivotrow.toNat pivotcolumn.toNat)
    else some (OK, t)

/-- The C function `phaseone`; `fuel` is handed to the inner `phasetwo`. -/
def phaseone (fuel : Nat) (t : Tableau) : Option (TabErr × Tableau) :=
  if !isinsidefeasibleregion t then
    let t := createartificialtableau t
    match phasetwo fuel t with
    | none => none
    | some (error, t) =>
      if error < 0 then some (error, t)
      else if flt_lt (get t (t.rows - 1) t.constcolumn) 0 then some (INFEASIBLE, t)
      else some (OK, destroyartificialtableau t)
  else some (OK, t)

/-- The part of `readtableaufromfile` that builds the tableau from the three
header integers and the cell values read from the file (row-major). -/
def readtableau (numrealvars numslackvars numconstraints : Nat) (values : List ℚ) : Tableau :=
  let rows := numconstraints + 1
  let cols := numrealvars + numslackvars + 3
  { rows := rows
    cols := cols
    numvars := numrealvars + numslackvars
    numrealvars := numrealvars
    numslackvars := numslackvars
    numartificialvars := 0
    numconstraints := numconstraints
    zcolumn := cols - 3
    constcolumn := cols - 2
    basiscolumn := cols - 1
    data := fillData rows cols (fun i j => values.getD (i * cols + j) 0) }

/-- The solver part of the C function `main`, after `readtableaufromfile`: phase one
and, only when it returned `OK`, phase two.  The result is the exit code together with
the tableau at exit. -/
def main (fuel : Nat) (t : Tableau) : Option (TabErr × Tableau) :=
  match phaseone fuel t with
  | none => none
  | some (error, t) =>
    if error ≠ 0 then some (error, t)
    else phasetwo fuel t

/-- One pass through the body of the `while` loop of `phasetwo`: `none` when the loop
exits (the tableau is optimal, or `findpivotrow` reports `UNBOUNDED`), otherwise the
tableau after the pivot. -/
def solverIteration (t : Tableau) : Option Tableau :=
  if !isoptimal t then
    let pivotcolumn := findpivotcolumn t
    let pivotrow := findpivotrow t pivotcolumn.toNat
    if pivotrow < 0 then none
    else some (pivot t pivotrow.toNat pivotcolumn.toNat)
  else none

/-- The tableau after `n` passes through the loop body of `phasetwo`, if the loop runs
that long. -/
def iterations : Nat → Tableau → Option Tableau
  | 0, t => some t
  | n + 1, t =>
    match solverIteration t with
    | none => none
    | some t' => iterations n t'

/-! ## Binary64 arithmetic

The functions above compute with exact rationals.  The source computes with C `double`s:
every `+`, `-`, `*`, `/` delivers the exact result rounded to the nearest binary64 value
(ties to even).  The definitions below embed the arithmetic functions of the source a
second time, with the rounding `fl` of the arithmetic as a parameter: `fl := round64`
gives the program as compiled for IEEE binary64 arithmetic (no fused multiply-add, no
extended precision), `fl := id` gives back the exact functions above.  Finite doubles are
rationals, so the cells stay in `ℚ`.  Infinities and NaN are not represented:
`round64` rounds as if the exponent range had no upper end, and a theorem that states an
outcome of a binary64 computation carries the hypothesis that the results involved are
within the finite range (`Finite64`). -/

/-- The power `2 ^ e` of an integer exponent, as a rational. -/
def pow2 (e : Int) : ℚ :=
  if 0 ≤ e then ((2 ^ e.toNat : Nat) : ℚ) else 1 / ((2 ^ (-e).toNat : Nat) : ℚ)

/-- Halving `n` until it is below 2, at most `fuel` times: the number of halvings. -/
def halvings : Nat → Nat → Nat
  | 0, _ => 0
  | fuel + 1, n => if n < 2 then 0 else halvings fuel (n / 2) + 1

/-- The binary logarithm of a natural number, rounded down (0 for 0). -/
def natLog2 (n : Nat) : Nat := halvings n n

/-- The binary exponent of a positive rational `q`: the `e` with `2 ^ e ≤ q < 2 ^ (e + 1)`.
The difference of the logarithms of numerator and denominator is `e` or `e + 1`. -/
def exponent2 (q : ℚ) : Int :=
  let e : Int := (natLog2 q.num.toNat : Int) - (natLog2 q.den : Int)
  if pow2 e ≤ q then e else e - 1

/-- Rounding of a non-negative rational to the nearest integer, ties to even. -/
def roundHalfEven (m : ℚ) : Nat :=
  let f := m.floor.toNat
  let r := m - (f : ℚ)
  if r < 1 / 2 then f
  else if 1 / 2 < r then f + 1
  else if f % 2 = 0 then f else f + 1

/-- Rounding of a non-negative rational to the nearest binary64 value, ties to even:
53 significant bits in the normal range (exponent at least -1022), multiples of
`2 ^ (-1074)` below it (gradual underflow). -/
def roundMagnitude64 (a : ℚ) : ℚ :=
  if a = 0 then 0
  else
    let e := if exponent2 a < -1022 then -1022 else exponent2 a
    let quantum := pow2 (e - 52)
    (roundHalfEven (a / quantum) : ℚ) * quantum

/-- Rounding to the nearest binary64 value, ties to even (the IEEE 754 default rounding
that every arithmetic operation on C `double`s applies to its exact result). -/
def round64 (q : ℚ) : ℚ :=
  if q < 0 then -roundMagnitude64 (-q) else roundMagnitude64 q

/-- The largest finite binary64 value, `(2 ^ 53 - 1) * 2 ^ 971`. -/
def maxFinite64 : ℚ := ((2 ^ 53 - 1 : Nat) : ℚ) * ((2 ^ 971 : Nat) : ℚ)

/-- The rounded result `q` is within the finite range of binary64: the operation that
delivers it does not overflow. -/
def Finite64 (q : ℚ) : Prop := -maxFinite64 ≤ q ∧ q ≤ maxFinite64

instance (q : ℚ) : Decidable (Finite64 q) := by unfold Finite64; infer_instance

/-- The unit roundoff of binary64, `2 ^ (-53)`. -/
def unitRoundoff : ℚ := 1 / 2 ^ 53

/-- The result `fl q` of an operation with exact result `q` has a relative error of at
most the unit roundoff (as every binary64 result in the normal range has). -/
def Accurate (fl : ℚ → ℚ) (q : ℚ) : Prop := |fl q - q| ≤ unitRoundoff * |q|

instance (fl : ℚ → ℚ) (q : ℚ) : Decidable (Accurate fl q) := by
  unfold Accurate; infer_instance

/-- The C macro `flt_lt(a, b)`, `a + EPSILON < b`, in rounded arithmetic: the literal
`1.0e-10` is rounded to a double by the compiler and the sum is rounded. -/
def flt_ltFl (fl : ℚ → ℚ) (a b : ℚ) : Bool := decide (fl (a + fl EPSILON) < b)

/-- The C function `addrows` in rounded arithmetic. -/
def addrowsFl (fl : ℚ → ℚ) (t : Tableau) (x y z : Nat) : Tableau :=
  (List.range t.cols).foldl
    (fun t i =>
      if i ≠ t.zcolumn ∧ i ≠ t.basiscolumn then set t z i (fl (get t x i + get t y i))
      else t)
    t

/-- The C function `addscaledrows` in rounded arithmetic: the product is rounded when
it is stored in the local `value`, the sum when it is computed. -/
def addscaledrowsFl (fl : ℚ → ℚ) (t : Tableau) (scalar : ℚ) (x y z : Nat) : Tableau :=
  (List.range t.cols).foldl
    (fun t i =>
      if i ≠ t.zcolumn ∧ i ≠ t.basiscolumn then
        let value := fl (get t x i * scalar)
        set t z i (fl (value + get t y i))
      else t)
    t

/-- The C function `scalerow` in rounded arithmetic. -/
def scalerowFl (fl : ℚ → ℚ) (t : Tableau) (scalar : ℚ) (z : Nat) : Tableau :=
  (List.range t.cols).foldl
    (fun t i =>
      if i ≠ t.zcolumn ∧ i ≠ t.basiscolumn then set t z i (fl (get t z i * scalar)) else t)
    t

/-- The C function `isoptimal` in rounded arithmetic. -/
def isoptimalFl (fl : ℚ → ℚ) (t : Tableau) : Bool :=
  (List.range t.numvars).foldl
    (fun ret i => if flt_ltFl fl (get t (t.rows - 1) i) 0 then false else ret)
    true

/-- One iteration of the loop of `findpivotrow` in rounded arithmetic: the quotient
is rounded. -/
def rowScanStepFl (fl : ℚ → ℚ) (t : Tableau) (pivotcolumn : Nat) (s : RowScan) (i : Nat) :
    RowScan :=
  let enteringvar := get t i pivotcolumn
  let constvar := get t i t.constcolumn
  if enteringvar ≤ 0 then s
  else
    let currentratio := fl (constvar / enteringvar)
    if !s.found then { minratio := currentratio, minratiorow := i, found := true }
    else if currentratio < s.minratio then
      { minratio := currentratio, minratiorow := i, found := true }
    else { s with found := true }

/-- The C function `findpivotrow` in rounded arithmetic. -/
def findpivotrowFl (fl : ℚ → ℚ) (t : Tableau) (pivotcolumn : Nat) : Int :=
  let s := (List.range t.numconstraints).foldl (rowScanStepFl fl t pivotcolumn)
    { minratio := 0, minratiorow := 0, found := false }
  if !s.found then UNBOUNDED else (s.minratiorow : Int)

/-- The C function `pivot` in rounded arithmetic (the negation `-get(...)` is exact). -/
def pivotFl (fl : ℚ → ℚ) (t : Tableau) (pivotrow pivotcolumn : Nat) : Tableau :=
  let t := set t pivotrow t.basiscolumn (pivotcolumn : ℚ)
  let scalar := fl (1 / get t pivotrow pivotcolumn)
  let t := scalerowFl fl t scalar pivotrow
  (List.range t.rows).foldl
    (fun t i =>
      if i ≠ pivotrow then
        let scalar := -get t i pivotcolumn
        addscaledrowsFl fl t scalar pivotrow i i
      else t)
    t

/-- The C function `createartificialtableau` in rounded arithmetic (the scalar `-1`
is exact). -/
def createartificialtableauFl (fl : ℚ → ℚ) (t : Tableau) : Tableau :=
  let t := addobjectiverow t
  let t := (List.range t.numconstraints).foldl
    (fun t i =>
      if get t i t.basiscolumn < 0 then
        let t := addartificialcolumn t i
        set t (t.rows - 1) (t.numvars - 1) (-1)
      else t)
    t
  let t := (List.range t.numconstraints).foldl
    (fun t i =>
      if get t i t.basiscolumn ≥ ((t.numrealvars + t.numslackvars : Nat) : ℚ) then
        addrowsFl fl t i (t.rows - 1) (t.rows - 1)
      else t)
    t
  scalerowFl fl t (-1) (t.rows - 1)

/-- The C function `phasetwo` in rounded arithmetic. -/
def phasetwoFl (fl : ℚ → ℚ) : Nat → Tableau → Option (TabErr × Tableau)
  | 0, _ => none
  | fuel + 1, t =>
    if !isoptimalFl fl t then
      let pivotcolumn := findpivotcolumn t
      let pivotrow := findpivotrowFl fl t pivotcolumn.toNat
      if pivotrow < 0 then some (pivotrow, t)
      else phasetwoFl fl fuel (pivotFl fl t pivotrow.toNat pivotcolumn.toNat)
    else some (OK, t)

/-- The C function `phaseone` in rounded arithmetic. -/
def phaseoneFl (fl : ℚ → ℚ) (fuel : Nat) (t : Tableau) : Option (TabErr × Tableau) :=
  if !isinsidefeasibleregion t then
    let t := createartificialtableauFl fl t
    match phasetwoFl fl fuel t with
    | none => none
    | some (error, t) =>
      if error < 0 then some (error, t)
      else if flt_ltFl fl (get t (t.rows - 1) t.constcolumn) 0 then some (INFEASIBLE, t)
      else some (OK, destroyartificialtableau t)
  else some (OK, t)

/-- The solver part of the C function `main` in rounded arithmetic. -/
def mainFl (fl : ℚ → ℚ) (fuel : Nat) (t : Tableau) : Option (TabErr × Tableau) :=
  match phaseoneFl fl fuel t with
  | none => none
  | some (error, t) =>
    if error ≠ 0 then some (error, t)
    else phasetwoFl fl fuel t

/-- One pass through the body of the `while` loop of `phasetwo` in rounded arithmetic
(see `solverIteration`). -/
def solverIterationFl (fl : ℚ → ℚ) (t : Tableau) : Option Tableau :=
  if !isoptimalFl fl t then
    let pivotcolumn := findpivotcolumn t
    let pivotrow := findpivotrowFl fl t pivotcolumn.toNat
    if pivotrow < 0 then none
    else some (pivotFl fl t pivotrow.toNat pivotcolumn.toNat)
  else none

/-! ## Auxiliary definitions used in the statements and proofs -/

/-- The tableau with its buffer emptied: the record of all integer fields. -/
def shape (t : Tableau) : Tableau := { t with data := [] }

/-- Well-formed tableau: the buffer holds `rows * cols` cells and the three marker
columns follow the variable columns (the layout set up by `readtableaufromfile`). -/
def WF (t : Tableau) : Prop :=
  t.data.length = t.rows * t.cols ∧ t.zcolumn = t.numvars ∧ t.constcolumn = t.numvars + 1 ∧
    t.basiscolumn = t.numvars + 2 ∧ t.cols = t.numvars + 3

instance (t : Tableau) : Decidable (WF t) := by unfold WF; infer_instance

/-- Inner copy loop of `fillData`, first `n` columns of row `i`. -/
def fillRow (cols : Nat) (f : Nat → Nat → ℚ) (d : List ℚ) (i n : Nat) : List ℚ :=
  (List.range n).foldl (fun d j => d.set (i * cols + j) (f i j)) d

/-- Outer copy loop of `fillData`, first `m` rows. -/
def fillRows (cols : Nat) (f : Nat → Nat → ℚ) (d : List ℚ) (m : Nat) : List ℚ :=
  (List.range m).foldl (fun d i => fillRow cols f d i cols) d

/-- The common loop of `addrows`, `subtractrows`, `addscaledrows` and `scalerow`,
stopped after the first `n` columns: cell `(z, i)` becomes `G (x, i) (y, i)`. -/
def rowCombine (G : ℚ → ℚ → ℚ) (t : Tableau) (x y z n : Nat) : Tableau :=
  (List.range n).foldl
    (fun t i =>
      if i ≠ t.zcolumn ∧ i ≠ t.basiscolumn then set t z i (G (get t x i) (get t y i)) else t)
    t

/-- The elimination loop of `pivot`, stopped after the first `n` rows. -/
def pivotLoop (t : Tableau) (pivotrow pivotcolumn n : Nat) : Tableau :=
  (List.range n).foldl
    (fun t i =>
      if i ≠ pivotrow then
        let scalar := -get t i pivotcolumn
        addscaledrows t scalar pivotrow i i
      else t)
    t

/-- The loop of `findpivotrow`, stopped after the first `n` constraint rows. -/
def rowScan (t : Tableau) (pivotcolumn n : Nat) : RowScan :=
  (List.range n).foldl (rowScanStep t pivotcolumn)
    { minratio := 0, minratiorow := 0, found := false }

/-- The ratio `rhs[i] / tableau[i][c]` of the ratio test. -/
def ratio (t : Tableau) (c i : Nat) : ℚ := get t i t.constcolumn / get t i c

/-- The loop of `findpivotcolumn`, stopped after the first `n` columns. -/
def colScan (t : Tableau) (n : Nat) : ColScan :=
  (List.range n).foldl (colScanStep t) { maxnegindex := -1, maxneg := 0 }

/-- The loop of `isoptimal`, stopped after the first `n` columns. -/
def optScan (t : Tableau) (n : Nat) : Bool :=
  (List.range n).foldl
    (fun ret i => if flt_lt (get t (t.rows - 1) i) 0 then false else ret)
    true

/-! ## Concrete tableaux -/

/-- The canonical scenario: maximize `3 x1 + 5 x2` subject to `x1 ≤ 4`, `2 x2 ≤ 12`,
`3 x1 + 2 x2 ≤ 18`, slack variables initially basic. -/
def canonical : Tableau :=
  { rows := 4, cols := 8, numvars := 5, numrealvars := 2, numslackvars := 3,
    numartificialvars := 0, numconstraints := 3, zcolumn := 5, constcolumn := 6,
    basiscolumn := 7,
    data := [1, 0, 1, 0, 0, 0, 4, 2,
             0, 2, 0, 1, 0, 0, 12, 3,
             3, 2, 0, 0, 1, 0, 18, 4,
             -3, -5, 0, 0, 0, 1, 0, 0] }

/-- Maximize `x1/2 + x2/4` subject to `x1 + x2 ≤ 4`: an objective row with two
negative entries strictly between `-1` and `0`. -/
def fractional : Tableau :=
  { rows := 2, cols := 6, numvars := 3, numrealvars := 2, numslackvars := 1,
    numartificialvars := 0, numconstraints := 1, zcolumn := 3, constcolumn := 4,
    basiscolumn := 5,
    data := [1, 1, 1, 0, 4, 2,
             -1/2, -1/4, 0, 1, 0, 0] }

/-- The tableau `phasetwo` stops on for the canonical scenario. -/
def canonicalFinal : Tableau :=
  { canonical with
    data := [0, 0, 1, 1/3, -1/3, 0, 2, 2,
             0, 1, 0, 1/2, 0, 0, 6, 1,
             1, 0, 0, -1/3, 1/3, 0, 2, 0,
             0, 0, 0, 3/2, 1, 1, 36, 0] }

/-- The unbounded instance: maximize `x1` subject to `x1 - x2 ≤ 1`. -/
def unboundedInstance : Tableau :=
  { rows := 2, cols := 6, numvars := 3, numrealvars := 2, numslackvars := 1,
    numartificialvars := 0, numconstraints := 1, zcolumn := 3, constcolumn := 4,
    basiscolumn := 5,
    data := [1, -1, 1, 0, 1, 2,
             -1, 0, 0, 1, 0, 0] }

/-- The tableau on which `phasetwo` detects unboundedness for `unboundedInstance`
(after the pivot on row 0, column 0). -/
def unboundedFinal : Tableau :=
  { unboundedInstance with
    data := [1, -1, 1, 0, 1, 0,
             0, -1, 1, 1, 1, 0] }

/-- The loop of `isinsidefeasibleregion`, stopped after the first `n` rows. -/
def feasScan (t : Tableau) (n : Nat) : Bool :=
  (List.range n).foldl
    (fun isfeasible i => if get t i t.basiscolumn < 0 then false else isfeasible)
    true

/-- Row `i` carries the sentinel: its basis-index cell is negative. -/
def isSentinel (t : Tableau) (i : Nat) : Bool := decide (get t i t.basiscolumn < 0)

/-- The number of sentinel rows among the first `n` rows. -/
def sentinelsBefore (t : Tableau) (n : Nat) : Nat :=
  (List.range n).countP (isSentinel t)

/-- The first loop of `createartificialtableau` (one artificial column per sentinel
row), stopped after the first `n` constraint rows. -/
def artLoop (t : Tableau) (n : Nat) : Tableau :=
  (List.range n).foldl
    (fun t i =>
      if get t i t.basiscolumn < 0 then
        let t := addartificialcolumn t i
        set t (t.rows - 1) (t.numvars - 1) (-1)
      else t)
    t

/-- The second loop of `createartificialtableau` (rows with an artificial basis are
added into the last row), stopped after the first `n` constraint rows. -/
def cancelLoop (t : Tableau) (n : Nat) : Tableau :=
  (List.range n).foldl
    (fun t i =>
      if get t i t.basiscolumn ≥ ((t.numrealvars + t.numslackvars : Nat) : ℚ) then
        addrows t i (t.rows - 1) (t.rows - 1)
      else t)
    t

/-- The cell `(r, c)` of `artLoop A n`, in terms of the cells of `A`. -/
def artCell (A : Tableau) (n r c : Nat) : ℚ :=
  if c < A.numvars then get A r c
  else if c < A.numvars + sentinelsBefore A n then
    (if r < n ∧ isSentinel A r = true ∧ A.numvars + sentinelsBefore A r = c then 1
     else if r = A.rows - 1 then -1 else 0)
  else if c = A.basiscolumn + sentinelsBefore A n ∧ r < n ∧ isSentinel A r = true then
    ((A.numvars + sentinelsBefore A r : Nat) : ℚ)
  else get A r (c - sentinelsBefore A n)

/-- The sum of the cells of column `c` over the sentinel rows among the first `n`. -/
def sentinelSum (t : Tableau) (c n : Nat) : ℚ :=
  (((List.range n).filter (isSentinel t)).map (fun i => get t i c)).sum

/-- The integer fields of `B` are those of `A` after `k` artificial columns were added. -/
def Shifted (A B : Tableau) (k : Nat) : Prop :=
  B.rows = A.rows ∧ B.cols = A.cols + k ∧ B.numvars = A.numvars + k ∧
  B.numrealvars = A.numrealvars ∧ B.numslackvars = A.numslackvars ∧
  B.numartificialvars = A.numartificialvars + k ∧ B.numconstraints = A.numconstraints ∧
  B.zcolumn = A.zcolumn + k ∧ B.constcolumn = A.constcolumn + k ∧
  B.basiscolumn = A.basiscolumn + k

/-- The sum of `g i` over the indices `i < n` selected by `p`. -/
def condSum (p : Nat → Bool) (g : Nat → ℚ) (n : Nat) : ℚ :=
  (((List.range n).filter p).map g).sum

/-- The test of the second loop of `createartificialtableau`: the basis index of row
`i` names an artificial column. -/
def hasArtificialBasis (t : Tableau) (i : Nat) : Bool :=
  decide (get t i t.basiscolumn ≥ ((t.numrealvars + t.numslackvars : Nat) : ℚ))

/-- The cell `(r, c)` of a constraint row or of the original objective row (`r < rows`)
after `createartificialtableau`, in terms of the cells of the original tableau. -/
def createdCell (t : Tableau) (r c : Nat) : ℚ :=
  if c < t.numvars then get t r c
  else if c < t.numvars + sentinelsBefore t t.numconstraints then
    (if r < t.numconstraints ∧ isSentinel t r = true ∧ t.numvars + sentinelsBefore t r = c
      then 1 else 0)
  else if c = t.basiscolumn + sentinelsBefore t t.numconstraints ∧
      r < t.numconstraints ∧ isSentinel t r = true then
    ((t.numvars + sentinelsBefore t r : Nat) : ℚ)
  else get t r (c - sentinelsBefore t t.numconstraints)

/-- The cell `c` of the auxiliary objective row (the new last row) after
`createartificialtableau`, in terms of the cells of the original tableau. -/
def auxCell (t : Tableau) (c : Nat) : ℚ :=
  if c < t.numvars then -(sentinelSum t c t.numconstraints)
  else if c < t.numvars + sentinelsBefore t t.numconstraints then 0
  else if c = t.zcolumn + sentinelsBefore t t.numconstraints then 1
  else if c = t.constcolumn + sentinelsBefore t t.numconstraints then
    -(sentinelSum t t.constcolumn t.numconstraints)
  else 0

/-- The column-layout predicate: the variable count is the sum of the three kinds of
variables and the three marker columns follow the variable columns. -/
def Layout (t : Tableau) : Prop :=
  t.numvars = t.numrealvars + t.numslackvars + t.numartificialvars ∧
  t.zcolumn = t.numvars ∧ t.constcolumn = t.numvars + 1 ∧
  t.basiscolumn = t.numvars + 2 ∧ t.cols = t.numvars + 3

instance (t : Tableau) : Decidable (Layout t) := by unfold Layout; infer_instance

/-- The infeasible instance `x1 + x2 ≤ 4`, `x1 + x2 ≥ 10`, with an arbitrary objective
row `o0 … o6`. -/
def infeasibleInstance (o0 o1 o2 o3 o4 o5 o6 : ℚ) : Tableau :=
  { rows := 3, cols := 7, numvars := 4, numrealvars := 2, numslackvars := 2,
    numartificialvars := 0, numconstraints := 2, zcolumn := 4, constcolumn := 5,
    basiscolumn := 6,
    data := [1, 1, 1, 0, 0, 4, 2,
             1, 1, 0, -1, 0, 10, -1,
             o0, o1, o2, o3, o4, o5, o6] }

/-- Canonical form: every constraint row has a basic variable whose column is a unit
column (1 in the row, 0 in every other row, the objective rows included). -/
def Canonical (t : Tableau) : Prop :=
  WF t ∧ t.numconstraints < t.rows ∧
  ∀ i, i < t.numconstraints → ∃ b, b < t.numvars ∧ get t i t.basiscolumn = (b : ℚ) ∧
    get t i b = 1 ∧ ∀ r, r < t.rows → r ≠ i → get t r b = 0

/-- The basis-index cells of the constraint rows are pairwise distinct. -/
def DistinctBasis (t : Tableau) : Prop :=
  ∀ i j, i < t.numconstraints → j < t.numconstraints → i ≠ j →
    get t i t.basiscolumn ≠ get t j t.basiscolumn

/-- Every constraint row either carries the sentinel or has a basic variable whose
column is a unit column (0 in the objective row as well). -/
def AssignedCanonical (t : Tableau) : Prop :=
  ∀ i, i < t.numconstraints → get t i t.basiscolumn < 0 ∨
    ∃ b, b < t.numvars ∧ get t i t.basiscolumn = (b : ℚ) ∧
      get t i b = 1 ∧ ∀ r, r < t.rows → r ≠ i → get t r b = 0

instance (t : Tableau) : Decidable (Canonical t) := by unfold Canonical; infer_instance

instance (t : Tableau) : Decidable (AssignedCanonical t) := by
  unfold AssignedCanonical; infer_instance

/-- Two copies of the equality constraint `x1 + x2 = 2` (both rows carry the sentinel),
objective `x1 + x2`. -/
def duplicated : Tableau :=
  { rows := 3, cols := 5, numvars := 2, numrealvars := 2, numslackvars := 0,
    numartificialvars := 0, numconstraints := 2, zcolumn := 2, constcolumn := 3,
    basiscolumn := 4,
    data := [1, 1, 0, 2, -1,
             1, 1, 0, 2, -1,
             -1, -1, 1, 0, 0] }

/-- The tableau `phaseone` returns for `duplicated`. -/
def duplicatedAfter : Tableau :=
  { duplicated with
    data := [1, 1, 0, 2, 0,
             0, 0, 0, 0, 3,
             0, 0, 1, 2, 0] }

/-- Tableaux `a` and `b` have the same integer fields and the same cells outside
row `k`. -/
def AgreeOff (k : Nat) (a b : Tableau) : Prop :=
  shape a = shape b ∧ ∀ r c, r < a.rows → c < a.cols → r ≠ k → get a r c = get b r c

/-- Two well-formed tableaux that agree outside row `k`, where row `k` is neither a
constraint row nor the last row. -/
def Frame (k : Nat) (a b : Tableau) : Prop :=
  AgreeOff k a b ∧ WF a ∧ WF b ∧ a.numconstraints ≤ k ∧ k < a.rows - 1

/-! ## The linear program encoded by a tableau

A point assigns a value `x j` to every variable column `j < numvars`.  Row `i` stands
for the equation `∑ j, tableau[i][j] * x j = rhs[i]`; the objective value of a point is
read off an objective row `k` as `rhs[k] - ∑ j, tableau[k][j] * x j` (the z column is
never read by the solver and plays no part). -/

/-- The left-hand side of row `i` at the point `x`. -/
def rowValue (t : Tableau) (i : Nat) (x : Nat → ℚ) : ℚ :=
  Finset.sum (Finset.range t.numvars) (fun j => get t i j * x j)

/-- The point `x` is feasible: non-negative, and it satisfies every constraint row. -/
def Feasible (t : Tableau) (x : Nat → ℚ) : Prop :=
  (∀ j, j < t.numvars → 0 ≤ x j) ∧
  ∀ i, i < t.numconstraints → rowValue t i x = get t i t.constcolumn

/-- The objective value of `x` read off row `k`. -/
def rowObjective (t : Tableau) (k : Nat) (x : Nat → ℚ) : ℚ :=
  get t k t.constcolumn - rowValue t k x

/-- The objective value of `x` read off the last row. -/
def objValue (t : Tableau) (x : Nat → ℚ) : ℚ := rowObjective t (t.rows - 1) x

/-- The basic solution of a tableau: the variable named by the basis cell of a
constraint row takes the RHS of that row, every other variable is 0. -/
def basicSolution (t : Tableau) (j : Nat) : ℚ :=
  Finset.sum (Finset.range t.numconstraints)
    (fun i => if get t i t.basiscolumn = (j : ℚ) then get t i t.constcolumn else 0)

/-- The value `v` is the optimum of the linear program encoded by `t`. -/
def IsOptimum (t : Tableau) (v : ℚ) : Prop :=
  (∃ x, Feasible t x ∧ objValue t x = v) ∧ ∀ x, Feasible t x → objValue t x ≤ v

/-- Every constraint row has a non-negative RHS. -/
def RhsNonneg (t : Tableau) : Prop :=
  ∀ i, i < t.numconstraints → 0 ≤ get t i t.constcolumn

instance (t : Tableau) : Decidable (RhsNonneg t) := by unfold RhsNonneg; infer_instance

/-- The point `x` on the first `n` variables, extended by 0 on the further (artificial)
variables. -/
def extendPoint (n : Nat) (x : Nat → ℚ) : Nat → ℚ := fun j => if j < n then x j else 0

/-- Maximise `x1 / 10^11` subject to `x1 + s1 = 1000`: one real variable, one slack
variable (basic), one constraint. -/
def tolerance : Tableau :=
  { rows := 2, cols := 5, numvars := 2, numrealvars := 1, numslackvars := 1,
    numartificialvars := 0, numconstraints := 1, zcolumn := 2, constcolumn := 3,
    basiscolumn := 4,
    data := [1, 1, 0, 1000, 1,
             -(1 / 100000000000), 0, 1, 0, 0] }

/-- Maximise `10 x1 - 57 x2 - 9 x3 - 24 x4` subject to
`x1/2 - 11 x2/2 - 5 x3/2 + 9 x4 + s1 = 0`, `x1/2 - 3 x2/2 - x3/2 + x4 + s2 = 0` and
`x1 + s3 = 1`: four real variables, three slack variables (basic), three constraints. -/
def degenerate : Tableau :=
  { rows := 4, cols := 10, numvars := 7, numrealvars := 4, numslackvars := 3,
    numartificialvars := 0, numconstraints := 3, zcolumn := 7, constcolumn := 8,
    basiscolumn := 9,
    data := [1 / 2, -(11 / 2), -(5 / 2), 9, 1, 0, 0, 0, 0, 4,
             1 / 2, -(3 / 2), -(1 / 2), 1, 0, 1, 0, 0, 0, 5,
             1, 0, 0, 0, 0, 0, 1, 0, 1, 6,
             -10, 57, 9, 24, 0, 0, 0, 1, 0, 0] }

/-- Maximise `x1 + 2 x2` subject to `x1 + x2 = 2` (no basic variable assigned: the
row carries the sentinel) and `x1 + s1 = 1` (the slack variable is basic). -/
def twoPhase : Tableau :=
  { rows := 3, cols := 6, numvars := 3, numrealvars := 2, numslackvars := 1,
    numartificialvars := 0, numconstraints := 2, zcolumn := 3, constcolumn := 4,
    basiscolumn := 5,
    data := [1, 1, 0, 0, 2, -1,
             1, 0, 1, 0, 1, 2,
             -1, -2, 0, 1, 0, 0] }

/-- The tableau `twoPhase` after phase one: the artificial column and the auxiliary
objective row are gone, `x2` and `x1` are basic. -/
def twoPhaseMid : Tableau :=
  { twoPhase with
    data := [0, 1, -1, 0, 1, 1,
             1, 0, 1, 0, 1, 0,
             0, 0, -1, 1, 3, 0] }

/-- The tableau `twoPhase` after phase two: `x2 = 2` and `s1 = 1` are basic, the
objective RHS is 4. -/
def twoPhaseFinal : Tableau :=
  { twoPhase with
    data := [1, 1, 0, 0, 2, 1,
             1, 0, 1, 0, 1, 2,
             1, 0, 0, 1, 4, 0] }

/-- The point `x1 = 1`, `x3 = 1`, `s1 = 2` of the linear program of `degenerate`. -/
def degeneratePoint : Nat → ℚ := fun j => if j = 0 then 1 else if j = 2 then 1 else
  if j = 4 then 2 else 0

/-! ## Auxiliary definitions for the rounded functions -/

/-- The elimination loop of `pivotFl`, stopped after the first `n` rows. -/
def pivotLoopFl (fl : ℚ → ℚ) (t : Tableau) (pivotrow pivotcolumn n : Nat) : Tableau :=
  (List.range n).foldl
    (fun t i =>
      if i ≠ pivotrow then
        let scalar := -get t i pivotcolumn
        addscaledrowsFl fl t scalar pivotrow i i
      else t)
    t

/-- The loop of `findpivotrowFl`, stopped after the first `n` constraint rows. -/
def rowScanFl (fl : ℚ → ℚ) (t : Tableau) (pivotcolumn n : Nat) : RowScan :=
  (List.range n).foldl (rowScanStepFl fl t pivotcolumn)
    { minratio := 0, minratiorow := 0, found := false }

/-- The loop of `isoptimalFl`, stopped after the first `n` columns. -/
def optScanFl (fl : ℚ → ℚ) (t : Tableau) (n : Nat) : Bool :=
  (List.range n).foldl
    (fun ret i => if flt_ltFl fl (get t (t.rows - 1) i) 0 then false else ret)
    true

/-- The second loop of `createartificialtableauFl`, stopped after the first `n`
constraint rows. -/
def cancelLoopFl (fl : ℚ → ℚ) (t : Tableau) (n : Nat) : Tableau :=
  (List.range n).foldl
    (fun t i =>
      if get t i t.basiscolumn ≥ ((t.numrealvars + t.numslackvars : Nat) : ℚ) then
        addrowsFl fl t i (t.rows - 1) (t.rows - 1)
      else t)
    t

/-- The tableau after `n` passes through the loop body of `phasetwoFl`, if the loop runs
that long. -/
def iterationsFl (fl : ℚ → ℚ) : Nat → Tableau → Option Tableau
  | 0, t => some t
  | n + 1, t =>
    match solverIterationFl fl t with
    | none => none
    | some t' => iterationsFl fl n t'

/-- Maximise `10^7 x1` subject to `49 x1 + s1 = 49`: one real variable, one slack
variable (basic), one constraint.  Every cell is a binary64 value. -/
def scaledPivot : Tableau :=
  { rows := 2, cols := 5, numvars := 2, numrealvars := 1, numslackvars := 1,
    numartificialvars := 0, numconstraints := 1, zcolumn := 2, constcolumn := 3,
    basiscolumn := 4,
    data := [49, 1, 0, 49, 1,
             -10000000, 0, 1, 0, 0] }

/-- Maximise `x1` subject to `14 x1 + s1 = 32` and `7 x1 + s2 = 16 - 2^(-49)` (the
largest binary64 value below 16): the exact ratios are `16/7` and
`16/7 - 2^(-49)/7`, and both quotients round to the same binary64 value. -/
def tiedRatios : Tableau :=
  { rows := 3, cols := 6, numvars := 3, numrealvars := 1, numslackvars := 2,
    numartificialvars := 0, numconstraints := 2, zcolumn := 3, constcolumn := 4,
    basiscolumn := 5,
    data := [14, 1, 0, 0, 32, 1,
             7, 0, 1, 0, 9007199254740991 / 562949953421312, 2,
             -1, 0, 0, 1, 0, 0] }

/-- Maximise `x1` subject to `5 x1 + s1 = 3` and `5 x1 + s2 = 3`: two real-valued
constraints with the same ratio `3/5`, which is not a binary64 value. -/
def roundedRhs : Tableau :=
  { rows := 3, cols := 6, numvars := 3, numrealvars := 1, numslackvars := 2,
    numartificialvars := 0, numconstraints := 2, zcolumn := 3, constcolumn := 4,
    basiscolumn := 5,
    data := [5, 1, 0, 0, 3, 1,
             5, 0, 1, 0, 3, 2,
             -1, 0, 0, 1, 0, 0] }

/-- Maximise `x1 / 2 + c x2`, with `c` the binary64 value nearest to `3/10`, subject to
`49 x2 + s1 = 1` and `x1 + 98 x2 + s2 = 2`: two real variables, two slack variables
(basic), two constraints, in canonical form.  The optimum is `1` (at `x1 = 2`,
`x2 = 0`). -/
def roundedBasis : Tableau :=
  { rows := 3, cols := 7, numvars := 4, numrealvars := 2, numslackvars := 2,
    numartificialvars := 0, numconstraints := 2, zcolumn := 4, constcolumn := 5,
    basiscolumn := 6,
    data := [0, 49, 1, 0, 0, 1, 2,
             1, 98, 0, 1, 0, 2, 3,
             -(1 / 2), -(5404319552844595 / 18014398509481984), 0, 0, 1, 0, 0] }

/-- The point `x1 = 2`, `s1 = 1` of the linear program of `roundedBasis`. -/
def roundedBasisPoint : Nat → ℚ := fun j => if j = 0 then 2 else if j = 2 then 1 else 0

/-- The tableau that the binary64 run of the solver returns on `roundedBasis` (four
pivots): objective RHS about `1.3042`. -/
def roundedBasisFinal : Tableau :=
  { roundedBasis with
    data := [0, 64, 1, 0, 0, 2941126287262365 / 2251799813685248, 2,
             1, 128, 0, 1, 0, 2941126287262365 / 1125899906842624, 0,
             0, 8952053136854823 / 140737488355328, 0, 1 / 2, 1,
               5873811842195215 / 4503599627370496, 0] }

/-- Maximise `10^6 x2` subject to `49 x2 + s1 = 1` and `x1 + 98 x2 + s2 = 2`: two real
variables, two slack variables (basic), two constraints, in canonical form.  Column 1 is
the only column with a negative objective entry. -/
def residuePivot : Tableau :=
  { rows := 3, cols := 7, numvars := 4, numrealvars := 2, numslackvars := 2,
    numartificialvars := 0, numconstraints := 2, zcolumn := 4, constcolumn := 5,
    basiscolumn := 6,
    data := [0, 49, 1, 0, 0, 1, 2,
             1, 98, 0, 1, 0, 2, 3,
             0, -1000000, 0, 0, 1, 0, 0] }

/-! ## Index arithmetic and buffer lemmas -/

theorem idx_lt {rows cols r c : Nat} (hr : r < rows) (hc : c < cols) :
    r * cols + c < rows * cols := by
  calc r * cols + c < r * cols + cols := by omega
    _ = (r + 1) * cols := by ring
    _ ≤ rows * cols := Nat.mul_le_mul_right _ hr

theorem idx_inj {cols r c r' c' : Nat} (hc : c < cols) (hc' : c' < cols)
    (h : r * cols + c = r' * cols + c') : r = r' ∧ c = c' := by
  have hpos : 0 < cols := by omega
  have h1 := congrArg (· / cols) h
  have h2 := congrArg (· % cols) h
  simp only [Nat.add_comm (_ * cols), Nat.add_mul_div_right _ _ hpos,
    Nat.add_mul_mod_self_right, Nat.div_eq_of_lt hc, Nat.div_eq_of_lt hc',
    Nat.mod_eq_of_lt hc, Nat.mod_eq_of_lt hc', Nat.zero_add] at h1 h2
  exact ⟨h1, h2⟩

theorem getD_set_eq (l : List ℚ) (i : Nat) (v : ℚ) (h : i < l.length) :
    (l.set i v).getD i 0 = v := by
  simp [List.getD_eq_getElem?_getD, h]

theorem getD_set_ne (l : List ℚ) (i j : Nat) (v : ℚ) (h : i ≠ j) :
    (l.set i v).getD j 0 = l.getD j 0 := by
  simp [List.getD_eq_getElem?_getD, List.getElem?_set_ne h]

theorem fillRow_length (cols : Nat) (f : Nat → Nat → ℚ) (d : List ℚ) (i n : Nat) :
    (fillRow cols f d i n).length = d.length := by
  induction n with
  | zero => rfl
  | succ n ih =>
    simp only [fillRow, List.range_succ, List.foldl_append, List.foldl_cons, List.foldl_nil,
      List.length_set] at ih ⊢
    exact ih

theorem fillRow_getD (cols : Nat) (f : Nat → Nat → ℚ) (d : List ℚ) (i n r c : Nat)
    (hn : n ≤ cols) (hc : c < cols) (hlen : ∀ j, j < n → i * cols + j < d.length) :
    (fillRow cols f d i n).getD (r * cols + c) 0 =
      if r = i ∧ c < n then f i c else d.getD (r * cols + c) 0 := by
  induction n with
  | zero => simp [fillRow]
  | succ n ih =>
    have ih := ih (by omega) (fun j hj => hlen j (by omega))
    have hstep : fillRow cols f d i (n + 1) =
        (fillRow cols f d i n).set (i * cols + n) (f i n) := by
      simp [fillRow, List.range_succ, List.foldl_append]
    rw [hstep]
    by_cases hrc : r = i ∧ c = n
    · obtain ⟨rfl, rfl⟩ := hrc
      rw [getD_set_eq _ _ _ (by rw [fillRow_length]; exact hlen c (by omega))]
      simp
    · have hne : i * cols + n ≠ r * cols + c := by
        intro h
        have := idx_inj (by omega) hc h
        exact hrc ⟨this.1.symm, this.2.symm⟩
      rw [getD_set_ne _ _ _ _ hne, ih]
      by_cases hr : r = i
      · subst hr
        have : c ≠ n := fun h => hrc ⟨rfl, h⟩
        have h1 : (c < n + 1) = (c < n) := by
          apply propext; constructor <;> intro h <;> omega
        simp [h1]
      · simp [hr]

theorem fillRows_length (cols : Nat) (f : Nat → Nat → ℚ) (d : List ℚ) (m : Nat) :
    (fillRows cols f d m).length = d.length := by
  induction m with
  | zero => rfl
  | succ m ih =>
    have hstep : fillRows cols f d (m + 1) = fillRow cols f (fillRows cols f d m) m cols := by
      simp [fillRows, List.range_succ, List.foldl_append]
    rw [hstep, fillRow_length, ih]

theorem fillRows_getD (rows cols : Nat) (f : Nat → Nat → ℚ) (d : List ℚ) (m r c : Nat)
    (hm : m ≤ rows) (hc : c < cols) (hlen : d.length = rows * cols) :
    (fillRows cols f d m).getD (r * cols + c) 0 =
      if r < m then f r c else d.getD (r * cols + c) 0 := by
  induction m with
  | zero => simp [fillRows]
  | succ m ih =>
    have ih := ih (by omega)
    have hstep : fillRows cols f d (m + 1) = fillRow cols f (fillRows cols f d m) m cols := by
      simp [fillRows, List.range_succ, List.foldl_append]
    rw [hstep, fillRow_getD cols f _ m cols r c (le_refl _) hc
      (fun j hj => by rw [fillRows_length, hlen]; exact idx_lt (by omega) hj), ih]
    by_cases hr : r = m
    · subst hr; simp [hc]
    · by_cases hlt : r < m
      · have : r < m + 1 := by omega
        simp [hr, hlt, this]
      · have : ¬ r < m + 1 := by omega
        simp [hr, hlt, this]

theorem fillData_eq (rows cols : Nat) (f : Nat → Nat → ℚ) :
    fillData rows cols f = fillRows cols f (List.replicate (rows * cols) 0) rows := rfl

theorem fillData_length (rows cols : Nat) (f : Nat → Nat → ℚ) :
    (fillData rows cols f).length = rows * cols := by
  rw [fillData_eq, fillRows_length, List.length_replicate]

theorem fillData_getD (rows cols : Nat) (f : Nat → Nat → ℚ) (r c : Nat)
    (hr : r < rows) (hc : c < cols) :
    (fillData rows cols f).getD (r * cols + c) 0 = f r c := by
  rw [fillData_eq, fillRows_getD rows cols f _ rows r c (le_refl _) hc
    (List.length_replicate _ _)]
  simp [hr]

/-! ## `get` / `set` -/

theorem shape_rows {a b : Tableau} (h : shape a = shape b) : a.rows = b.rows := by
  have := congrArg Tableau.rows h; exact this

theorem shape_cols {a b : Tableau} (h : shape a = shape b) : a.cols = b.cols := by
  have := congrArg Tableau.cols h; exact this

theorem shape_numvars {a b : Tableau} (h : shape a = shape b) : a.numvars = b.numvars := by
  have := congrArg Tableau.numvars h; exact this

theorem shape_numrealvars {a b : Tableau} (h : shape a = shape b) :
    a.numrealvars = b.numrealvars := by
  have := congrArg Tableau.numrealvars h; exact this

theorem shape_numslackvars {a b : Tableau} (h : shape a = shape b) :
    a.numslackvars = b.numslackvars := by
  have := congrArg Tableau.numslackvars h; exact this

theorem shape_numartificialvars {a b : Tableau} (h : shape a = shape b) :
    a.numartificialvars = b.numartificialvars := by
  have := congrArg Tableau.numartificialvars h; exact this

theorem shape_numconstraints {a b : Tableau} (h : shape a = shape b) :
    a.numconstraints = b.numconstraints := by
  have := congrArg Tableau.numconstraints h; exact this

theorem shape_zcolumn {a b : Tableau} (h : shape a = shape b) : a.zcolumn = b.zcolumn := by
  have := congrArg Tableau.zcolumn h; exact this

theorem shape_constcolumn {a b : Tableau} (h : shape a = shape b) :
    a.constcolumn = b.constcolumn := by
  have := congrArg Tableau.constcolumn h; exact this

theorem shape_basiscolumn {a b : Tableau} (h : shape a = shape b) :
    a.basiscolumn = b.basiscolumn := by
  have := congrArg Tableau.basiscolumn h; exact this

theorem shapeEq_rows {a s : Tableau} (h : shape a = s) : a.rows = s.rows := by
  have := congrArg Tableau.rows h; exact this

theorem shapeEq_cols {a s : Tableau} (h : shape a = s) : a.cols = s.cols := by
  have := congrArg Tableau.cols h; exact this

theorem shapeEq_numvars {a s : Tableau} (h : shape a = s) : a.numvars = s.numvars := by
  have := congrArg Tableau.numvars h; exact this

theorem shapeEq_numrealvars {a s : Tableau} (h : shape a = s) : a.numrealvars = s.numrealvars := by
  have := congrArg Tableau.numrealvars h; exact this

theorem shapeEq_numslackvars {a s : Tableau} (h : shape a = s) : a.numslackvars = s.numslackvars := by
  have := congrArg Tableau.numslackvars h; exact this

theorem shapeEq_numartificialvars {a s : Tableau} (h : shape a = s) : a.numartificialvars = s.numartificialvars := by
  have := congrArg Tableau.numartificialvars h; exact this

theorem shapeEq_numconstraints {a s : Tableau} (h : shape a = s) : a.numconstraints = s.numconstraints := by
  have := congrArg Tableau.numconstraints h; exact this

theorem shapeEq_zcolumn {a s : Tableau} (h : shape a = s) : a.zcolumn = s.zcolumn := by
  have := congrArg Tableau.zcolumn h; exact this

theorem shapeEq_constcolumn {a s : Tableau} (h : shape a = s) : a.constcolumn = s.constcolumn := by
  have := congrArg Tableau.constcolumn h; exact this

theorem shapeEq_basiscolumn {a s : Tableau} (h : shape a = s) : a.basiscolumn = s.basiscolumn := by
  have := congrArg Tableau.basiscolumn h; exact this

/-- Two tableaux with the same integer fields and buffers of the same length are
well-formed together. -/
theorem WF_of_shape {a b : Tableau} (h : shape a = shape b)
    (hl : a.data.length = b.data.length) (hb : WF b) : WF a := by
  unfold WF at hb ⊢
  rw [hl, shape_rows h, shape_cols h, shape_zcolumn h, shape_numvars h, shape_constcolumn h,
    shape_basiscolumn h]
  exact hb

@[simp] theorem shape_set (t : Tableau) (r c : Nat) (v : ℚ) : shape (set t r c v) = shape t := rfl

theorem length_set (t : Tableau) (r c : Nat) (v : ℚ) :
    (set t r c v).data.length = t.data.length := by
  simp [set]

theorem get_set (t : Tableau) (r c r' c' : Nat) (v : ℚ)
    (hlen : t.data.length = t.rows * t.cols) (hr : r < t.rows) (hc : c < t.cols)
    (hc' : c' < t.cols) :
    get (set t r c v) r' c' = if r' = r ∧ c' = c then v else get t r' c' := by
  by_cases h : r' = r ∧ c' = c
  · obtain ⟨rfl, rfl⟩ := h
    simp only [get, set, and_self, if_true]
    exact getD_set_eq _ _ _ (by rw [hlen]; exact idx_lt hr hc)
  · simp only [get, set, h, if_false]
    apply getD_set_ne
    intro e
    have := idx_inj hc hc' e
    exact h ⟨this.1.symm, this.2.symm⟩

/-! ## Row operations -/

theorem rowCombine_succ (G : ℚ → ℚ → ℚ) (t : Tableau) (x y z n : Nat) :
    rowCombine G t x y z (n + 1) =
      (if n ≠ (rowCombine G t x y z n).zcolumn ∧ n ≠ (rowCombine G t x y z n).basiscolumn then
        set (rowCombine G t x y z n) z n
          (G (get (rowCombine G t x y z n) x n) (get (rowCombine G t x y z n) y n))
      else rowCombine G t x y z n) := by
  simp [rowCombine, List.range_succ, List.foldl_append]

theorem shape_rowCombine (G : ℚ → ℚ → ℚ) (t : Tableau) (x y z n : Nat) :
    shape (rowCombine G t x y z n) = shape t := by
  induction n with
  | zero => rfl
  | succ n ih =>
    rw [rowCombine_succ]
    split
    · rw [shape_set, ih]
    · exact ih

theorem length_rowCombine (G : ℚ → ℚ → ℚ) (t : Tableau) (x y z n : Nat) :
    (rowCombine G t x y z n).data.length = t.data.length := by
  induction n with
  | zero => rfl
  | succ n ih =>
    rw [rowCombine_succ]
    split
    · rw [length_set, ih]
    · exact ih

theorem get_rowCombine (G : ℚ → ℚ → ℚ) (t : Tableau) (x y z n r c : Nat)
    (hlen : t.data.length = t.rows * t.cols) (hz : z < t.rows) (hn : n ≤ t.cols)
    (hc : c < t.cols) :
    get (rowCombine G t x y z n) r c =
      if r = z ∧ c < n ∧ c ≠ t.zcolumn ∧ c ≠ t.basiscolumn then G (get t x c) (get t y c)
      else get t r c := by
  induction n generalizing r c with
  | zero => simp [rowCombine]
  | succ n ih =>
    have hs := shape_rowCombine G t x y z n
    have hrows : (rowCombine G t x y z n).rows = t.rows := shape_rows hs
    have hcols : (rowCombine G t x y z n).cols = t.cols := shape_cols hs
    have hzc : (rowCombine G t x y z n).zcolumn = t.zcolumn := shape_zcolumn hs
    have hbc : (rowCombine G t x y z n).basiscolumn = t.basiscolumn := shape_basiscolumn hs
    have hl := length_rowCombine G t x y z n
    rw [rowCombine_succ, hzc, hbc]
    have hnc : n < t.cols := by omega
    by_cases hex : n ≠ t.zcolumn ∧ n ≠ t.basiscolumn
    · rw [if_pos hex, get_set _ _ _ _ _ _ (by rw [hl, hrows, hcols]; exact hlen)
        (by rw [hrows]; exact hz) (by rw [hcols]; exact hnc) (by rw [hcols]; exact hc)]
      rw [ih x n (by omega) hnc, ih y n (by omega) hnc, ih r c (by omega) hc]
      by_cases hrc : r = z ∧ c = n
      · obtain ⟨rfl, rfl⟩ := hrc
        simp [hex.1, hex.2]
      · rw [if_neg hrc]
        by_cases hr : r = z
        · have hcn : c ≠ n := fun h => hrc ⟨hr, h⟩
          have h1 : (c < n + 1) = (c < n) := by
            apply propext; constructor <;> intro h <;> omega
          simp [h1]
        · simp [hr]
    · rw [if_neg hex, ih r c (by omega) hc]
      by_cases hcn : c = n
      · subst hcn
        have : ¬ (c ≠ t.zcolumn ∧ c ≠ t.basiscolumn) := hex
        have h2 : ¬ (r = z ∧ c < c ∧ c ≠ t.zcolumn ∧ c ≠ t.basiscolumn) := by
          intro h; omega
        have h3 : ¬ (r = z ∧ c < c + 1 ∧ c ≠ t.zcolumn ∧ c ≠ t.basiscolumn) := by
          intro h; exact this h.2.2
        rw [if_neg h2, if_neg h3]
      · have h1 : (c < n + 1) = (c < n) := by
          apply propext; constructor <;> intro h <;> omega
        simp only [h1]

theorem addrows_eq (t : Tableau) (x y z : Nat) :
    addrows t x y z = rowCombine (fun a b => a + b) t x y z t.cols := rfl

theorem subtractrows_eq (t : Tableau) (x y z : Nat) :
    subtractrows t x y z = rowCombine (fun a b => a - b) t x y z t.cols := rfl

theorem addscaledrows_eq (t : Tableau) (s : ℚ) (x y z : Nat) :
    addscaledrows t s x y z = rowCombine (fun a b => a * s + b) t x y z t.cols := rfl

theorem scalerow_eq (t : Tableau) (s : ℚ) (z : Nat) :
    scalerow t s z = rowCombine (fun a _ => a * s) t z z z t.cols := rfl

theorem shape_addrows (t : Tableau) (x y z : Nat) : shape (addrows t x y z) = shape t :=
  shape_rowCombine _ t x y z t.cols

theorem shape_addscaledrows (t : Tableau) (s : ℚ) (x y z : Nat) :
    shape (addscaledrows t s x y z) = shape t := by
  rw [addscaledrows_eq]; exact shape_rowCombine _ t x y z t.cols

theorem shape_scalerow (t : Tableau) (s : ℚ) (z : Nat) :
    shape (scalerow t s z) = shape t := by
  rw [scalerow_eq]; exact shape_rowCombine _ t z z z t.cols

theorem length_addrows (t : Tableau) (x y z : Nat) :
    (addrows t x y z).data.length = t.data.length :=
  length_rowCombine _ t x y z t.cols

theorem length_addscaledrows (t : Tableau) (s : ℚ) (x y z : Nat) :
    (addscaledrows t s x y z).data.length = t.data.length := by
  rw [addscaledrows_eq]; exact length_rowCombine _ t x y z t.cols

theorem length_scalerow (t : Tableau) (s : ℚ) (z : Nat) :
    (scalerow t s z).data.length = t.data.length := by
  rw [scalerow_eq]; exact length_rowCombine _ t z z z t.cols

theorem get_addrows (t : Tableau) (x y z r c : Nat)
    (hlen : t.data.length = t.rows * t.cols) (hz : z < t.rows) (hc : c < t.cols) :
    get (addrows t x y z) r c =
      if r = z ∧ c ≠ t.zcolumn ∧ c ≠ t.basiscolumn then get t x c + get t y c
      else get t r c := by
  rw [addrows_eq, get_rowCombine _ t x y z t.cols r c hlen hz (le_refl _) hc]
  simp [hc]

theorem get_subtractrows (t : Tableau) (x y z r c : Nat)
    (hlen : t.data.length = t.rows * t.cols) (hz : z < t.rows) (hc : c < t.cols) :
    get (subtractrows t x y z) r c =
      if r = z ∧ c ≠ t.zcolumn ∧ c ≠ t.basiscolumn then get t x c - get t y c
      else get t r c := by
  rw [subtractrows_eq, get_rowCombine _ t x y z t.cols r c hlen hz (le_refl _) hc]
  simp [hc]

theorem get_addscaledrows (t : Tableau) (s : ℚ) (x y z r c : Nat)
    (hlen : t.data.length = t.rows * t.cols) (hz : z < t.rows) (hc : c < t.cols) :
    get (addscaledrows t s x y z) r c =
      if r = z ∧ c ≠ t.zcolumn ∧ c ≠ t.basiscolumn then get t x c * s + get t y c
      else get t r c := by
  rw [addscaledrows_eq, get_rowCombine _ t x y z t.cols r c hlen hz (le_refl _) hc]
  simp [hc]

theorem get_scalerow (t : Tableau) (s : ℚ) (z r c : Nat)
    (hlen : t.data.length = t.rows * t.cols) (hz : z < t.rows) (hc : c < t.cols) :
    get (scalerow t s z) r c =
      if r = z ∧ c ≠ t.zcolumn ∧ c ≠ t.basiscolumn then get t z c * s else get t r c := by
  rw [scalerow_eq, get_rowCombine _ t z z z t.cols r c hlen hz (le_refl _) hc]
  simp [hc]

/-! ## Pivot -/

theorem pivot_eq (t : Tableau) (p pc : Nat) :
    pivot t p pc =
      pivotLoop (scalerow (set t p t.basiscolumn (pc : ℚ))
        (1 / get (set t p t.basiscolumn (pc : ℚ)) p pc) p) p pc t.rows := by
  have h : (scalerow (set t p t.basiscolumn (pc : ℚ))
      (1 / get (set t p t.basiscolumn (pc : ℚ)) p pc) p).rows = t.rows :=
    shape_rows ((shape_scalerow _ _ _).trans (shape_set _ _ _ _))
  unfold pivot pivotLoop
  simp only [h]

theorem pivotLoop_succ (t : Tableau) (p pc n : Nat) :
    pivotLoop t p pc (n + 1) =
      (if n ≠ p then
        addscaledrows (pivotLoop t p pc n) (-get (pivotLoop t p pc n) n pc) p n n
      else pivotLoop t p pc n) := by
  simp [pivotLoop, List.range_succ, List.foldl_append]

theorem shape_pivotLoop (t : Tableau) (p pc n : Nat) :
    shape (pivotLoop t p pc n) = shape t := by
  induction n with
  | zero => rfl
  | succ n ih =>
    rw [pivotLoop_succ]
    split
    · rw [shape_addscaledrows, ih]
    · exact ih

theorem length_pivotLoop (t : Tableau) (p pc n : Nat) :
    (pivotLoop t p pc n).data.length = t.data.length := by
  induction n with
  | zero => rfl
  | succ n ih =>
    rw [pivotLoop_succ]
    split
    · rw [length_addscaledrows, ih]
    · exact ih

theorem get_pivotLoop (t : Tableau) (p pc n r c : Nat)
    (hlen : t.data.length = t.rows * t.cols) (hn : n ≤ t.rows) (hc : c < t.cols)
    (hpc : pc < t.cols) :
    get (pivotLoop t p pc n) r c =
      if r < n ∧ r ≠ p ∧ c ≠ t.zcolumn ∧ c ≠ t.basiscolumn then
        get t p c * (-get t r pc) + get t r c
      else get t r c := by
  induction n generalizing r c with
  | zero => simp [pivotLoop]
  | succ n ih =>
    have hs := shape_pivotLoop t p pc n
    have hl := length_pivotLoop t p pc n
    rw [pivotLoop_succ]
    by_cases hnp : n ≠ p
    · rw [if_pos hnp, get_addscaledrows _ _ _ _ _ _ _
        (by rw [hl, shape_rows hs, shape_cols hs]; exact hlen)
        (by rw [shape_rows hs]; omega) (by rw [shape_cols hs]; exact hc),
        shape_zcolumn hs, shape_basiscolumn hs,
        ih n pc (by omega) hpc, ih p c (by omega) hc, ih n c (by omega) hc,
        ih r c (by omega) hc]
      by_cases hr : r = n
      · subst hr
        simp [hnp]
      · have h1 : (r < n + 1) = (r < n) := by
          apply propext; constructor <;> intro h <;> omega
        simp only [h1, hr, false_and, if_false]
    · rw [if_neg hnp, ih r c (by omega) hc]
      have hnp : n = p := by omega
      by_cases hr : r = n
      · have : r = p := by omega
        simp [this]
      · have h1 : (r < n + 1) = (r < n) := by
          apply propext; constructor <;> intro h <;> omega
        simp only [h1]

theorem shape_pivot (t : Tableau) (p pc : Nat) : shape (pivot t p pc) = shape t := by
  rw [pivot_eq, shape_pivotLoop, shape_scalerow, shape_set]

theorem length_pivot (t : Tableau) (p pc : Nat) :
    (pivot t p pc).data.length = t.data.length := by
  rw [pivot_eq, length_pivotLoop, length_scalerow, length_set]

theorem WF_pivot (t : Tableau) (p pc : Nat) (h : WF t) : WF (pivot t p pc) :=
  WF_of_shape (shape_pivot t p pc) (length_pivot t p pc) h

/-- Cell-wise description of `pivot` on a well-formed tableau, for a pivot cell in a
variable column. -/
theorem get_pivot (t : Tableau) (p pc r c : Nat) (hwf : WF t) (hp : p < t.rows)
    (hpc : pc < t.numvars) (hc : c < t.cols) :
    get (pivot t p pc) r c =
      if c = t.basiscolumn then (if r = p then (pc : ℚ) else get t r c)
      else if c = t.zcolumn then get t r c
      else if r < t.rows ∧ r ≠ p then
        get t p c * (1 / get t p pc) * (-get t r pc) + get t r c
      else if r = p then get t p c * (1 / get t p pc)
      else get t r c := by
  obtain ⟨hlen, hz, hk, hb, hcols⟩ := hwf
  have hpcc : pc < t.cols := by omega
  have hbc : t.basiscolumn < t.cols := by omega
  have hs0 : shape (set t p t.basiscolumn (pc : ℚ)) = shape t := shape_set _ _ _ _
  have hl0 : (set t p t.basiscolumn (pc : ℚ)).data.length = t.data.length := length_set _ _ _ _
  have hlen0 : (set t p t.basiscolumn (pc : ℚ)).data.length =
      (set t p t.basiscolumn (pc : ℚ)).rows * (set t p t.basiscolumn (pc : ℚ)).cols := by
    rw [hl0, shape_rows hs0, shape_cols hs0]; exact hlen
  have g0 : ∀ r' c', c' < t.cols → get (set t p t.basiscolumn (pc : ℚ)) r' c' =
      if r' = p ∧ c' = t.basiscolumn then (pc : ℚ) else get t r' c' :=
    fun r' c' hc' => get_set t p t.basiscolumn r' c' _ hlen hp hbc hc'
  have hs1 := shape_scalerow (set t p t.basiscolumn (pc : ℚ))
    (1 / get (set t p t.basiscolumn (pc : ℚ)) p pc) p
  have hl1 := length_scalerow (set t p t.basiscolumn (pc : ℚ))
    (1 / get (set t p t.basiscolumn (pc : ℚ)) p pc) p
  have g1 : ∀ r' c', c' < t.cols →
      get (scalerow (set t p t.basiscolumn (pc : ℚ))
        (1 / get (set t p t.basiscolumn (pc : ℚ)) p pc) p) r' c' =
      if r' = p ∧ c' ≠ t.zcolumn ∧ c' ≠ t.basiscolumn then get t p c' * (1 / get t p pc)
      else if r' = p ∧ c' = t.basiscolumn then (pc : ℚ) else get t r' c' := by
    intro r' c' hc'
    rw [get_scalerow _ _ _ _ _ hlen0 (by rw [shape_rows hs0]; exact hp)
      (by rw [shape_cols hs0]; exact hc'), shape_zcolumn hs0, shape_basiscolumn hs0,
      g0 p c' hc', g0 p pc hpcc, g0 r' c' hc']
    have hne : pc ≠ t.basiscolumn := by omega
    by_cases h : r' = p ∧ c' ≠ t.zcolumn ∧ c' ≠ t.basiscolumn
    · simp [h, hne]
    · simp only [h, if_false]
  rw [pivot_eq, get_pivotLoop _ _ _ _ _ _
      (by rw [hl1, shape_rows hs1, shape_cols hs1]; exact hlen0)
      (by rw [shape_rows hs1, shape_rows hs0]) (by rw [shape_cols hs1, shape_cols hs0]; exact hc)
      (by rw [shape_cols hs1, shape_cols hs0]; exact hpcc),
    shape_zcolumn hs1, shape_basiscolumn hs1, shape_zcolumn hs0, shape_basiscolumn hs0,
    g1 p c hc, g1 r pc hpcc, g1 r c hc]
  have hpz : pc ≠ t.zcolumn := by omega
  have hpb : pc ≠ t.basiscolumn := by omega
  by_cases hcb : c = t.basiscolumn
  · subst hcb
    by_cases hr : r = p <;> simp [hr]
  · by_cases hcz : c = t.zcolumn
    · have hzb : t.zcolumn ≠ t.basiscolumn := by omega
      simp [hcz, hzb]
    · by_cases hr : r = p
      · subst hr
        simp [hcb, hcz]
      · by_cases hlt : r < t.rows
        · simp [hcb, hcz, hr, hlt]
        · simp [hcb, hcz, hr, hlt]

/-! ## Ratio test (`findpivotrow`) -/

theorem rowScan_succ (t : Tableau) (pc n : Nat) :
    rowScan t pc (n + 1) = rowScanStep t pc (rowScan t pc n) n := by
  simp [rowScan, List.range_succ, List.foldl_append]

theorem findpivotrow_eq (t : Tableau) (pc : Nat) :
    findpivotrow t pc =
      if !(rowScan t pc t.numconstraints).found then UNBOUNDED
      else ((rowScan t pc t.numconstraints).minratiorow : Int) := rfl

/-- Invariant of the ratio-test loop: `found` records whether a row with a positive
entry was seen; if so, the recorded row is the first one attaining the least ratio. -/
theorem rowScan_inv (t : Tableau) (pc n : Nat) :
    ((rowScan t pc n).found = true ↔ ∃ i, i < n ∧ 0 < get t i pc) ∧
    ((rowScan t pc n).found = true →
      (rowScan t pc n).minratiorow < n ∧
      0 < get t (rowScan t pc n).minratiorow pc ∧
      (rowScan t pc n).minratio = ratio t pc (rowScan t pc n).minratiorow ∧
      ∀ i, i < n → 0 < get t i pc →
        (rowScan t pc n).minratio ≤ ratio t pc i ∧
        (ratio t pc i = (rowScan t pc n).minratio → (rowScan t pc n).minratiorow ≤ i)) := by
  induction n with
  | zero => simp [rowScan]
  | succ n ih =>
    obtain ⟨ih1, ih2⟩ := ih
    rw [rowScan_succ]
    generalize rowScan t pc n = s at ih1 ih2
    unfold rowScanStep
    by_cases hpos : get t n pc ≤ 0
    · -- row `n` does not take part in the ratio test
      simp only [hpos, if_true]
      refine ⟨?_, ?_⟩
      · rw [ih1]
        constructor
        · rintro ⟨i, hi, h⟩; exact ⟨i, by omega, h⟩
        · rintro ⟨i, hi, h⟩
          have : i ≠ n := by rintro rfl; exact absurd h (not_lt.mpr hpos)
          exact ⟨i, by omega, h⟩
      · intro hf
        obtain ⟨h1, h2, h3, h4⟩ := ih2 hf
        refine ⟨by omega, h2, h3, ?_⟩
        intro i hi hp
        have : i ≠ n := by rintro rfl; exact absurd hp (not_lt.mpr hpos)
        exact h4 i (by omega) hp
    · simp only [hpos, if_false]
      have hposn : 0 < get t n pc := not_le.mp hpos
      by_cases hf : s.found = true
      · obtain ⟨h1, h2, h3, h4⟩ := ih2 hf
        simp only [hf, Bool.not_true, Bool.false_eq_true, if_false]
        by_cases hlt : get t n t.constcolumn / get t n pc < s.minratio
        · simp only [hlt, if_true]
          refine ⟨⟨fun _ => ⟨n, by omega, hposn⟩, fun _ => trivial⟩, fun _ => ?_⟩
          refine ⟨by omega, hposn, rfl, ?_⟩
          intro i hi hp
          by_cases hin : i = n
          · subst hin; exact ⟨le_refl _, fun _ => le_refl _⟩
          · have := h4 i (by omega) hp
            refine ⟨le_trans (le_of_lt hlt) this.1, ?_⟩
            intro he
            exfalso
            have h5 := this.1
            rw [he] at h5
            exact absurd hlt (not_lt.mpr h5)
        · simp only [hlt, if_false]
          refine ⟨⟨fun _ => ⟨n, by omega, hposn⟩, fun _ => trivial⟩, fun _ => ?_⟩
          refine ⟨by omega, h2, h3, ?_⟩
          intro i hi hp
          by_cases hin : i = n
          · subst hin
            exact ⟨not_lt.mp hlt, fun _ => by omega⟩
          · exact h4 i (by omega) hp
      · have hf' : s.found = false := by simpa using hf
        simp only [hf', Bool.not_false, if_true]
        refine ⟨⟨fun _ => ⟨n, by omega, hposn⟩, fun _ => trivial⟩, fun _ => ?_⟩
        refine ⟨by omega, hposn, rfl, ?_⟩
        intro i hi hp
        by_cases hin : i = n
        · subst hin; exact ⟨le_refl _, fun _ => le_refl _⟩
        · exfalso
          have : s.found = true := ih1.mpr ⟨i, by omega, hp⟩
          exact hf this

/-! ## Optimality test and entering column -/

theorem optScan_succ (t : Tableau) (n : Nat) :
    optScan t (n + 1) = if flt_lt (get t (t.rows - 1) n) 0 then false else optScan t n := by
  simp [optScan, List.range_succ, List.foldl_append]

theorem isoptimal_eq (t : Tableau) : isoptimal t = optScan t t.numvars := rfl

theorem optScan_true_iff (t : Tableau) (n : Nat) :
    optScan t n = true ↔ ∀ i, i < n → flt_lt (get t (t.rows - 1) i) 0 = false := by
  induction n with
  | zero => simp [optScan]
  | succ n ih =>
    rw [optScan_succ]
    by_cases h : flt_lt (get t (t.rows - 1) n) 0 = true
    · simp only [h, if_true, Bool.false_eq_true, false_iff]
      intro hall
      have := hall n (by omega)
      rw [h] at this
      exact absurd this (by decide)
    · have h' : flt_lt (get t (t.rows - 1) n) 0 = false := by simpa using h
      simp only [h', Bool.false_eq_true, if_false, ih]
      constructor
      · intro hall i hi
        by_cases hin : i = n
        · subst hin; exact h'
        · exact hall i (by omega)
      · intro hall i hi
        exact hall i (by omega)

theorem flt_lt_zero_iff (a : ℚ) : flt_lt a 0 = true ↔ a < -EPSILON := by
  unfold flt_lt
  rw [decide_eq_true_iff]
  constructor <;> intro h <;> linarith

/-- `isoptimal` holds exactly when no variable column of the last row is below
`-EPSILON`. -/
theorem isoptimal_iff (t : Tableau) :
    isoptimal t = true ↔ ∀ i, i < t.numvars → -EPSILON ≤ get t (t.rows - 1) i := by
  rw [isoptimal_eq, optScan_true_iff]
  constructor
  · intro h i hi
    have := h i hi
    by_contra hc
    have : flt_lt (get t (t.rows - 1) i) 0 = true := (flt_lt_zero_iff _).mpr (not_le.mp hc)
    simp_all
  · intro h i hi
    have := h i hi
    by_contra hc
    have hc' : flt_lt (get t (t.rows - 1) i) 0 = true := by simpa using hc
    have := (flt_lt_zero_iff _).mp hc'
    linarith

theorem EPSILON_pos : 0 < EPSILON := by
  unfold EPSILON; norm_num

theorem doubleToInt_nonpos (x : ℚ) (h : x < 0) : doubleToInt x ≤ 0 := by
  unfold doubleToInt
  have hn : x.num < 0 := Rat.num_neg.mpr h
  have h1 : x.num = -(-x.num) := by omega
  rw [h1, Int.neg_tdiv]
  have := Int.tdiv_nonneg (a := -x.num) (b := (x.den : Int)) (by omega) (by omega)
  omega

theorem colScan_succ (t : Tableau) (n : Nat) :
    colScan t (n + 1) = colScanStep t (colScan t n) n := by
  simp [colScan, List.range_succ, List.foldl_append]

theorem findpivotcolumn_eq (t : Tableau) :
    findpivotcolumn t = (colScan t t.numvars).maxnegindex := rfl

/-- Invariant of the loop of `findpivotcolumn`: `maxneg` never exceeds `0`; the index
is `-1` as long as no negative entry was met, and otherwise names a scanned column with
a negative entry. -/
theorem colScan_inv (t : Tableau) (n : Nat) :
    (colScan t n).maxneg ≤ 0 ∧
    ((colScan t n).maxnegindex = -1 ∧ (colScan t n).maxneg = 0 ∧
        (∀ i, i < n → 0 ≤ get t (t.rows - 1) i) ∨
      ∃ k : Nat, k < n ∧ (colScan t n).maxnegindex = (k : Int) ∧ get t (t.rows - 1) k < 0) := by
  induction n with
  | zero =>
    refine ⟨by simp [colScan], Or.inl ⟨rfl, rfl, ?_⟩⟩
    intro i hi; omega
  | succ n ih =>
    obtain ⟨ih1, ih2⟩ := ih
    rw [colScan_succ]
    generalize colScan t n = s at ih1 ih2
    unfold colScanStep
    have hq : ((s.maxneg : Int) : ℚ) ≤ 0 := by exact_mod_cast ih1
    by_cases hlt : get t (t.rows - 1) n < (s.maxneg : ℚ)
    · simp only [hlt, if_true]
      have hneg : get t (t.rows - 1) n < 0 := lt_of_lt_of_le hlt hq
      exact ⟨doubleToInt_nonpos _ hneg, Or.inr ⟨n, by omega, rfl, hneg⟩⟩
    · simp only [hlt, if_false]
      refine ⟨ih1, ?_⟩
      rcases ih2 with ⟨h1, h2, h3⟩ | ⟨k, hk, h1, h2⟩
      · refine Or.inl ⟨h1, h2, ?_⟩
        intro i hi
        by_cases hin : i = n
        · subst hin
          rw [h2] at hlt
          simpa using hlt
        · exact h3 i (by omega)
      · exact Or.inr ⟨k, by omega, h1, h2⟩

/-- On a tableau that is not optimal, `findpivotcolumn` returns a variable column
whose entry in the last row is negative. -/
theorem findpivotcolumn_nonneg (t : Tableau) (h : isoptimal t = false) :
    ∃ k : Nat, findpivotcolumn t = (k : Int) ∧ k < t.numvars ∧ get t (t.rows - 1) k < 0 := by
  rw [findpivotcolumn_eq]
  rcases (colScan_inv t t.numvars).2 with ⟨_, _, h3⟩ | ⟨k, hk, h1, h2⟩
  · exfalso
    have : isoptimal t = true := by
      rw [isoptimal_iff]
      intro i hi
      have := h3 i hi
      have := EPSILON_pos
      linarith
    rw [h] at this
    exact absurd this (by decide)
  · exact ⟨k, h1, hk, h2⟩

/-- With no negative entry among the variable columns of the last row,
`findpivotcolumn` returns `-1`. -/
theorem findpivotcolumn_none (t : Tableau)
    (h : ∀ i, i < t.numvars → 0 ≤ get t (t.rows - 1) i) : findpivotcolumn t = -1 := by
  rw [findpivotcolumn_eq]
  rcases (colScan_inv t t.numvars).2 with ⟨h1, _, _⟩ | ⟨k, hk, _, h2⟩
  · exact h1
  · exact absurd h2 (not_lt.mpr (h k hk))

/-! ## The solver loop -/

theorem phasetwo_succ (fuel : Nat) (t : Tableau) :
    phasetwo (fuel + 1) t =
      if !isoptimal t then
        if findpivotrow t (findpivotcolumn t).toNat < 0 then
          some (findpivotrow t (findpivotcolumn t).toNat, t)
        else phasetwo fuel
          (pivot t (findpivotrow t (findpivotcolumn t).toNat).toNat (findpivotcolumn t).toNat)
      else some (OK, t) := rfl

theorem findpivotrow_unbounded_iff (t : Tableau) (c : Nat) :
    findpivotrow t c = UNBOUNDED ↔ ∀ i, i < t.numconstraints → ¬ 0 < get t i c := by
  rw [findpivotrow_eq]
  have hinv := (rowScan_inv t c t.numconstraints).1
  by_cases hf : (rowScan t c t.numconstraints).found = true
  · simp only [hf, Bool.not_true, Bool.false_eq_true, if_false]
    constructor
    · intro h
      exfalso
      unfold UNBOUNDED at h
      omega
    · intro h
      obtain ⟨i, hi, hp⟩ := hinv.mp hf
      exact absurd hp (h i hi)
  · have hf' : (rowScan t c t.numconstraints).found = false := by simpa using hf
    simp only [hf', Bool.not_false, if_true, true_iff]
    intro i hi hp
    exact hf (hinv.mpr ⟨i, hi, hp⟩)

theorem findpivotrow_found (t : Tableau) (c : Nat)
    (h : ∃ i, i < t.numconstraints ∧ 0 < get t i c) :
    ∃ r : Nat, findpivotrow t c = (r : Int) ∧ r < t.numconstraints ∧ 0 < get t r c ∧
      ∀ i, i < t.numconstraints → 0 < get t i c →
        ratio t c r ≤ ratio t c i ∧ (ratio t c i = ratio t c r → r ≤ i) := by
  have hinv := rowScan_inv t c t.numconstraints
  have hf : (rowScan t c t.numconstraints).found = true := hinv.1.mpr h
  obtain ⟨h1, h2, h3, h4⟩ := hinv.2 hf
  refine ⟨(rowScan t c t.numconstraints).minratiorow, ?_, h1, h2, ?_⟩
  · rw [findpivotrow_eq]; simp [hf]
  · intro i hi hp
    have := h4 i hi hp
    rw [h3] at this
    exact this

theorem phasetwo_fuel_succ (fuel : Nat) (t : Tableau) (r : TabErr × Tableau)
    (h : phasetwo fuel t = some r) : phasetwo (fuel + 1) t = some r := by
  induction fuel generalizing t with
  | zero => simp [phasetwo] at h
  | succ fuel ih =>
    rw [phasetwo_succ] at h ⊢
    by_cases hopt : isoptimal t = true
    · simpa [hopt] using h
    · have hopt' : isoptimal t = false := by simpa using hopt
      simp only [hopt', Bool.not_false, if_true] at h ⊢
      by_cases hneg : findpivotrow t (findpivotcolumn t).toNat < 0
      · simpa [hneg] using h
      · simp only [hneg, if_false] at h ⊢
        exact ih _ h

/-- Once `phasetwo` has returned with some fuel, it returns the same with more. -/
theorem phasetwo_fuel_mono (fuel fuel' : Nat) (t : Tableau) (r : TabErr × Tableau)
    (h : phasetwo fuel t = some r) (hle : fuel ≤ fuel') : phasetwo fuel' t = some r := by
  induction fuel' with
  | zero =>
    have : fuel = 0 := by omega
    subst this; exact h
  | succ n ih =>
    by_cases hn : fuel ≤ n
    · exact phasetwo_fuel_succ n t r (ih hn)
    · have : fuel = n + 1 := by omega
      subst this; exact h

theorem feasScan_succ (t : Tableau) (n : Nat) :
    feasScan t (n + 1) = if get t n t.basiscolumn < 0 then false else feasScan t n := by
  simp [feasScan, List.range_succ, List.foldl_append]

theorem isinsidefeasibleregion_eq (t : Tableau) :
    isinsidefeasibleregion t = feasScan t t.numconstraints := rfl

theorem feasScan_true_iff (t : Tableau) (n : Nat) :
    feasScan t n = true ↔ ∀ i, i < n → 0 ≤ get t i t.basiscolumn := by
  induction n with
  | zero => simp [feasScan]
  | succ n ih =>
    rw [feasScan_succ]
    by_cases h : get t n t.basiscolumn < 0
    · simp only [h, if_true, Bool.false_eq_true, false_iff]
      intro hall
      exact absurd (hall n (by omega)) (not_le.mpr h)
    · simp only [h, if_false, ih]
      constructor
      · intro hall i hi
        by_cases hin : i = n
        · subst hin; exact not_lt.mp h
        · exact hall i (by omega)
      · intro hall i hi
        exact hall i (by omega)

/-- `isinsidefeasibleregion` holds exactly when no constraint row carries a negative
basis-index cell. -/
theorem isinsidefeasibleregion_iff (t : Tableau) :
    isinsidefeasibleregion t = true ↔
      ∀ i, i < t.numconstraints → 0 ≤ get t i t.basiscolumn := by
  rw [isinsidefeasibleregion_eq, feasScan_true_iff]

theorem phaseone_feasible (fuel : Nat) (t : Tableau) (h : isinsidefeasibleregion t = true) :
    phaseone fuel t = some (OK, t) := by
  simp [phaseone, h]

theorem main_of_phaseone_ok (fuel : Nat) (t t' : Tableau)
    (h : phaseone fuel t = some (OK, t')) : main fuel t = phasetwo fuel t' := by
  simp [main, h, OK]

/-! ## Resize operations -/

theorem rows_addobjectiverow (t : Tableau) : (addobjectiverow t).rows = t.rows + 1 := rfl

theorem shape_addobjectiverow (t : Tableau) :
    shape (addobjectiverow t) = { shape t with rows := t.rows + 1 } := rfl

theorem length_addobjectiverow (t : Tableau) :
    (addobjectiverow t).data.length = (t.rows + 1) * t.cols := by
  simp [addobjectiverow, set, fillData_length]

theorem get_fill (t : Tableau) (f : Nat → Nat → ℚ) (r c : Nat)
    (h : t.data = fillData t.rows t.cols f) (hr : r < t.rows) (hc : c < t.cols) :
    get t r c = f r c := by
  unfold get
  rw [h, fillData_getD _ _ _ _ _ hr hc]

theorem get_set_fill (T : Tableau) (f : Nat → Nat → ℚ) (r0 c0 : Nat) (v : ℚ) (r c : Nat)
    (h : T.data = fillData T.rows T.cols f) (hr0 : r0 < T.rows) (hc0 : c0 < T.cols)
    (hr : r < T.rows) (hc : c < T.cols) :
    get (set T r0 c0 v) r c = if r = r0 ∧ c = c0 then v else f r c := by
  rw [get_set T r0 c0 r c v (by rw [h, fillData_length]) hr0 hc0 hc, get_fill T f r c h hr hc]

theorem get_addobjectiverow (t : Tableau) (r c : Nat) (hz : t.zcolumn < t.cols)
    (hr : r < t.rows + 1) (hc : c < t.cols) :
    get (addobjectiverow t) r c =
      if r < t.rows then get t r c else if c = t.zcolumn then 1 else 0 := by
  unfold addobjectiverow
  simp only []
  refine Eq.trans (get_set_fill _ _ _ _ _ r c rfl ?_ hz hr hc) ?_
  · show t.rows + 1 - 1 < t.rows + 1
    omega
  · simp only [Nat.add_sub_cancel]
    by_cases hlt : r < t.rows
    · have : r ≠ t.rows := by omega
      simp only [hlt, this, false_and, if_false, if_true]
      rfl
    · have : r = t.rows := by omega
      simp [this]

theorem WF_addobjectiverow (t : Tableau) (h : WF t) : WF (addobjectiverow t) := by
  obtain ⟨hlen, hz, hk, hb, hcols⟩ := h
  exact ⟨length_addobjectiverow t, hz, hk, hb, hcols⟩

theorem shape_addartificialcolumn (t : Tableau) (tr : Nat) :
    shape (addartificialcolumn t tr) =
      { shape t with
        cols := t.cols + 1
        numvars := t.numvars + 1
        numartificialvars := t.numartificialvars + 1
        zcolumn := t.zcolumn + 1
        constcolumn := t.constcolumn + 1
        basiscolumn := t.basiscolumn + 1 } := rfl

theorem length_addartificialcolumn (t : Tableau) (tr : Nat) :
    (addartificialcolumn t tr).data.length = t.rows * (t.cols + 1) := by
  simp [addartificialcolumn, set, fillData_length]

theorem get_addartificialcolumn (t : Tableau) (tr r c : Nat) (htr : tr < t.rows)
    (hb : t.basiscolumn < t.cols) (hr : r < t.rows) (hc : c < t.cols + 1) :
    get (addartificialcolumn t tr) r c =
      if r = tr ∧ c = t.basiscolumn + 1 then (t.numvars : ℚ)
      else if c < t.numvars then get t r c
      else if c = t.numvars then (if r = tr then 1 else 0)
      else get t r (c - 1) := by
  unfold addartificialcolumn
  simp only []
  refine Eq.trans (get_set_fill _ _ _ _ _ r c rfl htr ?_ hr hc) ?_
  · show t.basiscolumn + 1 < t.cols + 1
    omega
  · simp only [Nat.add_sub_cancel]
    by_cases h1 : r = tr ∧ c = t.basiscolumn + 1
    · simp only [h1, and_self, if_true]
    · simp only [h1, if_false]
      by_cases h2 : c < t.numvars
      · simp only [h2, if_true]; rfl
      · simp only [h2, if_false]
        by_cases h3 : c = t.numvars
        · simp only [h3, if_true]
        · simp only [h3, if_false]
          have : r * t.cols + c - 1 = r * t.cols + (c - 1) := by omega
          rw [this]; rfl

theorem WF_addartificialcolumn (t : Tableau) (tr : Nat) (h : WF t) :
    WF (addartificialcolumn t tr) := by
  obtain ⟨hlen, hz, hk, hb, hcols⟩ := h
  refine ⟨length_addartificialcolumn t tr, ?_, ?_, ?_, ?_⟩
  · show t.zcolumn + 1 = t.numvars + 1
    omega
  · show t.constcolumn + 1 = t.numvars + 1 + 1
    omega
  · show t.basiscolumn + 1 = t.numvars + 1 + 2
    omega
  · show t.cols + 1 = t.numvars + 1 + 3
    omega

theorem shape_deleterow (t : Tableau) (tr : Nat) :
    shape (deleterow t tr) =
      { shape t with
        rows := t.rows - 1
        numconstraints :=
          if tr < t.numconstraints then t.numconstraints - 1 else t.numconstraints } := rfl

theorem length_deleterow (t : Tableau) (tr : Nat) :
    (deleterow t tr).data.length = (t.rows - 1) * t.cols := by
  simp [deleterow, fillData_length]

theorem get_deleterow (t : Tableau) (tr r c : Nat) (hr : r < t.rows - 1) (hc : c < t.cols) :
    get (deleterow t tr) r c = if r < tr then get t r c else get t (r + 1) c := by
  unfold deleterow
  simp only []
  refine Eq.trans (get_fill _ _ r c rfl hr hc) ?_
  rfl

theorem WF_deleterow (t : Tableau) (tr : Nat) (h : WF t) : WF (deleterow t tr) := by
  obtain ⟨hlen, hz, hk, hb, hcols⟩ := h
  exact ⟨length_deleterow t tr, hz, hk, hb, hcols⟩

theorem shape_deletecolumn (t : Tableau) (tc : Nat) :
    shape (deletecolumn t tc) =
      { shape t with
        cols := t.cols - 1
        numvars := t.numvars - 1
        numartificialvars := t.numartificialvars - 1
        zcolumn := t.zcolumn - 1
        constcolumn := t.constcolumn - 1
        basiscolumn := t.basiscolumn - 1 } := rfl

theorem length_deletecolumn (t : Tableau) (tc : Nat) :
    (deletecolumn t tc).data.length = t.rows * (t.cols - 1) := by
  simp [deletecolumn, fillData_length]

theorem get_deletecolumn (t : Tableau) (tc r c : Nat) (hcols : 0 < t.cols) (hr : r < t.rows)
    (hc : c < t.cols - 1) :
    get (deletecolumn t tc) r c = if c < tc then get t r c else get t r (c + 1) := by
  unfold deletecolumn
  simp only []
  refine Eq.trans (get_fill _ _ r c rfl hr hc) ?_
  have h1 : t.cols - 1 + 1 = t.cols := by omega
  simp only [h1]
  rfl

theorem WF_deletecolumn (t : Tableau) (tc : Nat) (h : WF t) (hv : 0 < t.numvars) :
    WF (deletecolumn t tc) := by
  obtain ⟨hlen, hz, hk, hb, hcols⟩ := h
  refine ⟨length_deletecolumn t tc, ?_, ?_, ?_, ?_⟩
  · show t.zcolumn - 1 = t.numvars - 1
    omega
  · show t.constcolumn - 1 = t.numvars - 1 + 1
    omega
  · show t.basiscolumn - 1 = t.numvars - 1 + 2
    omega
  · show t.cols - 1 = t.numvars - 1 + 3
    omega

/-! ## Building the phase-one tableau -/

theorem sentinelsBefore_succ (t : Tableau) (n : Nat) :
    sentinelsBefore t (n + 1) = sentinelsBefore t n + if isSentinel t n = true then 1 else 0 := by
  simp [sentinelsBefore, List.range_succ, List.countP_append, List.countP_cons]

theorem sentinelsBefore_mono (t : Tableau) {m n : Nat} (h : m ≤ n) :
    sentinelsBefore t m ≤ sentinelsBefore t n := by
  induction n with
  | zero =>
    have : m = 0 := by omega
    subst this; exact le_refl _
  | succ n ih =>
    by_cases hm : m ≤ n
    · rw [sentinelsBefore_succ]; exact le_trans (ih hm) (Nat.le_add_right _ _)
    · have : m = n + 1 := by omega
      subst this; exact le_refl _

theorem sentinelsBefore_lt (t : Tableau) {r n : Nat} (h : r < n) (hs : isSentinel t r = true) :
    sentinelsBefore t r < sentinelsBefore t n := by
  have h1 : sentinelsBefore t (r + 1) = sentinelsBefore t r + 1 := by
    rw [sentinelsBefore_succ, if_pos hs]
  have h2 := sentinelsBefore_mono t (show r + 1 ≤ n by omega)
  omega

theorem sentinelsBefore_le (t : Tableau) (n : Nat) : sentinelsBefore t n ≤ n := by
  induction n with
  | zero => simp [sentinelsBefore]
  | succ n ih =>
    rw [sentinelsBefore_succ]
    split <;> omega

theorem artLoop_succ (t : Tableau) (n : Nat) :
    artLoop t (n + 1) =
      (if get (artLoop t n) n (artLoop t n).basiscolumn < 0 then
        set (addartificialcolumn (artLoop t n) n)
          ((addartificialcolumn (artLoop t n) n).rows - 1)
          ((addartificialcolumn (artLoop t n) n).numvars - 1) (-1)
      else artLoop t n) := by
  simp [artLoop, List.range_succ, List.foldl_append]

/-- One step of the first loop on a sentinel row, on the level of cells: the cell
produced by `addartificialcolumn` followed by the `set` of the last row is the cell
predicted for `n + 1` rows. -/
theorem artCell_step_pos (A : Tableau) (n r c : Nat) (hb : A.basiscolumn = A.numvars + 2)
    (hn : n + 1 < A.rows) (hr : r < A.rows) (hs : isSentinel A n = true) :
    (if r = A.rows - 1 ∧ c = A.numvars + sentinelsBefore A n then (-1 : ℚ)
     else if r = n ∧ c = A.basiscolumn + sentinelsBefore A n + 1 then
       ((A.numvars + sentinelsBefore A n : Nat) : ℚ)
     else if c < A.numvars + sentinelsBefore A n then artCell A n r c
     else if c = A.numvars + sentinelsBefore A n then (if r = n then 1 else 0)
     else artCell A n r (c - 1)) = artCell A (n + 1) r c := by
  conv_rhs => unfold artCell
  rw [sentinelsBefore_succ, if_pos hs]
  by_cases c1 : c < A.numvars
  · have e1 : ¬ (r = A.rows - 1 ∧ c = A.numvars + sentinelsBefore A n) := by omega
    have e2 : ¬ (r = n ∧ c = A.basiscolumn + sentinelsBefore A n + 1) := by omega
    have e3 : c < A.numvars + sentinelsBefore A n := by omega
    rw [if_neg e1, if_neg e2, if_pos e3, if_pos c1]
    unfold artCell
    rw [if_pos c1]
  · by_cases c2 : c < A.numvars + sentinelsBefore A n
    · have e1 : ¬ (r = A.rows - 1 ∧ c = A.numvars + sentinelsBefore A n) := by omega
      have e2 : ¬ (r = n ∧ c = A.basiscolumn + sentinelsBefore A n + 1) := by omega
      have e4 : c < A.numvars + (sentinelsBefore A n + 1) := by omega
      rw [if_neg e1, if_neg e2, if_pos c2, if_neg c1, if_pos e4]
      unfold artCell
      rw [if_neg c1, if_pos c2]
      by_cases hrn : r = n
      · have f1 : ¬ (r < n ∧ isSentinel A r = true ∧ A.numvars + sentinelsBefore A r = c) := by
          omega
        have f2 : ¬ (r < n + 1 ∧ isSentinel A r = true ∧
            A.numvars + sentinelsBefore A r = c) := by
          rintro ⟨_, _, h⟩; subst hrn; omega
        rw [if_neg f1, if_neg f2]
      · have f3 : (r < n + 1) = (r < n) := by
          apply propext; constructor <;> intro h <;> omega
        simp only [f3]
    · by_cases c3 : c = A.numvars + sentinelsBefore A n
      · have e2 : ¬ (r = n ∧ c = A.basiscolumn + sentinelsBefore A n + 1) := by omega
        have e4 : c < A.numvars + (sentinelsBefore A n + 1) := by omega
        rw [if_neg c1, if_pos e4]
        by_cases hrl : r = A.rows - 1
        · have f1 : ¬ (r < n + 1 ∧ isSentinel A r = true ∧
              A.numvars + sentinelsBefore A r = c) := by omega
          rw [if_pos ⟨hrl, c3⟩, if_neg f1, if_pos hrl]
        · have e1 : ¬ (r = A.rows - 1 ∧ c = A.numvars + sentinelsBefore A n) := by
            intro h; exact hrl h.1
          rw [if_neg e1, if_neg e2, if_neg c2, if_pos c3]
          by_cases hrn : r = n
          · have f1 : r < n + 1 ∧ isSentinel A r = true ∧
                A.numvars + sentinelsBefore A r = c := by
              subst hrn; exact ⟨by omega, hs, by omega⟩
            rw [if_pos hrn, if_pos f1]
          · have f1 : ¬ (r < n + 1 ∧ isSentinel A r = true ∧
                A.numvars + sentinelsBefore A r = c) := by
              rintro ⟨h1, h2, h3⟩
              have := sentinelsBefore_lt A (show r < n by omega) h2
              omega
            rw [if_neg hrn, if_neg f1, if_neg hrl]
      · have e1 : ¬ (r = A.rows - 1 ∧ c = A.numvars + sentinelsBefore A n) := by
          intro h; exact c3 h.2
        have e4 : ¬ c < A.numvars + (sentinelsBefore A n + 1) := by omega
        rw [if_neg e1, if_neg c2, if_neg c3, if_neg c1, if_neg e4]
        by_cases hb1 : r = n ∧ c = A.basiscolumn + sentinelsBefore A n + 1
        · have hb2 : c = A.basiscolumn + (sentinelsBefore A n + 1) ∧ r < n + 1 ∧
              isSentinel A r = true := by
            obtain ⟨h1, h2⟩ := hb1
            subst h1
            exact ⟨by omega, by omega, hs⟩
          rw [if_pos hb1, if_pos hb2, hb1.1]
        · have g1 : ¬ c - 1 < A.numvars := by omega
          have g2 : ¬ c - 1 < A.numvars + sentinelsBefore A n := by omega
          have g3 : c - 1 - sentinelsBefore A n = c - (sentinelsBefore A n + 1) := by omega
          rw [if_neg hb1]
          unfold artCell
          rw [if_neg g1, if_neg g2, g3]
          by_cases hbn : c - 1 = A.basiscolumn + sentinelsBefore A n ∧ r < n ∧
              isSentinel A r = true
          · have hbn' : c = A.basiscolumn + (sentinelsBefore A n + 1) ∧ r < n + 1 ∧
                isSentinel A r = true := ⟨by omega, by omega, hbn.2.2⟩
            rw [if_pos hbn, if_pos hbn']
          · have hbn' : ¬ (c = A.basiscolumn + (sentinelsBefore A n + 1) ∧ r < n + 1 ∧
                isSentinel A r = true) := by
              rintro ⟨h1, h2, h3⟩
              by_cases hrn : r = n
              · exact hb1 ⟨hrn, by omega⟩
              · exact hbn ⟨by omega, by omega, h3⟩
            rw [if_neg hbn, if_neg hbn']

/-- A row without the sentinel leaves the predicted cells as they are. -/
theorem artCell_step_neg (A : Tableau) (n r c : Nat) (hs : ¬ isSentinel A n = true) :
    artCell A (n + 1) r c = artCell A n r c := by
  unfold artCell
  rw [sentinelsBefore_succ, if_neg hs, Nat.add_zero]
  have f : ∀ p : Prop, (r < n + 1 ∧ isSentinel A r = true ∧ p) =
      (r < n ∧ isSentinel A r = true ∧ p) := by
    intro p
    apply propext
    constructor
    · rintro ⟨h1, h2, h3⟩
      have : r ≠ n := by rintro rfl; exact hs h2
      exact ⟨by omega, h2, h3⟩
    · rintro ⟨h1, h2, h3⟩
      exact ⟨by omega, h2, h3⟩
  have f' : ∀ p : Prop, (p ∧ r < n + 1 ∧ isSentinel A r = true) =
      (p ∧ r < n ∧ isSentinel A r = true) := by
    intro p
    apply propext
    constructor
    · rintro ⟨h3, h1, h2⟩
      have : r ≠ n := by rintro rfl; exact hs h2
      exact ⟨h3, by omega, h2⟩
    · rintro ⟨h3, h1, h2⟩
      exact ⟨h3, by omega, h2⟩
  simp only [f, f']

theorem artCell_zero (A : Tableau) (r c : Nat) :
    artCell A 0 r c = get A r c := by
  have h0 : sentinelsBefore A 0 = 0 := rfl
  unfold artCell
  simp only [h0, Nat.add_zero, Nat.sub_zero, Nat.not_lt_zero, false_and, and_false,
    if_false, lt_irrefl]
  split <;> rfl

/-- The basis cell of row `n` is still the original one after `n` rows of the loop. -/
theorem artCell_basis_unprocessed (A : Tableau) (n : Nat) (hb : A.basiscolumn = A.numvars + 2) :
    artCell A n n (A.basiscolumn + sentinelsBefore A n) = get A n A.basiscolumn := by
  unfold artCell
  have h1 : ¬ A.basiscolumn + sentinelsBefore A n < A.numvars := by omega
  have h2 : ¬ A.basiscolumn + sentinelsBefore A n < A.numvars + sentinelsBefore A n := by
    omega
  simp only [h1, h2, if_false, lt_irrefl, false_and, and_false, Nat.add_sub_cancel]

/-- The cells after one step of the first loop on a sentinel row. -/
theorem get_artStep (B : Tableau) (n r c : Nat)
    (hb : B.basiscolumn < B.cols) (hv : B.numvars < B.cols) (hn : n < B.rows)
    (hr : r < B.rows) (hc : c < B.cols + 1) :
    get (set (addartificialcolumn B n) ((addartificialcolumn B n).rows - 1)
        ((addartificialcolumn B n).numvars - 1) (-1)) r c =
      if r = B.rows - 1 ∧ c = B.numvars then (-1 : ℚ)
      else if r = n ∧ c = B.basiscolumn + 1 then (B.numvars : ℚ)
      else if c < B.numvars then get B r c
      else if c = B.numvars then (if r = n then 1 else 0)
      else get B r (c - 1) := by
  have hrows2 : (addartificialcolumn B n).rows = B.rows := rfl
  have hcols2 : (addartificialcolumn B n).cols = B.cols + 1 := rfl
  have hnv2 : (addartificialcolumn B n).numvars = B.numvars + 1 := rfl
  rw [get_set _ _ _ _ _ _
    (by rw [length_addartificialcolumn, hrows2, hcols2])
    (by rw [hrows2]; omega) (by rw [hnv2, hcols2]; omega) (by rw [hcols2]; omega),
    get_addartificialcolumn _ _ _ _ hn hb hr hc, hrows2, hnv2, Nat.add_sub_cancel]

/-- Invariant of the first loop of `createartificialtableau`: integer fields, buffer
length and cells after the first `n` constraint rows. -/
theorem shape_artLoop (A : Tableau) (n : Nat) (hwf : WF A) (hn : n < A.rows) :
    Shifted A (artLoop A n) (sentinelsBefore A n) ∧
    (artLoop A n).data.length = A.rows * (A.cols + sentinelsBefore A n) ∧
    ∀ r c, r < A.rows → c < A.cols + sentinelsBefore A n →
      get (artLoop A n) r c = artCell A n r c := by
  induction n with
  | zero =>
    refine ⟨⟨rfl, rfl, rfl, rfl, rfl, rfl, rfl, rfl, rfl, rfl⟩, ?_, ?_⟩
    · have h0 : sentinelsBefore A 0 = 0 := rfl
      rw [h0, Nat.add_zero]
      exact hwf.1
    · intro r c hr hc
      have h0 : sentinelsBefore A 0 = 0 := rfl
      rw [h0, Nat.add_zero] at hc
      rw [artCell_zero A r c]
      rfl
  | succ n ih =>
    obtain ⟨ihs, ihl, ihg⟩ := ih (by omega)
    obtain ⟨hlen, hz, hk, hb, hcols⟩ := hwf
    obtain ⟨s1, s2, s3, s4, s5, s6, s7, s8, s9, s10⟩ := ihs
    have hcond : get (artLoop A n) n (artLoop A n).basiscolumn = get A n A.basiscolumn := by
      rw [s10, ihg n _ (by omega) (by omega), artCell_basis_unprocessed A n hb]
    rw [artLoop_succ, hcond]
    by_cases hs : get A n A.basiscolumn < 0
    · have hs' : isSentinel A n = true := by simp [isSentinel, hs]
      have hk1 : sentinelsBefore A (n + 1) = sentinelsBefore A n + 1 := by
        rw [sentinelsBefore_succ, if_pos hs']
      rw [if_pos hs, hk1]
      refine ⟨⟨s1, ?_, ?_, s4, s5, ?_, s7, ?_, ?_, ?_⟩, ?_, ?_⟩
      · show (artLoop A n).cols + 1 = _
        omega
      · show (artLoop A n).numvars + 1 = _
        omega
      · show (artLoop A n).numartificialvars + 1 = _
        omega
      · show (artLoop A n).zcolumn + 1 = _
        omega
      · show (artLoop A n).constcolumn + 1 = _
        omega
      · show (artLoop A n).basiscolumn + 1 = _
        omega
      · rw [length_set, length_addartificialcolumn, s1, s2]
        rfl
      · intro r c hr hc
        rw [get_artStep (artLoop A n) n r c (by omega) (by omega)
          (by omega) (by omega) (by omega), s1, s3, s10,
          ← artCell_step_pos A n r c hb hn hr hs']
        by_cases e1 : r = A.rows - 1 ∧ c = A.numvars + sentinelsBefore A n
        · rw [if_pos e1, if_pos e1]
        · rw [if_neg e1, if_neg e1]
          by_cases e2 : r = n ∧ c = A.basiscolumn + sentinelsBefore A n + 1
          · rw [if_pos e2, if_pos e2]
          · rw [if_neg e2, if_neg e2]
            by_cases e3 : c < A.numvars + sentinelsBefore A n
            · rw [if_pos e3, if_pos e3, ihg r c hr (by omega)]
            · rw [if_neg e3, if_neg e3]
              by_cases e4 : c = A.numvars + sentinelsBefore A n
              · rw [if_pos e4, if_pos e4]
              · rw [if_neg e4, if_neg e4, ihg r (c - 1) hr (by omega)]
    · have hs' : ¬ isSentinel A n = true := by simp [isSentinel, hs]
      have hk0 : sentinelsBefore A (n + 1) = sentinelsBefore A n := by
        rw [sentinelsBefore_succ, if_neg hs', Nat.add_zero]
      rw [if_neg hs, hk0]
      refine ⟨⟨s1, s2, s3, s4, s5, s6, s7, s8, s9, s10⟩, ihl, ?_⟩
      intro r c hr hc
      rw [ihg r c hr hc, artCell_step_neg A n r c hs']

theorem condSum_succ (p : Nat → Bool) (g : Nat → ℚ) (n : Nat) :
    condSum p g (n + 1) = condSum p g n + if p n = true then g n else 0 := by
  unfold condSum
  rw [List.range_succ, List.filter_append, List.map_append, List.sum_append]
  by_cases h : p n = true
  · simp [List.filter_cons, h]
  · simp [List.filter_cons, h]

theorem condSum_congr (p p' : Nat → Bool) (g g' : Nat → ℚ) (n : Nat)
    (hp : ∀ i, i < n → p i = p' i) (hg : ∀ i, i < n → p i = true → g i = g' i) :
    condSum p g n = condSum p' g' n := by
  induction n with
  | zero => rfl
  | succ n ih =>
    rw [condSum_succ, condSum_succ, ih (fun i hi => hp i (by omega))
      (fun i hi => hg i (by omega)), ← hp n (by omega)]
    by_cases h : p n = true
    · rw [if_pos h, if_pos h, hg n (by omega) h]
    · rw [if_neg h, if_neg h]

theorem sentinelSum_eq (t : Tableau) (c n : Nat) :
    sentinelSum t c n = condSum (isSentinel t) (fun i => get t i c) n := rfl

/-- Among the sentinel rows exactly one owns a given artificial column. -/
theorem condSum_indicator (A : Tableau) (c n : Nat) :
    condSum (isSentinel A)
        (fun i => if A.numvars + sentinelsBefore A i = c then (1 : ℚ) else 0) n =
      if A.numvars ≤ c ∧ c < A.numvars + sentinelsBefore A n then 1 else 0 := by
  induction n with
  | zero =>
    have h0 : sentinelsBefore A 0 = 0 := rfl
    have : ¬ (A.numvars ≤ c ∧ c < A.numvars + sentinelsBefore A 0) := by rw [h0]; omega
    rw [if_neg this]; rfl
  | succ n ih =>
    rw [condSum_succ, ih, sentinelsBefore_succ]
    by_cases hs : isSentinel A n = true
    · simp only [hs, if_true]
      by_cases hc : A.numvars + sentinelsBefore A n = c
      · have h1 : ¬ (A.numvars ≤ c ∧ c < A.numvars + sentinelsBefore A n) := by omega
        have h2 : A.numvars ≤ c ∧ c < A.numvars + (sentinelsBefore A n + 1) := by omega
        rw [if_neg h1, if_pos hc, if_pos h2]; norm_num
      · rw [if_neg hc, add_zero]
        have h3 : (A.numvars ≤ c ∧ c < A.numvars + (sentinelsBefore A n + 1)) =
            (A.numvars ≤ c ∧ c < A.numvars + sentinelsBefore A n) := by
          apply propext; constructor <;> intro h <;> omega
        simp only [h3]
    · simp only [hs, if_false, Nat.add_zero, add_zero, Bool.false_eq_true]

theorem cancelLoop_succ (t : Tableau) (n : Nat) :
    cancelLoop t (n + 1) =
      (if hasArtificialBasis (cancelLoop t n) n = true then
        addrows (cancelLoop t n) n ((cancelLoop t n).rows - 1) ((cancelLoop t n).rows - 1)
      else cancelLoop t n) := by
  simp [cancelLoop, List.range_succ, List.foldl_append, hasArtificialBasis]

/-- Invariant of the second loop of `createartificialtableau`: only the last row
changes; it accumulates the rows whose basis index names an artificial column. -/
theorem get_cancelLoop (B : Tableau) (n : Nat) (hlen : B.data.length = B.rows * B.cols)
    (hb : B.basiscolumn < B.cols) (hn : n < B.rows) :
    shape (cancelLoop B n) = shape B ∧
    (cancelLoop B n).data.length = B.data.length ∧
    ∀ r c, r < B.rows → c < B.cols →
      get (cancelLoop B n) r c =
        if r = B.rows - 1 ∧ c ≠ B.zcolumn ∧ c ≠ B.basiscolumn then
          get B (B.rows - 1) c + condSum (hasArtificialBasis B) (fun i => get B i c) n
        else get B r c := by
  induction n with
  | zero =>
    refine ⟨rfl, rfl, ?_⟩
    intro r c hr hc
    have : condSum (hasArtificialBasis B) (fun i => get B i c) 0 = 0 := rfl
    rw [this, add_zero]
    by_cases h : r = B.rows - 1 ∧ c ≠ B.zcolumn ∧ c ≠ B.basiscolumn
    · rw [if_pos h, h.1]; rfl
    · rw [if_neg h]; rfl
  | succ n ih =>
    obtain ⟨ihs, ihl, ihg⟩ := ih (by omega)
    have hP : hasArtificialBasis (cancelLoop B n) n = hasArtificialBasis B n := by
      unfold hasArtificialBasis
      rw [shape_basiscolumn ihs, shape_numrealvars ihs, shape_numslackvars ihs,
        ihg n B.basiscolumn (by omega) hb]
      have : ¬ (n = B.rows - 1 ∧ B.basiscolumn ≠ B.zcolumn ∧ B.basiscolumn ≠ B.basiscolumn) := by
        intro h; exact h.2.2 rfl
      rw [if_neg this]
    rw [cancelLoop_succ, hP]
    by_cases hp : hasArtificialBasis B n = true
    · rw [if_pos hp]
      refine ⟨(shape_addrows _ _ _ _).trans ihs, (length_addrows _ _ _ _).trans ihl, ?_⟩
      intro r c hr hc
      rw [get_addrows _ _ _ _ _ _
        (by rw [ihl, shape_rows ihs, shape_cols ihs]; exact hlen)
        (by rw [shape_rows ihs]; omega) (by rw [shape_cols ihs]; exact hc),
        shape_rows ihs, shape_zcolumn ihs, shape_basiscolumn ihs,
        ihg n c (by omega) hc, ihg (B.rows - 1) c (by omega) hc, ihg r c hr hc,
        condSum_succ, if_pos hp]
      have h1 : ¬ (n = B.rows - 1 ∧ c ≠ B.zcolumn ∧ c ≠ B.basiscolumn) := by omega
      rw [if_neg h1]
      by_cases h : r = B.rows - 1 ∧ c ≠ B.zcolumn ∧ c ≠ B.basiscolumn
      · have h2 : B.rows - 1 = B.rows - 1 ∧ c ≠ B.zcolumn ∧ c ≠ B.basiscolumn :=
          ⟨rfl, h.2⟩
        have h3 : True ∧ c ≠ B.zcolumn ∧ c ≠ B.basiscolumn := ⟨trivial, h.2⟩
        simp only [if_pos h, if_pos h2, if_pos h3]
        ring
      · simp only [if_neg h]
    · rw [if_neg hp]
      refine ⟨ihs, ihl, ?_⟩
      intro r c hr hc
      rw [ihg r c hr hc, condSum_succ, if_neg hp, add_zero]

theorem createartificialtableau_eq (t : Tableau) :
    createartificialtableau t =
      scalerow
        (cancelLoop (artLoop (addobjectiverow t) (addobjectiverow t).numconstraints)
          (artLoop (addobjectiverow t) (addobjectiverow t).numconstraints).numconstraints)
        (-1)
        ((cancelLoop (artLoop (addobjectiverow t) (addobjectiverow t).numconstraints)
          (artLoop (addobjectiverow t) (addobjectiverow t).numconstraints).numconstraints).rows
            - 1) := rfl

theorem isSentinel_addobjectiverow (t : Tableau) (i : Nat) (hwf : WF t) (hi : i < t.rows) :
    isSentinel (addobjectiverow t) i = isSentinel t i := by
  obtain ⟨hlen, hz, hk, hb, hcols⟩ := hwf
  unfold isSentinel
  have : (addobjectiverow t).basiscolumn = t.basiscolumn := rfl
  rw [this, get_addobjectiverow t i t.basiscolumn (by omega) (by omega) (by omega), if_pos hi]

theorem sentinelsBefore_congr (A t : Tableau) (n : Nat)
    (h : ∀ i, i < n → isSentinel A i = isSentinel t i) :
    sentinelsBefore A n = sentinelsBefore t n := by
  induction n with
  | zero => rfl
  | succ n ih =>
    rw [sentinelsBefore_succ, sentinelsBefore_succ, ih (fun i hi => h i (by omega)),
      h n (by omega)]

theorem sentinelsBefore_addobjectiverow (t : Tableau) (n : Nat) (hwf : WF t)
    (hn : n ≤ t.rows) :
    sentinelsBefore (addobjectiverow t) n = sentinelsBefore t n :=
  sentinelsBefore_congr _ _ n (fun i hi => isSentinel_addobjectiverow t i hwf (by omega))

/-- After the first loop, the rows whose basis index names an artificial column are
exactly the sentinel rows, provided the assigned basis indices name variable columns. -/
theorem hasArtificialBasis_artLoop (A : Tableau) (n i : Nat) (hwf : WF A) (hn : n < A.rows)
    (hi : i < n) (hnv : A.numvars = A.numrealvars + A.numslackvars)
    (hbas : isSentinel A i = false → get A i A.basiscolumn < (A.numvars : ℚ)) :
    hasArtificialBasis (artLoop A n) i = isSentinel A i := by
  obtain ⟨hsh, _, hg⟩ := shape_artLoop A n hwf hn
  obtain ⟨hlen, hz, hk, hb, hcols⟩ := hwf
  obtain ⟨s1, s2, s3, s4, s5, s6, s7, s8, s9, s10⟩ := hsh
  unfold hasArtificialBasis
  rw [s10, s4, s5, hg i _ (by omega) (by omega), ← hnv]
  unfold artCell
  have h1 : ¬ A.basiscolumn + sentinelsBefore A n < A.numvars := by omega
  have h2 : ¬ A.basiscolumn + sentinelsBefore A n < A.numvars + sentinelsBefore A n := by omega
  rw [if_neg h1, if_neg h2, Nat.add_sub_cancel]
  by_cases hs : isSentinel A i = true
  · rw [if_pos ⟨rfl, hi, hs⟩, hs]
    simp
  · have hs' : isSentinel A i = false := by simpa using hs
    have h3 : ¬ (A.basiscolumn + sentinelsBefore A n = A.basiscolumn + sentinelsBefore A n ∧
        i < n ∧ isSentinel A i = true) := fun h => hs h.2.2
    rw [if_neg h3, hs']
    have := hbas hs'
    simp only [ge_iff_le, decide_eq_false_iff_not, not_le]
    exact this

/-- The last two steps of `createartificialtableau` in terms of the tableau `B` left by
its first loop. -/
theorem get_cancel_scale (B : Tableau) (r c : Nat)
    (hlen : B.data.length = B.rows * B.cols) (hb : B.basiscolumn < B.cols)
    (hn : B.numconstraints < B.rows) (hr : r < B.rows) (hc : c < B.cols) :
    shape (scalerow (cancelLoop B B.numconstraints) (-1)
        ((cancelLoop B B.numconstraints).rows - 1)) = shape B ∧
    (scalerow (cancelLoop B B.numconstraints) (-1)
        ((cancelLoop B B.numconstraints).rows - 1)).data.length = B.data.length ∧
    get (scalerow (cancelLoop B B.numconstraints) (-1)
        ((cancelLoop B B.numconstraints).rows - 1)) r c =
      if r = B.rows - 1 ∧ c ≠ B.zcolumn ∧ c ≠ B.basiscolumn then
        (get B (B.rows - 1) c +
          condSum (hasArtificialBasis B) (fun i => get B i c) B.numconstraints) * (-1)
      else get B r c := by
  obtain ⟨hs, hl, hg⟩ := get_cancelLoop B B.numconstraints hlen hb hn
  refine ⟨(shape_scalerow _ _ _).trans hs, (length_scalerow _ _ _).trans hl, ?_⟩
  rw [get_scalerow _ _ _ _ _ (by rw [hl, shape_rows hs, shape_cols hs]; exact hlen)
    (by rw [shape_rows hs]; omega) (by rw [shape_cols hs]; exact hc),
    shape_rows hs, shape_zcolumn hs, shape_basiscolumn hs,
    hg (B.rows - 1) c (by omega) hc, hg r c hr hc]
  by_cases h : r = B.rows - 1 ∧ c ≠ B.zcolumn ∧ c ≠ B.basiscolumn
  · have h2 : B.rows - 1 = B.rows - 1 ∧ c ≠ B.zcolumn ∧ c ≠ B.basiscolumn := ⟨rfl, h.2⟩
    have h3 : True ∧ c ≠ B.zcolumn ∧ c ≠ B.basiscolumn := ⟨trivial, h.2⟩
    simp only [if_pos h, if_pos h2, if_pos h3]
  · simp only [if_neg h]

/-- The tableau built by `createartificialtableau`, described through the first loop:
integer fields, buffer length, and every cell. -/
theorem createartificialtableau_raw (t : Tableau) (hwf : WF t)
    (hrows : t.numconstraints < t.rows) :
    Shifted (addobjectiverow t) (createartificialtableau t)
      (sentinelsBefore t t.numconstraints) ∧
    (createartificialtableau t).data.length =
      (t.rows + 1) * (t.cols + sentinelsBefore t t.numconstraints) ∧
    ∀ r c, r < t.rows + 1 → c < t.cols + sentinelsBefore t t.numconstraints →
      get (createartificialtableau t) r c =
        if r = t.rows ∧ c ≠ t.zcolumn + sentinelsBefore t t.numconstraints ∧
            c ≠ t.basiscolumn + sentinelsBefore t t.numconstraints then
          (artCell (addobjectiverow t) t.numconstraints t.rows c +
            condSum (hasArtificialBasis (artLoop (addobjectiverow t) t.numconstraints))
              (fun i => artCell (addobjectiverow t) t.numconstraints i c)
              t.numconstraints) * (-1)
        else artCell (addobjectiverow t) t.numconstraints r c := by
  have hwfA := WF_addobjectiverow t hwf
  have hk : sentinelsBefore (addobjectiverow t) t.numconstraints =
      sentinelsBefore t t.numconstraints :=
    sentinelsBefore_addobjectiverow t _ hwf (by omega)
  have hAr : (addobjectiverow t).rows = t.rows + 1 := rfl
  have hAc : (addobjectiverow t).cols = t.cols := rfl
  have hAn : (addobjectiverow t).numconstraints = t.numconstraints := rfl
  have hAz : (addobjectiverow t).zcolumn = t.zcolumn := rfl
  have hAb : (addobjectiverow t).basiscolumn = t.basiscolumn := rfl
  obtain ⟨hsh, hlen, hg⟩ := shape_artLoop (addobjectiverow t) t.numconstraints hwfA
    (by rw [hAr]; omega)
  rw [hk, hAr, hAc] at hlen hg
  rw [hk] at hsh
  obtain ⟨hlen0, hz, hkc, hb, hcols⟩ := hwf
  have hsh' := hsh
  obtain ⟨s1, s2, s3, s4, s5, s6, s7, s8, s9, s10⟩ := hsh'
  rw [hAr] at s1
  rw [hAc] at s2
  rw [hAn] at s7
  rw [hAz] at s8
  rw [hAb] at s10
  have hBlen : (artLoop (addobjectiverow t) t.numconstraints).data.length =
      (artLoop (addobjectiverow t) t.numconstraints).rows *
        (artLoop (addobjectiverow t) t.numconstraints).cols := by
    rw [hlen, s1, s2]
  have hBb : (artLoop (addobjectiverow t) t.numconstraints).basiscolumn <
      (artLoop (addobjectiverow t) t.numconstraints).cols := by
    rw [s10, s2]; omega
  have hBn : (artLoop (addobjectiverow t) t.numconstraints).numconstraints <
      (artLoop (addobjectiverow t) t.numconstraints).rows := by
    rw [s7, s1]; omega
  rw [createartificialtableau_eq, hAn, s7]
  refine ⟨?_, ?_, ?_⟩
  · have hs := (get_cancel_scale _ 0 0 hBlen hBb hBn (by rw [s1]; omega)
      (by rw [s2]; omega)).1
    rw [s7] at hs
    obtain ⟨u1, u2, u3, u4, u5, u6, u7, u8, u9, u10⟩ := hsh
    exact ⟨(shape_rows hs).trans u1, (shape_cols hs).trans u2, (shape_numvars hs).trans u3,
      (shape_numrealvars hs).trans u4, (shape_numslackvars hs).trans u5,
      (shape_numartificialvars hs).trans u6, (shape_numconstraints hs).trans u7,
      (shape_zcolumn hs).trans u8, (shape_constcolumn hs).trans u9,
      (shape_basiscolumn hs).trans u10⟩
  · have hl := (get_cancel_scale _ 0 0 hBlen hBb hBn (by rw [s1]; omega)
      (by rw [s2]; omega)).2.1
    rw [s7] at hl
    rw [hl, hlen]
  · intro r c hr hc
    have hcell := (get_cancel_scale _ r c hBlen hBb hBn (by rw [s1]; exact hr)
      (by rw [s2]; exact hc)).2.2
    rw [s7] at hcell
    rw [hcell, s1, s8, s10, Nat.add_sub_cancel, hg r c hr hc, hg t.rows c (by omega) hc]
    have hsum : condSum (hasArtificialBasis (artLoop (addobjectiverow t) t.numconstraints))
        (fun i => get (artLoop (addobjectiverow t) t.numconstraints) i c) t.numconstraints =
        condSum (hasArtificialBasis (artLoop (addobjectiverow t) t.numconstraints))
          (fun i => artCell (addobjectiverow t) t.numconstraints i c) t.numconstraints :=
      condSum_congr _ _ _ _ _ (fun _ _ => rfl) (fun i hi _ => hg i c (by omega) hc)
    rw [hsum]

/-- The cells left by the first loop of `createartificialtableau`, in terms of the
original tableau `t`. -/
theorem artCell_addobjectiverow (t : Tableau) (r c : Nat) (hwf : WF t)
    (hn : t.numconstraints < t.rows) (hr : r < t.rows + 1)
    (hc : c < t.cols + sentinelsBefore t t.numconstraints) :
    artCell (addobjectiverow t) t.numconstraints r c =
      if c < t.numvars then (if r < t.rows then get t r c else 0)
      else if c < t.numvars + sentinelsBefore t t.numconstraints then
        (if r < t.numconstraints ∧ isSentinel t r = true ∧
            t.numvars + sentinelsBefore t r = c then 1
         else if r = t.rows then -1 else 0)
      else if c = t.basiscolumn + sentinelsBefore t t.numconstraints ∧
          r < t.numconstraints ∧ isSentinel t r = true then
        ((t.numvars + sentinelsBefore t r : Nat) : ℚ)
      else if r < t.rows then get t r (c - sentinelsBefore t t.numconstraints)
      else if c - sentinelsBefore t t.numconstraints = t.zcolumn then 1 else 0 := by
  have hk : sentinelsBefore (addobjectiverow t) t.numconstraints =
      sentinelsBefore t t.numconstraints :=
    sentinelsBefore_addobjectiverow t _ hwf (by omega)
  have hAv : (addobjectiverow t).numvars = t.numvars := rfl
  have hAr : (addobjectiverow t).rows = t.rows + 1 := rfl
  have hAb : (addobjectiverow t).basiscolumn = t.basiscolumn := rfl
  have hw := hwf
  obtain ⟨hlen0, hz, hkc, hb, hcols⟩ := hw
  unfold artCell
  rw [hk, hAv, hAr, hAb, Nat.add_sub_cancel]
  have hsent : ∀ p : Prop, (r < t.numconstraints ∧ isSentinel (addobjectiverow t) r = true ∧ p) =
      (r < t.numconstraints ∧ isSentinel t r = true ∧ p) := by
    intro p
    apply propext
    constructor
    · rintro ⟨h1, h2, h3⟩
      rw [isSentinel_addobjectiverow t r hwf (by omega)] at h2
      exact ⟨h1, h2, h3⟩
    · rintro ⟨h1, h2, h3⟩
      rw [← isSentinel_addobjectiverow t r hwf (by omega)] at h2
      exact ⟨h1, h2, h3⟩
  have hsent' : (r < t.numconstraints ∧ isSentinel (addobjectiverow t) r = true) =
      (r < t.numconstraints ∧ isSentinel t r = true) := by
    have := hsent True
    simpa using this
  by_cases c1 : c < t.numvars
  · rw [if_pos c1, if_pos c1, get_addobjectiverow t r c (by omega) hr (by omega)]
    have : c ≠ t.zcolumn := by omega
    by_cases hrt : r < t.rows
    · rw [if_pos hrt, if_pos hrt]
    · rw [if_neg hrt, if_neg hrt, if_neg this]
  · rw [if_neg c1, if_neg c1]
    by_cases c2 : c < t.numvars + sentinelsBefore t t.numconstraints
    · rw [if_pos c2, if_pos c2]
      by_cases hrn : r < t.numconstraints
      · rw [sentinelsBefore_addobjectiverow t r hwf (by omega)]
        simp only [hsent]
      · have f1 : ¬ (r < t.numconstraints ∧ isSentinel (addobjectiverow t) r = true ∧
            t.numvars + sentinelsBefore (addobjectiverow t) r = c) := fun h => hrn h.1
        have f2 : ¬ (r < t.numconstraints ∧ isSentinel t r = true ∧
            t.numvars + sentinelsBefore t r = c) := fun h => hrn h.1
        rw [if_neg f1, if_neg f2]
    · rw [if_neg c2, if_neg c2]
      by_cases c3 : c = t.basiscolumn + sentinelsBefore t t.numconstraints ∧
          r < t.numconstraints ∧ isSentinel t r = true
      · have c3' : c = t.basiscolumn + sentinelsBefore t t.numconstraints ∧
            r < t.numconstraints ∧ isSentinel (addobjectiverow t) r = true := by
          refine ⟨c3.1, ?_⟩
          rw [hsent']; exact c3.2
        rw [if_pos c3, if_pos c3', sentinelsBefore_addobjectiverow t r hwf (by omega)]
      · have c3' : ¬ (c = t.basiscolumn + sentinelsBefore t t.numconstraints ∧
            r < t.numconstraints ∧ isSentinel (addobjectiverow t) r = true) := by
          intro h
          apply c3
          refine ⟨h.1, ?_⟩
          rw [← hsent']; exact h.2
        rw [if_neg c3, if_neg c3',
          get_addobjectiverow t r _ (by omega) hr (by omega)]

/-! ## Cells of the phase-one tableau -/

theorem artCell_row (t : Tableau) (r c : Nat) (hwf : WF t)
    (hn : t.numconstraints < t.rows) (hr : r < t.rows)
    (hc : c < t.cols + sentinelsBefore t t.numconstraints) :
    artCell (addobjectiverow t) t.numconstraints r c = createdCell t r c := by
  rw [artCell_addobjectiverow t r c hwf hn (by omega) hc]
  unfold createdCell
  have hrr : r ≠ t.rows := by omega
  simp only [if_pos hr, if_neg hrr]

theorem artCell_last (t : Tableau) (c : Nat) (hwf : WF t)
    (hn : t.numconstraints < t.rows)
    (hc : c < t.cols + sentinelsBefore t t.numconstraints) :
    artCell (addobjectiverow t) t.numconstraints t.rows c =
      if c < t.numvars then 0
      else if c < t.numvars + sentinelsBefore t t.numconstraints then -1
      else if c - sentinelsBefore t t.numconstraints = t.zcolumn then 1 else 0 := by
  rw [artCell_addobjectiverow t t.rows c hwf hn (by omega) hc]
  have h1 : ¬ t.rows < t.rows := lt_irrefl _
  have h2 : ∀ p : Prop, ¬ (t.rows < t.numconstraints ∧ p) := fun p h => by omega
  have h3 : ∀ p : Prop, ¬ (p ∧ t.rows < t.numconstraints ∧ isSentinel t t.rows = true) :=
    fun p h => by omega
  simp only [if_neg h1, if_neg (h2 _), if_neg (h3 _), if_true]

/-- The sum, over the sentinel rows, of the cells of a column of the phase-one
tableau. -/
theorem condSum_createdCell (t : Tableau) (c : Nat) (hwf : WF t) :
    condSum (isSentinel t) (fun i => createdCell t i c) t.numconstraints =
      if c < t.numvars then sentinelSum t c t.numconstraints
      else if c < t.numvars + sentinelsBefore t t.numconstraints then 1
      else if c = t.constcolumn + sentinelsBefore t t.numconstraints then
        sentinelSum t t.constcolumn t.numconstraints
      else condSum (isSentinel t) (fun i => createdCell t i c) t.numconstraints := by
  obtain ⟨hlen, hz, hk, hb, hcols⟩ := hwf
  by_cases c1 : c < t.numvars
  · rw [if_pos c1, sentinelSum_eq]
    apply condSum_congr _ _ _ _ _ (fun _ _ => rfl)
    intro i _ _
    show createdCell t i c = get t i c
    unfold createdCell
    rw [if_pos c1]
  · rw [if_neg c1]
    by_cases c2 : c < t.numvars + sentinelsBefore t t.numconstraints
    · rw [if_pos c2]
      have h := condSum_indicator t c t.numconstraints
      rw [if_pos ⟨by omega, c2⟩] at h
      rw [← h]
      apply condSum_congr _ _ _ _ _ (fun _ _ => rfl)
      intro i hi hs
      show createdCell t i c = _
      unfold createdCell
      rw [if_neg c1, if_pos c2]
      by_cases he : t.numvars + sentinelsBefore t i = c
      · rw [if_pos ⟨hi, hs, he⟩, if_pos he]
      · have : ¬ (i < t.numconstraints ∧ isSentinel t i = true ∧
            t.numvars + sentinelsBefore t i = c) := fun h => he h.2.2
        rw [if_neg this, if_neg he]
    · rw [if_neg c2]
      by_cases c3 : c = t.constcolumn + sentinelsBefore t t.numconstraints
      · rw [if_pos c3, sentinelSum_eq]
        apply condSum_congr _ _ _ _ _ (fun _ _ => rfl)
        intro i _ _
        show createdCell t i c = get t i t.constcolumn
        unfold createdCell
        have h3 : ¬ (c = t.basiscolumn + sentinelsBefore t t.numconstraints ∧
            i < t.numconstraints ∧ isSentinel t i = true) := by
          intro h; omega
        rw [if_neg c1, if_neg c2, if_neg h3, c3, Nat.add_sub_cancel]
      · rw [if_neg c3]

/-- The auxiliary objective row: the negated sum of the last row left by the first
loop and of the sentinel rows, outside the z and basis columns. -/
theorem auxCell_eq (t : Tableau) (r c : Nat) (hwf : WF t) (hr : r = t.rows)
    (hc : c < t.cols + sentinelsBefore t t.numconstraints) :
    (if r = t.rows ∧ c ≠ t.zcolumn + sentinelsBefore t t.numconstraints ∧
        c ≠ t.basiscolumn + sentinelsBefore t t.numconstraints then
      ((if c < t.numvars then 0
        else if c < t.numvars + sentinelsBefore t t.numconstraints then -1
        else if c - sentinelsBefore t t.numconstraints = t.zcolumn then 1 else 0) +
        condSum (isSentinel t) (fun i => createdCell t i c) t.numconstraints) * (-1)
    else
      (if c < t.numvars then 0
        else if c < t.numvars + sentinelsBefore t t.numconstraints then -1
        else if c - sentinelsBefore t t.numconstraints = t.zcolumn then 1 else 0)) =
      auxCell t c := by
  rw [condSum_createdCell t c hwf]
  obtain ⟨hlen, hz, hk, hb, hcols⟩ := hwf
  unfold auxCell
  by_cases c1 : c < t.numvars
  · have h2 : r = t.rows ∧ c ≠ t.zcolumn + sentinelsBefore t t.numconstraints ∧
        c ≠ t.basiscolumn + sentinelsBefore t t.numconstraints := by omega
    rw [if_pos h2, if_pos c1, if_pos c1, if_pos c1]
    ring
  · by_cases c2 : c < t.numvars + sentinelsBefore t t.numconstraints
    · have h2 : r = t.rows ∧ c ≠ t.zcolumn + sentinelsBefore t t.numconstraints ∧
          c ≠ t.basiscolumn + sentinelsBefore t t.numconstraints := by omega
      rw [if_pos h2, if_neg c1, if_pos c2, if_neg c1, if_pos c2, if_neg c1, if_pos c2]
      norm_num
    · by_cases c3 : c = t.zcolumn + sentinelsBefore t t.numconstraints
      · have h2 : ¬ (r = t.rows ∧ c ≠ t.zcolumn + sentinelsBefore t t.numconstraints ∧
            c ≠ t.basiscolumn + sentinelsBefore t t.numconstraints) := fun h => h.2.1 c3
        have h4 : c - sentinelsBefore t t.numconstraints = t.zcolumn := by omega
        rw [if_neg h2, if_neg c1, if_neg c2, if_pos h4, if_neg c1, if_neg c2, if_pos c3]
      · have h4 : ¬ c - sentinelsBefore t t.numconstraints = t.zcolumn := by omega
        by_cases c4 : c = t.constcolumn + sentinelsBefore t t.numconstraints
        · have h2 : r = t.rows ∧ c ≠ t.zcolumn + sentinelsBefore t t.numconstraints ∧
              c ≠ t.basiscolumn + sentinelsBefore t t.numconstraints := by omega
          rw [if_pos h2, if_neg c1, if_neg c2, if_neg h4, if_neg c1, if_neg c2, if_pos c4,
            if_neg c1, if_neg c2, if_neg c3, if_pos c4]
          ring
        · have h5 : c = t.basiscolumn + sentinelsBefore t t.numconstraints := by omega
          have h2 : ¬ (r = t.rows ∧ c ≠ t.zcolumn + sentinelsBefore t t.numconstraints ∧
              c ≠ t.basiscolumn + sentinelsBefore t t.numconstraints) :=
            fun h => h.2.2 h5
          rw [if_neg h2, if_neg c1, if_neg c2, if_neg h4, if_neg c1, if_neg c2, if_neg c3,
            if_neg c4]

/-- Cell-wise description of `createartificialtableau`: integer fields, buffer length,
and every cell. -/
theorem get_createartificialtableau (t : Tableau) (hwf : WF t)
    (hrows : t.numconstraints < t.rows) (hnv : t.numvars = t.numrealvars + t.numslackvars)
    (hbas : ∀ i, i < t.numconstraints → isSentinel t i = false →
      get t i t.basiscolumn < (t.numvars : ℚ)) :
    Shifted (addobjectiverow t) (createartificialtableau t)
      (sentinelsBefore t t.numconstraints) ∧
    WF (createartificialtableau t) ∧
    ∀ r c, r < t.rows + 1 → c < t.cols + sentinelsBefore t t.numconstraints →
      get (createartificialtableau t) r c =
        if r < t.rows then createdCell t r c else auxCell t c := by
  obtain ⟨hsh, hlen, hg⟩ := createartificialtableau_raw t hwf hrows
  have hw := hwf
  obtain ⟨hlen0, hz, hk, hb, hcols⟩ := hw
  have hsh' := hsh
  obtain ⟨s1, s2, s3, s4, s5, s6, s7, s8, s9, s10⟩ := hsh'
  have hAr : (addobjectiverow t).rows = t.rows + 1 := rfl
  have hAc : (addobjectiverow t).cols = t.cols := rfl
  have hAv : (addobjectiverow t).numvars = t.numvars := rfl
  have hAz : (addobjectiverow t).zcolumn = t.zcolumn := rfl
  have hAk : (addobjectiverow t).constcolumn = t.constcolumn := rfl
  have hAb : (addobjectiverow t).basiscolumn = t.basiscolumn := rfl
  rw [hAr] at s1
  rw [hAc] at s2
  rw [hAv] at s3
  rw [hAz] at s8
  rw [hAk] at s9
  rw [hAb] at s10
  refine ⟨hsh, ⟨?_, ?_, ?_, ?_, ?_⟩, ?_⟩
  · rw [hlen, s1, s2]
  · rw [s8, s3]; omega
  · rw [s9, s3]; omega
  · rw [s10, s3]; omega
  · rw [s2, s3]; omega
  · intro r c hr hc
    rw [hg r c hr hc]
    by_cases hrl : r < t.rows
    · have h1 : ¬ (r = t.rows ∧ c ≠ t.zcolumn + sentinelsBefore t t.numconstraints ∧
          c ≠ t.basiscolumn + sentinelsBefore t t.numconstraints) := by omega
      rw [if_neg h1, if_pos hrl, artCell_row t r c hwf hrows hrl hc]
    · have hre : r = t.rows := by omega
      subst hre
      rw [if_neg hrl, artCell_last t c hwf hrows hc]
      have hsum : condSum (hasArtificialBasis (artLoop (addobjectiverow t) t.numconstraints))
          (fun i => artCell (addobjectiverow t) t.numconstraints i c) t.numconstraints =
          condSum (isSentinel t) (fun i => createdCell t i c) t.numconstraints := by
        apply condSum_congr
        · intro i hi
          rw [hasArtificialBasis_artLoop (addobjectiverow t) t.numconstraints i
            (WF_addobjectiverow t hwf) (by rw [hAr]; omega) hi hnv ?_,
            isSentinel_addobjectiverow t i hwf (by omega)]
          intro hs
          rw [isSentinel_addobjectiverow t i hwf (by omega)] at hs
          rw [hAb, hAv, get_addobjectiverow t i t.basiscolumn (by omega) (by omega) (by omega),
            if_pos (by omega)]
          exact hbas i hi hs
        · intro i hi _
          exact artCell_row t i c hwf hrows (by omega) hc
      rw [hsum]
      exact auxCell_eq t t.rows c hwf rfl hc

theorem sentinelsBefore_inj (t : Tableau) {i j : Nat} (hi : isSentinel t i = true)
    (hj : isSentinel t j = true) (h : sentinelsBefore t i = sentinelsBefore t j) : i = j := by
  rcases Nat.lt_trichotomy i j with hlt | heq | hgt
  · have := sentinelsBefore_lt t hlt hi; omega
  · exact heq
  · have := sentinelsBefore_lt t hgt hj; omega

theorem isSentinel_iff (t : Tableau) (i : Nat) :
    isSentinel t i = true ↔ get t i t.basiscolumn < 0 := by
  simp [isSentinel]

/-- The integer fields after `createartificialtableau`, written out. -/
theorem fields_createartificialtableau (t : Tableau) (hwf : WF t)
    (hrows : t.numconstraints < t.rows) :
    (createartificialtableau t).rows = t.rows + 1 ∧
    (createartificialtableau t).cols = t.cols + sentinelsBefore t t.numconstraints ∧
    (createartificialtableau t).numvars = t.numvars + sentinelsBefore t t.numconstraints ∧
    (createartificialtableau t).numrealvars = t.numrealvars ∧
    (createartificialtableau t).numslackvars = t.numslackvars ∧
    (createartificialtableau t).numartificialvars =
      t.numartificialvars + sentinelsBefore t t.numconstraints ∧
    (createartificialtableau t).numconstraints = t.numconstraints ∧
    (createartificialtableau t).zcolumn = t.zcolumn + sentinelsBefore t t.numconstraints ∧
    (createartificialtableau t).constcolumn =
      t.constcolumn + sentinelsBefore t t.numconstraints ∧
    (createartificialtableau t).basiscolumn =
      t.basiscolumn + sentinelsBefore t t.numconstraints :=
  (createartificialtableau_raw t hwf hrows).1

/-- Hypotheses under which `createartificialtableau` is described: a well-formed
tableau with an objective row after the constraint rows, no artificial variables yet,
and assigned basis indices that name variable columns. -/
theorem createdCell_get (t : Tableau) (hwf : WF t) (hn : t.numconstraints < t.rows)
    (hnv : t.numvars = t.numrealvars + t.numslackvars)
    (hbas : ∀ i, i < t.numconstraints → isSentinel t i = false →
      get t i t.basiscolumn < (t.numvars : ℚ))
    (r c : Nat) (hr : r < t.rows) (hc : c < t.cols + sentinelsBefore t t.numconstraints) :
    get (createartificialtableau t) r c = createdCell t r c := by
  rw [(get_createartificialtableau t hwf hn hnv hbas).2.2 r c (by omega) hc, if_pos hr]

theorem auxCell_get (t : Tableau) (hwf : WF t) (hn : t.numconstraints < t.rows)
    (hnv : t.numvars = t.numrealvars + t.numslackvars)
    (hbas : ∀ i, i < t.numconstraints → isSentinel t i = false →
      get t i t.basiscolumn < (t.numvars : ℚ))
    (c : Nat) (hc : c < t.cols + sentinelsBefore t t.numconstraints) :
    get (createartificialtableau t) t.rows c = auxCell t c := by
  rw [(get_createartificialtableau t hwf hn hnv hbas).2.2 t.rows c (by omega) hc,
    if_neg (lt_irrefl _)]

theorem createdCell_var (t : Tableau) (r c : Nat) (hc : c < t.numvars) :
    createdCell t r c = get t r c := by
  unfold createdCell
  rw [if_pos hc]

theorem createdCell_marker (t : Tableau) (r c : Nat) (hc : t.numvars ≤ c)
    (hb : c ≠ t.basiscolumn) :
    createdCell t r (c + sentinelsBefore t t.numconstraints) = get t r c := by
  unfold createdCell
  have h1 : ¬ c + sentinelsBefore t t.numconstraints < t.numvars := by omega
  have h2 : ¬ c + sentinelsBefore t t.numconstraints <
      t.numvars + sentinelsBefore t t.numconstraints := by omega
  have h3 : ¬ (c + sentinelsBefore t t.numconstraints =
      t.basiscolumn + sentinelsBefore t t.numconstraints ∧
      r < t.numconstraints ∧ isSentinel t r = true) := by
    intro h; omega
  rw [if_neg h1, if_neg h2, if_neg h3, Nat.add_sub_cancel]

theorem createdCell_basis_assigned (t : Tableau) (r : Nat) (hb : t.numvars ≤ t.basiscolumn)
    (hs : ¬ (r < t.numconstraints ∧ isSentinel t r = true)) :
    createdCell t r (t.basiscolumn + sentinelsBefore t t.numconstraints) =
      get t r t.basiscolumn := by
  unfold createdCell
  have h1 : ¬ t.basiscolumn + sentinelsBefore t t.numconstraints < t.numvars := by omega
  have h2 : ¬ t.basiscolumn + sentinelsBefore t t.numconstraints <
      t.numvars + sentinelsBefore t t.numconstraints := by omega
  have h3 : ¬ (t.basiscolumn + sentinelsBefore t t.numconstraints =
      t.basiscolumn + sentinelsBefore t t.numconstraints ∧
      r < t.numconstraints ∧ isSentinel t r = true) := fun h => hs h.2
  rw [if_neg h1, if_neg h2, if_neg h3, Nat.add_sub_cancel]

theorem createdCell_basis_sentinel (t : Tableau) (r : Nat) (hb : t.numvars ≤ t.basiscolumn)
    (hr : r < t.numconstraints) (hs : isSentinel t r = true) :
    createdCell t r (t.basiscolumn + sentinelsBefore t t.numconstraints) =
      ((t.numvars + sentinelsBefore t r : Nat) : ℚ) := by
  unfold createdCell
  have h1 : ¬ t.basiscolumn + sentinelsBefore t t.numconstraints < t.numvars := by omega
  have h2 : ¬ t.basiscolumn + sentinelsBefore t t.numconstraints <
      t.numvars + sentinelsBefore t t.numconstraints := by omega
  rw [if_neg h1, if_neg h2, if_pos ⟨rfl, hr, hs⟩]

theorem createdCell_art (t : Tableau) (r c : Nat) (hc1 : t.numvars ≤ c)
    (hc2 : c < t.numvars + sentinelsBefore t t.numconstraints) :
    createdCell t r c =
      if r < t.numconstraints ∧ isSentinel t r = true ∧ t.numvars + sentinelsBefore t r = c
        then 1 else 0 := by
  unfold createdCell
  have h1 : ¬ c < t.numvars := by omega
  rw [if_neg h1, if_pos hc2]

theorem auxCell_var (t : Tableau) (c : Nat) (hc : c < t.numvars) :
    auxCell t c = -(sentinelSum t c t.numconstraints) := by
  unfold auxCell
  rw [if_pos hc]

theorem auxCell_art (t : Tableau) (c : Nat) (hc1 : t.numvars ≤ c)
    (hc2 : c < t.numvars + sentinelsBefore t t.numconstraints) : auxCell t c = 0 := by
  unfold auxCell
  have h1 : ¬ c < t.numvars := by omega
  rw [if_neg h1, if_pos hc2]

theorem auxCell_z (t : Tableau) (hz : t.numvars ≤ t.zcolumn) :
    auxCell t (t.zcolumn + sentinelsBefore t t.numconstraints) = 1 := by
  unfold auxCell
  have h1 : ¬ t.zcolumn + sentinelsBefore t t.numconstraints < t.numvars := by omega
  have h2 : ¬ t.zcolumn + sentinelsBefore t t.numconstraints <
      t.numvars + sentinelsBefore t t.numconstraints := by omega
  rw [if_neg h1, if_neg h2, if_pos rfl]

theorem auxCell_const (t : Tableau) (hk : t.numvars ≤ t.constcolumn)
    (hzk : t.constcolumn ≠ t.zcolumn) :
    auxCell t (t.constcolumn + sentinelsBefore t t.numconstraints) =
      -(sentinelSum t t.constcolumn t.numconstraints) := by
  unfold auxCell
  have h1 : ¬ t.constcolumn + sentinelsBefore t t.numconstraints < t.numvars := by omega
  have h2 : ¬ t.constcolumn + sentinelsBefore t t.numconstraints <
      t.numvars + sentinelsBefore t t.numconstraints := by omega
  have h3 : ¬ t.constcolumn + sentinelsBefore t t.numconstraints =
      t.zcolumn + sentinelsBefore t t.numconstraints := by omega
  rw [if_neg h1, if_neg h2, if_neg h3, if_pos rfl]

theorem auxCell_basis (t : Tableau) (hb : t.numvars ≤ t.basiscolumn)
    (hbz : t.basiscolumn ≠ t.zcolumn) (hbk : t.basiscolumn ≠ t.constcolumn) :
    auxCell t (t.basiscolumn + sentinelsBefore t t.numconstraints) = 0 := by
  unfold auxCell
  have h1 : ¬ t.basiscolumn + sentinelsBefore t t.numconstraints < t.numvars := by omega
  have h2 : ¬ t.basiscolumn + sentinelsBefore t t.numconstraints <
      t.numvars + sentinelsBefore t t.numconstraints := by omega
  have h3 : ¬ t.basiscolumn + sentinelsBefore t t.numconstraints =
      t.zcolumn + sentinelsBefore t t.numconstraints := by omega
  have h4 : ¬ t.basiscolumn + sentinelsBefore t t.numconstraints =
      t.constcolumn + sentinelsBefore t t.numconstraints := by omega
  rw [if_neg h1, if_neg h2, if_neg h3, if_neg h4]

/-- A sentinel row owns its artificial column: a unit column, named by the row's basis
index. -/
theorem createartificialtableau_unit_column (t : Tableau) (hwf : WF t)
    (hn : t.numconstraints < t.rows) (hnv : t.numvars = t.numrealvars + t.numslackvars)
    (hbas : ∀ i, i < t.numconstraints → isSentinel t i = false →
      get t i t.basiscolumn < (t.numvars : ℚ))
    (i : Nat) (hi : i < t.numconstraints) (hs : isSentinel t i = true) :
    t.numvars + sentinelsBefore t i < t.numvars + sentinelsBefore t t.numconstraints ∧
    get (createartificialtableau t) i (t.numvars + sentinelsBefore t i) = 1 ∧
    (∀ r, r < t.rows + 1 → r ≠ i →
      get (createartificialtableau t) r (t.numvars + sentinelsBefore t i) = 0) ∧
    get (createartificialtableau t) i (t.basiscolumn + sentinelsBefore t t.numconstraints) =
      ((t.numvars + sentinelsBefore t i : Nat) : ℚ) := by
  have hlt := sentinelsBefore_lt t hi hs
  obtain ⟨hlen, hz, hk, hb, hcols⟩ := id hwf
  refine ⟨by omega, ?_, ?_, ?_⟩
  · rw [createdCell_get t hwf hn hnv hbas i _ (by omega) (by omega),
      createdCell_art t i _ (by omega) (by omega), if_pos ⟨hi, hs, rfl⟩]
  · intro r hr hri
    by_cases hrl : r < t.rows
    · have hne : ¬ (r < t.numconstraints ∧ isSentinel t r = true ∧
          t.numvars + sentinelsBefore t r = t.numvars + sentinelsBefore t i) := by
        rintro ⟨_, h2, h3⟩
        exact hri (sentinelsBefore_inj t h2 hs (by omega))
      rw [createdCell_get t hwf hn hnv hbas r _ hrl (by omega),
        createdCell_art t r _ (by omega) (by omega), if_neg hne]
    · have hre : r = t.rows := by omega
      rw [hre, auxCell_get t hwf hn hnv hbas _ (by omega), auxCell_art t _ (by omega) (by omega)]
  · rw [createdCell_get t hwf hn hnv hbas i _ (by omega) (by omega),
      createdCell_basis_sentinel t i (by omega) hi hs]

/-- The cells of the original rows are kept by `createartificialtableau`. -/
theorem createartificialtableau_frame (t : Tableau) (hwf : WF t)
    (hn : t.numconstraints < t.rows) (hnv : t.numvars = t.numrealvars + t.numslackvars)
    (hbas : ∀ i, i < t.numconstraints → isSentinel t i = false →
      get t i t.basiscolumn < (t.numvars : ℚ))
    (r : Nat) (hr : r < t.rows) :
    (∀ c, c < t.numvars → get (createartificialtableau t) r c = get t r c) ∧
    get (createartificialtableau t) r (t.zcolumn + sentinelsBefore t t.numconstraints) =
      get t r t.zcolumn ∧
    get (createartificialtableau t) r (t.constcolumn + sentinelsBefore t t.numconstraints) =
      get t r t.constcolumn ∧
    (¬ (r < t.numconstraints ∧ isSentinel t r = true) →
      get (createartificialtableau t) r (t.basiscolumn + sentinelsBefore t t.numconstraints) =
        get t r t.basiscolumn) := by
  obtain ⟨hlen, hz, hk, hb, hcols⟩ := id hwf
  refine ⟨?_, ?_, ?_, ?_⟩
  · intro c hc
    rw [createdCell_get t hwf hn hnv hbas r c hr (by omega), createdCell_var t r c hc]
  · rw [createdCell_get t hwf hn hnv hbas r _ hr (by omega),
      createdCell_marker t r _ (by omega) (by omega)]
  · rw [createdCell_get t hwf hn hnv hbas r _ hr (by omega),
      createdCell_marker t r _ (by omega) (by omega)]
  · intro hs
    rw [createdCell_get t hwf hn hnv hbas r _ hr (by omega),
      createdCell_basis_assigned t r (by omega) hs]

/-- The auxiliary objective row built by `createartificialtableau`. -/
theorem createartificialtableau_aux (t : Tableau) (hwf : WF t)
    (hn : t.numconstraints < t.rows) (hnv : t.numvars = t.numrealvars + t.numslackvars)
    (hbas : ∀ i, i < t.numconstraints → isSentinel t i = false →
      get t i t.basiscolumn < (t.numvars : ℚ)) :
    get (createartificialtableau t) t.rows
      (t.zcolumn + sentinelsBefore t t.numconstraints) = 1 ∧
    (∀ c, t.numvars ≤ c → c < t.numvars + sentinelsBefore t t.numconstraints →
      get (createartificialtableau t) t.rows c = 0) ∧
    (∀ c, c < t.numvars →
      get (createartificialtableau t) t.rows c = -(sentinelSum t c t.numconstraints)) ∧
    get (createartificialtableau t) t.rows
      (t.constcolumn + sentinelsBefore t t.numconstraints) =
      -(sentinelSum t t.constcolumn t.numconstraints) ∧
    get (createartificialtableau t) t.rows
      (t.basiscolumn + sentinelsBefore t t.numconstraints) = 0 := by
  obtain ⟨hlen, hz, hk, hb, hcols⟩ := id hwf
  refine ⟨?_, ?_, ?_, ?_, ?_⟩
  · rw [auxCell_get t hwf hn hnv hbas _ (by omega), auxCell_z t (by omega)]
  · intro c h1 h2
    rw [auxCell_get t hwf hn hnv hbas _ (by omega), auxCell_art t c h1 h2]
  · intro c h1
    rw [auxCell_get t hwf hn hnv hbas _ (by omega), auxCell_var t c h1]
  · rw [auxCell_get t hwf hn hnv hbas _ (by omega), auxCell_const t (by omega) (by omega)]
  · rw [auxCell_get t hwf hn hnv hbas _ (by omega),
      auxCell_basis t (by omega) (by omega) (by omega)]

/-- What a row index returned by `findpivotrow` satisfies. -/
theorem findpivotrow_eq_nat (t : Tableau) (c r : Nat) (h : findpivotrow t c = (r : Int)) :
    r < t.numconstraints ∧ 0 < get t r c ∧
    ∀ i, i < t.numconstraints → 0 < get t i c →
      ratio t c r ≤ ratio t c i ∧ (ratio t c i = ratio t c r → r ≤ i) := by
  have hex : ∃ i, i < t.numconstraints ∧ 0 < get t i c := by
    by_contra hcon
    have hu : findpivotrow t c = UNBOUNDED := by
      rw [findpivotrow_unbounded_iff]
      intro i hi hp
      exact hcon ⟨i, hi, hp⟩
    rw [hu] at h
    unfold UNBOUNDED at h
    omega
  obtain ⟨r', hr', h1, h2, h3⟩ := findpivotrow_found t c hex
  have : r' = r := by
    rw [hr'] at h
    exact_mod_cast h
  subst this
  exact ⟨h1, h2, h3⟩

/-- The RHS cell of a row after a pivot on a variable column. -/
theorem get_pivot_const (t : Tableau) (p pc i : Nat) (hwf : WF t) (hp : p < t.rows)
    (hpc : pc < t.numvars) (hi : i < t.rows) :
    get (pivot t p pc) i t.constcolumn =
      if i = p then get t p t.constcolumn * (1 / get t p pc)
      else get t p t.constcolumn * (1 / get t p pc) * (-get t i pc) + get t i t.constcolumn := by
  obtain ⟨hlen, hz, hk, hb, hcols⟩ := id hwf
  rw [get_pivot t p pc i t.constcolumn hwf hp hpc (by omega)]
  have h1 : t.constcolumn ≠ t.basiscolumn := by omega
  have h2 : t.constcolumn ≠ t.zcolumn := by omega
  rw [if_neg h1, if_neg h2]
  by_cases hip : i = p
  · have h3 : ¬ (i < t.rows ∧ i ≠ p) := fun h => h.2 hip
    rw [if_neg h3, if_pos hip, if_pos hip]
  · rw [if_pos ⟨hi, hip⟩, if_neg hip]

/-- The ratio test keeps the right-hand sides non-negative. -/
theorem pivot_rhs_nonneg (t : Tableau) (c r : Nat) (hwf : WF t)
    (hnc : t.numconstraints ≤ t.rows) (hc : c < t.numvars)
    (hrhs : ∀ i, i < t.numconstraints → 0 ≤ get t i t.constcolumn)
    (hr : findpivotrow t c = (r : Int)) :
    ∀ i, i < t.numconstraints → 0 ≤ get (pivot t r c) i t.constcolumn := by
  obtain ⟨hrn, hpos, hmin⟩ := findpivotrow_eq_nat t c r hr
  intro i hi
  rw [get_pivot_const t r c i hwf (by omega) hc (by omega)]
  have hr0 := hrhs r hrn
  have hi0 := hrhs i hi
  by_cases hir : i = r
  · rw [if_pos hir]
    have : 0 ≤ 1 / get t r c := by positivity
    exact mul_nonneg hr0 this
  · rw [if_neg hir]
    have hq : 0 ≤ get t r t.constcolumn * (1 / get t r c) :=
      mul_nonneg hr0 (by positivity)
    by_cases hic : 0 < get t i c
    · have h := (hmin i hi hic).1
      unfold ratio at h
      rw [div_le_div_iff₀ hpos hic] at h
      have e : get t r t.constcolumn * (1 / get t r c) * (-get t i c) + get t i t.constcolumn =
          (get t i t.constcolumn * get t r c - get t r t.constcolumn * get t i c) /
            get t r c := by
        field_simp
        ring
      rw [e]
      apply div_nonneg _ hpos.le
      linarith
    · have hic' : get t i c ≤ 0 := not_lt.mp hic
      have : 0 ≤ get t r t.constcolumn * (1 / get t r c) * (-get t i c) :=
        mul_nonneg hq (by linarith)
      linarith

/-! ## Layout -/

theorem Layout_of_shape {a b : Tableau} (h : shape a = shape b) (hb : Layout b) : Layout a := by
  unfold Layout at hb ⊢
  rw [shape_numvars h, shape_numrealvars h, shape_numslackvars h, shape_numartificialvars h,
    shape_zcolumn h, shape_constcolumn h, shape_basiscolumn h, shape_cols h]
  exact hb

theorem Layout_readtableau (numrealvars numslackvars numconstraints : Nat) (values : List ℚ) :
    Layout (readtableau numrealvars numslackvars numconstraints values) := by
  refine ⟨rfl, ?_, ?_, ?_, ?_⟩
  · show numrealvars + numslackvars + 3 - 3 = numrealvars + numslackvars
    omega
  · show numrealvars + numslackvars + 3 - 2 = numrealvars + numslackvars + 1
    omega
  · show numrealvars + numslackvars + 3 - 1 = numrealvars + numslackvars + 2
    omega
  · rfl

theorem Layout_addobjectiverow (t : Tableau) (h : Layout t) : Layout (addobjectiverow t) := h

theorem Layout_deleterow (t : Tableau) (r : Nat) (h : Layout t) : Layout (deleterow t r) := h

theorem Layout_addartificialcolumn (t : Tableau) (r : Nat) (h : Layout t) :
    Layout (addartificialcolumn t r) := by
  obtain ⟨h1, h2, h3, h4, h5⟩ := h
  refine ⟨?_, ?_, ?_, ?_, ?_⟩
  · show t.numvars + 1 = t.numrealvars + t.numslackvars + (t.numartificialvars + 1)
    omega
  · show t.zcolumn + 1 = t.numvars + 1
    omega
  · show t.constcolumn + 1 = t.numvars + 1 + 1
    omega
  · show t.basiscolumn + 1 = t.numvars + 1 + 2
    omega
  · show t.cols + 1 = t.numvars + 1 + 3
    omega

theorem Layout_deletecolumn (t : Tableau) (c : Nat) (h : Layout t)
    (hart : 0 < t.numartificialvars) : Layout (deletecolumn t c) := by
  obtain ⟨h1, h2, h3, h4, h5⟩ := h
  refine ⟨?_, ?_, ?_, ?_, ?_⟩
  · show t.numvars - 1 = t.numrealvars + t.numslackvars + (t.numartificialvars - 1)
    omega
  · show t.zcolumn - 1 = t.numvars - 1
    omega
  · show t.constcolumn - 1 = t.numvars - 1 + 1
    omega
  · show t.basiscolumn - 1 = t.numvars - 1 + 2
    omega
  · show t.cols - 1 = t.numvars - 1 + 3
    omega

theorem Layout_pivot (t : Tableau) (r c : Nat) (h : Layout t) : Layout (pivot t r c) :=
  Layout_of_shape (shape_pivot t r c) h

theorem Layout_artLoop (t : Tableau) (n : Nat) (h : Layout t) : Layout (artLoop t n) := by
  induction n with
  | zero => exact h
  | succ n ih =>
    rw [artLoop_succ]
    split
    · exact Layout_of_shape (shape_set _ _ _ _) (Layout_addartificialcolumn _ _ ih)
    · exact ih

theorem shape_cancelLoop (t : Tableau) (n : Nat) : shape (cancelLoop t n) = shape t := by
  induction n with
  | zero => rfl
  | succ n ih =>
    rw [cancelLoop_succ]
    split
    · exact (shape_addrows _ _ _ _).trans ih
    · exact ih

theorem Layout_createartificialtableau (t : Tableau) (h : Layout t) :
    Layout (createartificialtableau t) := by
  rw [createartificialtableau_eq]
  exact Layout_of_shape ((shape_scalerow _ _ _).trans (shape_cancelLoop _ _))
    (Layout_artLoop _ _ (Layout_addobjectiverow t h))

/-- The column-deleting loop of `destroyartificialtableau` keeps the layout: its index
is `numvars - 1` at every test, so a column is only deleted while artificial variables
remain. -/
theorem Layout_deleteArtificialLoop (n : Nat) (t : Tableau) (i : Int) (h : Layout t)
    (hi : i = (t.numvars : Int) - 1) : Layout (deleteArtificialLoop n t i) := by
  induction n generalizing t i with
  | zero => exact h
  | succ n ih =>
    unfold deleteArtificialLoop
    by_cases hc : i ≥ (t.numvars : Int) - (t.numartificialvars : Int)
    · rw [if_pos hc]
      have hart : 0 < t.numartificialvars := by omega
      have hnv : 0 < t.numvars := by
        have := h.1
        omega
      apply ih _ _ (Layout_deletecolumn t _ h hart)
      show i - 1 = ((t.numvars - 1 : Nat) : Int) - 1
      omega
    · rw [if_neg hc]
      exact h

theorem Layout_destroyartificialtableau (t : Tableau) (h : Layout t) :
    Layout (destroyartificialtableau t) := by
  unfold destroyartificialtableau
  exact Layout_deleteArtificialLoop _ _ _ (Layout_deleterow t _ h) rfl

/-! ## Tearing the phase-one tableau down -/

theorem deleteArtificialLoop_succ (n : Nat) (t : Tableau) (i : Int) :
    deleteArtificialLoop (n + 1) t i =
      if i ≥ (t.numvars : Int) - (t.numartificialvars : Int) then
        deleteArtificialLoop n (deletecolumn t i.toNat) (i - 1)
      else t := rfl

theorem pred_sub_pred (a b : Nat) (hb : 0 < b) : a - 1 - (b - 1) = a - b := by omega

/-- Deleting the last variable column, then reading past the remaining artificial
columns, is reading past all artificial columns. -/
theorem deletecolumn_last_cells (t : Tableau) (r c : Nat) (hlay : Layout t)
    (hart : 0 < t.numartificialvars) (hr : r < t.rows)
    (hc : c < t.cols - t.numartificialvars) :
    (if c < t.numvars - 1 - (t.numartificialvars - 1) then
        get (deletecolumn t (t.numvars - 1)) r c
      else get (deletecolumn t (t.numvars - 1)) r (c + (t.numartificialvars - 1))) =
      if c < t.numvars - t.numartificialvars then get t r c
      else get t r (c + t.numartificialvars) := by
  obtain ⟨l1, l2, l3, l4, l5⟩ := hlay
  by_cases hlt : c < t.numvars - t.numartificialvars
  · have h1 : c < t.numvars - 1 - (t.numartificialvars - 1) := by omega
    have h2 : c < t.numvars - 1 := by omega
    have h3 : 0 < t.cols := by omega
    have h4 : c < t.cols - 1 := by omega
    rw [if_pos h1, if_pos hlt, get_deletecolumn t (t.numvars - 1) r c h3 hr h4, if_pos h2]
  · have h1 : ¬ c < t.numvars - 1 - (t.numartificialvars - 1) := by omega
    have h2 : ¬ c + (t.numartificialvars - 1) < t.numvars - 1 := by omega
    have h3 : c + (t.numartificialvars - 1) + 1 = c + t.numartificialvars := by omega
    have h4 : 0 < t.cols := by omega
    have h5 : c + (t.numartificialvars - 1) < t.cols - 1 := by omega
    rw [if_neg h1, if_neg hlt, get_deletecolumn t (t.numvars - 1) r _ h4 hr h5, if_neg h2, h3]

/-- The loop test of `destroyartificialtableau` at the last variable column succeeds
exactly while artificial variables remain. -/
theorem deleteLoop_test (t : Tableau) (i : Int) (hlay : Layout t)
    (hi : i = (t.numvars : Int) - 1) :
    (i ≥ (t.numvars : Int) - (t.numartificialvars : Int) →
      0 < t.numartificialvars ∧ 0 < t.numvars ∧ i.toNat = t.numvars - 1 ∧
      i - 1 = ((t.numvars - 1 : Nat) : Int) - 1) ∧
    (¬ i ≥ (t.numvars : Int) - (t.numartificialvars : Int) → t.numartificialvars = 0) := by
  obtain ⟨l1, _, _, _, _⟩ := hlay
  constructor
  · intro h
    refine ⟨by omega, by omega, by omega, by omega⟩
  · intro h
    omega

theorem WF_deleteArtificialLoop (n : Nat) (t : Tableau) (i : Int) (hwf : WF t)
    (hlay : Layout t) (hi : i = (t.numvars : Int) - 1) :
    WF (deleteArtificialLoop n t i) := by
  induction n generalizing t i with
  | zero => exact hwf
  | succ n ih =>
    rw [deleteArtificialLoop_succ]
    by_cases hc : i ≥ (t.numvars : Int) - (t.numartificialvars : Int)
    · obtain ⟨hart, hnv, hit, hi2⟩ := (deleteLoop_test t i hlay hi).1 hc
      rw [if_pos hc, hit]
      exact ih _ _ (WF_deletecolumn t _ hwf hnv) (Layout_deletecolumn t _ hlay hart) hi2
    · rw [if_neg hc]
      exact hwf

/-- The integer fields after the column-deleting loop of `destroyartificialtableau`,
started at the last variable column with enough fuel. -/
theorem deleteArtificialLoop_fields (n : Nat) (t : Tableau) (i : Int) (hlay : Layout t)
    (hi : i = (t.numvars : Int) - 1) (hfuel : t.numartificialvars ≤ n) :
    (deleteArtificialLoop n t i).rows = t.rows ∧
    (deleteArtificialLoop n t i).cols = t.cols - t.numartificialvars ∧
    (deleteArtificialLoop n t i).numvars = t.numvars - t.numartificialvars ∧
    (deleteArtificialLoop n t i).numrealvars = t.numrealvars ∧
    (deleteArtificialLoop n t i).numslackvars = t.numslackvars ∧
    (deleteArtificialLoop n t i).numartificialvars = 0 ∧
    (deleteArtificialLoop n t i).numconstraints = t.numconstraints := by
  induction n generalizing t i with
  | zero =>
    have h0 : t.numartificialvars = 0 := Nat.le_zero.mp hfuel
    rw [h0, Nat.sub_zero, Nat.sub_zero]
    exact ⟨rfl, rfl, rfl, rfl, rfl, h0, rfl⟩
  | succ n ih =>
    rw [deleteArtificialLoop_succ]
    by_cases hc : i ≥ (t.numvars : Int) - (t.numartificialvars : Int)
    · obtain ⟨hart, hnv, hit, hi2⟩ := (deleteLoop_test t i hlay hi).1 hc
      rw [if_pos hc, hit]
      have hf2 : (deletecolumn t (t.numvars - 1)).numartificialvars ≤ n :=
        Nat.sub_le_of_le_add hfuel
      obtain ⟨r1, r2, r3, r4, r5, r6, r7⟩ :=
        ih (deletecolumn t (t.numvars - 1)) (i - 1)
          (Layout_deletecolumn t _ hlay hart) hi2 hf2
      exact ⟨r1, r2.trans (pred_sub_pred _ _ hart), r3.trans (pred_sub_pred _ _ hart),
        r4, r5, r6, r7⟩
    · have h0 := (deleteLoop_test t i hlay hi).2 hc
      rw [if_neg hc, h0, Nat.sub_zero, Nat.sub_zero]
      exact ⟨rfl, rfl, rfl, rfl, rfl, rfl, rfl⟩

/-- The cells after the column-deleting loop of `destroyartificialtableau`: the last
`numartificialvars` variable columns are gone and the marker columns moved left. -/
theorem deleteArtificialLoop_cells (n : Nat) (t : Tableau) (i : Int) (hlay : Layout t)
    (hi : i = (t.numvars : Int) - 1) (hfuel : t.numartificialvars ≤ n) (r c : Nat)
    (hr : r < t.rows) (hcc : c < t.cols - t.numartificialvars) :
    get (deleteArtificialLoop n t i) r c =
      if c < t.numvars - t.numartificialvars then get t r c
      else get t r (c + t.numartificialvars) := by
  induction n generalizing t i with
  | zero =>
    have h0 : t.numartificialvars = 0 := Nat.le_zero.mp hfuel
    rw [h0, Nat.add_zero]
    show get t r c = _
    split <;> rfl
  | succ n ih =>
    rw [deleteArtificialLoop_succ]
    by_cases hc : i ≥ (t.numvars : Int) - (t.numartificialvars : Int)
    · obtain ⟨hart, hnv, hit, hi2⟩ := (deleteLoop_test t i hlay hi).1 hc
      rw [if_pos hc, hit]
      have hf2 : (deletecolumn t (t.numvars - 1)).numartificialvars ≤ n :=
        Nat.sub_le_of_le_add hfuel
      have hc2 : c < (deletecolumn t (t.numvars - 1)).cols -
          (deletecolumn t (t.numvars - 1)).numartificialvars := by
        show c < t.cols - 1 - (t.numartificialvars - 1)
        rw [pred_sub_pred _ _ hart]
        exact hcc
      rw [ih (deletecolumn t (t.numvars - 1)) (i - 1)
        (Layout_deletecolumn t _ hlay hart) hi2 hf2 hr hc2]
      exact deletecolumn_last_cells t r c hlay hart hr hcc
    · have h0 := (deleteLoop_test t i hlay hi).2 hc
      rw [if_neg hc, h0, Nat.add_zero]
      split <;> rfl

theorem destroyartificialtableau_eq (t : Tableau) :
    destroyartificialtableau t =
      deleteArtificialLoop (deleterow t (t.rows - 1)).numvars (deleterow t (t.rows - 1))
        (((deleterow t (t.rows - 1)).numvars : Int) - 1) := rfl

/-- Cell-wise description of `destroyartificialtableau` on a well-formed tableau with
the layout of the reader: the last row and the last `numartificialvars` variable columns
are removed. -/
theorem destroyartificialtableau_cells (t : Tableau) (hlay : Layout t)
    (r c : Nat) (hr : r < t.rows - 1)
    (hc : c < t.cols - t.numartificialvars) :
    get (destroyartificialtableau t) r c =
      if c < t.numvars - t.numartificialvars then get t r c
      else get t r (c + t.numartificialvars) := by
  have hfuel : (deleterow t (t.rows - 1)).numartificialvars ≤
      (deleterow t (t.rows - 1)).numvars := by
    show t.numartificialvars ≤ t.numvars
    rw [hlay.1]
    exact Nat.le_add_left _ _
  rw [destroyartificialtableau_eq,
    deleteArtificialLoop_cells _ _ _ (Layout_deleterow t _ hlay) rfl hfuel r c hr hc]
  have hcols : t.cols - t.numartificialvars ≤ t.cols := Nat.sub_le _ _
  have hd : ∀ c', c' < t.cols → get (deleterow t (t.rows - 1)) r c' = get t r c' := by
    intro c' hc'
    rw [get_deleterow t (t.rows - 1) r c' hr hc', if_pos hr]
  show (if c < t.numvars - t.numartificialvars then get (deleterow t (t.rows - 1)) r c
    else get (deleterow t (t.rows - 1)) r (c + t.numartificialvars)) = _
  have hc1 : c < t.cols := Nat.lt_of_lt_of_le hc hcols
  have hc2 : c + t.numartificialvars < t.cols := Nat.add_lt_of_lt_sub hc
  rw [hd c hc1, hd _ hc2]

/-- The integer fields after `destroyartificialtableau`. -/
theorem destroyartificialtableau_fields (t : Tableau) (hwf : WF t) (hlay : Layout t)
    (hrows : t.numconstraints < t.rows) :
    WF (destroyartificialtableau t) ∧
    (destroyartificialtableau t).rows = t.rows - 1 ∧
    (destroyartificialtableau t).cols = t.cols - t.numartificialvars ∧
    (destroyartificialtableau t).numvars = t.numvars - t.numartificialvars ∧
    (destroyartificialtableau t).numrealvars = t.numrealvars ∧
    (destroyartificialtableau t).numslackvars = t.numslackvars ∧
    (destroyartificialtableau t).numartificialvars = 0 ∧
    (destroyartificialtableau t).numconstraints = t.numconstraints := by
  have hfuel : (deleterow t (t.rows - 1)).numartificialvars ≤
      (deleterow t (t.rows - 1)).numvars := by
    show t.numartificialvars ≤ t.numvars
    rw [hlay.1]
    exact Nat.le_add_left _ _
  have e7 : (deleterow t (t.rows - 1)).numconstraints = t.numconstraints := by
    show (if t.rows - 1 < t.numconstraints then t.numconstraints - 1 else t.numconstraints) = _
    rw [if_neg (by omega)]
  obtain ⟨r1, r2, r3, r4, r5, r6, r7⟩ :=
    deleteArtificialLoop_fields _ _ _ (Layout_deleterow t (t.rows - 1) hlay) rfl hfuel
  exact ⟨WF_deleteArtificialLoop _ _ _ (WF_deleterow t _ hwf) (Layout_deleterow t _ hlay) rfl,
    r1, r2, r3, r4, r5, r6, r7.trans e7⟩

/-- A cell in one of the first `numvars - numartificialvars` columns survives
`destroyartificialtableau`. -/
theorem destroyartificialtableau_var (t : Tableau) (hlay : Layout t) (r c : Nat)
    (hr : r < t.rows - 1) (hc : c < t.numvars - t.numartificialvars) :
    get (destroyartificialtableau t) r c = get t r c := by
  have h1 : c < t.cols - t.numartificialvars := by
    obtain ⟨_, _, _, _, l5⟩ := hlay
    omega
  rw [destroyartificialtableau_cells t hlay r c hr h1, if_pos hc]

/-- The three marker cells of a row survive `destroyartificialtableau`, moved left by
the number of artificial columns. -/
theorem destroyartificialtableau_marker (t : Tableau) (hlay : Layout t) (r m : Nat)
    (hr : r < t.rows - 1) (hm : m < 3) :
    get (destroyartificialtableau t) r (t.numvars - t.numartificialvars + m) =
      get t r (t.numvars + m) := by
  obtain ⟨l1, _, _, _, l5⟩ := id hlay
  have h1 : t.numvars - t.numartificialvars + m < t.cols - t.numartificialvars := by omega
  have h2 : ¬ t.numvars - t.numartificialvars + m < t.numvars - t.numartificialvars := by
    omega
  have h3 : t.numvars - t.numartificialvars + m + t.numartificialvars = t.numvars + m := by
    omega
  rw [destroyartificialtableau_cells t hlay r _ hr h1, if_neg h2, h3]

/-- The cells of the original rows after `createartificialtableau`, with no assumption
on the assigned basis indices. -/
theorem createdCell_get_raw (t : Tableau) (hwf : WF t) (hn : t.numconstraints < t.rows)
    (r c : Nat) (hr : r < t.rows) (hc : c < t.cols + sentinelsBefore t t.numconstraints) :
    get (createartificialtableau t) r c = createdCell t r c := by
  have h1 : ¬ (r = t.rows ∧ c ≠ t.zcolumn + sentinelsBefore t t.numconstraints ∧
      c ≠ t.basiscolumn + sentinelsBefore t t.numconstraints) := by
    intro h; omega
  rw [(createartificialtableau_raw t hwf hn).2.2 r c (Nat.lt_succ_of_lt hr) hc, if_neg h1,
    artCell_row t r c hwf hn hr hc]

theorem WF_createartificialtableau (t : Tableau) (hwf : WF t)
    (hn : t.numconstraints < t.rows) : WF (createartificialtableau t) := by
  obtain ⟨f1, f2, f3, f4, f5, f6, f7, f8, f9, f10⟩ := fields_createartificialtableau t hwf hn
  have hl := (createartificialtableau_raw t hwf hn).2.1
  obtain ⟨hlen, hz, hk, hb, hcols⟩ := hwf
  refine ⟨?_, ?_, ?_, ?_, ?_⟩
  · rw [hl, f1, f2]
  · rw [f8, f3, hz]
  · rw [f9, f3, hk]; omega
  · rw [f10, f3, hb]; omega
  · rw [f2, f3, hcols]; omega

/-! ## Canonical form -/

/-- After a pivot on a non-zero cell of a variable column, the pivot column is a unit
column and the basis cell of the pivot row names it. -/
theorem pivot_column_unit (t : Tableau) (r c : Nat) (hwf : WF t) (hr : r < t.rows)
    (hc : c < t.numvars) (hne : get t r c ≠ 0) :
    get (pivot t r c) r c = 1 ∧
    (∀ i, i < (pivot t r c).rows → i ≠ r → get (pivot t r c) i c = 0) ∧
    get (pivot t r c) r (pivot t r c).basiscolumn = (c : ℚ) := by
  have hrows : (pivot t r c).rows = t.rows := shape_rows (shape_pivot t r c)
  have hbas : (pivot t r c).basiscolumn = t.basiscolumn := shape_basiscolumn (shape_pivot t r c)
  have hw := hwf
  obtain ⟨hlen, hz, hk, hb, hcols⟩ := hw
  have hcb : c ≠ t.basiscolumn := by omega
  have hcz : c ≠ t.zcolumn := by omega
  refine ⟨?_, ?_, ?_⟩
  · rw [get_pivot t r c r c hwf hr hc (by omega)]
    simp only [hcb, hcz, if_false, ne_eq, not_true_eq_false, and_false, if_true]
    field_simp
  · intro i hi hir
    rw [hrows] at hi
    rw [get_pivot t r c i c hwf hr hc (by omega)]
    simp only [hcb, hcz, if_false, hi, hir, ne_eq, not_false_eq_true, and_self, if_true]
    field_simp
  · rw [hbas, get_pivot t r c r t.basiscolumn hwf hr hc (by omega)]
    simp

theorem Canonical_distinct (t : Tableau) (h : Canonical t) : DistinctBasis t := by
  obtain ⟨_, hn, hb⟩ := h
  intro i j hi hj hij heq
  obtain ⟨b, _, hbi, h1, _⟩ := hb i hi
  obtain ⟨b', _, hbj, _, h0⟩ := hb j hj
  have hbb : b = b' := by
    have : (b : ℚ) = (b' : ℚ) := by rw [← hbi, ← hbj, heq]
    exact_mod_cast this
  subst hbb
  have := h0 i (by omega) hij
  rw [h1] at this
  exact one_ne_zero this

/-- A unit column whose entry in the pivot row is 0 is left alone by the pivot. -/
theorem pivot_keeps_column (t : Tableau) (p pc b k : Nat) (hwf : WF t) (hp : p < t.rows)
    (hpc : pc < t.numvars) (hb : b < t.numvars) (hk : k < t.rows)
    (hzero : get t p b = 0) : get (pivot t p pc) k b = get t k b := by
  obtain ⟨hlen, hz, hkc, hbc, hcols⟩ := id hwf
  have h1 : b ≠ t.basiscolumn := by omega
  have h2 : b ≠ t.zcolumn := by omega
  rw [get_pivot t p pc k b hwf hp hpc (by omega), if_neg h1, if_neg h2, hzero]
  by_cases hkp : k = p
  · have h3 : ¬ (k < t.rows ∧ k ≠ p) := fun h => h.2 hkp
    rw [if_neg h3, if_pos hkp, hkp, hzero]
    ring
  · rw [if_pos ⟨hk, hkp⟩]
    ring

/-- The basis cell of a row other than the pivot row is left alone by the pivot. -/
theorem pivot_keeps_basis (t : Tableau) (p pc i : Nat) (hwf : WF t) (hp : p < t.rows)
    (hpc : pc < t.numvars) (hip : i ≠ p) :
    get (pivot t p pc) i t.basiscolumn = get t i t.basiscolumn := by
  obtain ⟨hlen, hz, hkc, hbc, hcols⟩ := id hwf
  rw [get_pivot t p pc i t.basiscolumn hwf hp hpc (by omega), if_pos rfl, if_neg hip]

/-- A pivot on a non-zero cell of a constraint row and a variable column keeps the
canonical form. -/
theorem Canonical_pivot (t : Tableau) (p pc : Nat) (h : Canonical t)
    (hp : p < t.numconstraints) (hpc : pc < t.numvars) (hne : get t p pc ≠ 0) :
    Canonical (pivot t p pc) := by
  obtain ⟨hwf, hn, hb⟩ := h
  have hs := shape_pivot t p pc
  refine ⟨WF_pivot t p pc hwf, ?_, ?_⟩
  · rw [shape_numconstraints hs, shape_rows hs]; exact hn
  · rw [shape_numconstraints hs, shape_numvars hs, shape_rows hs, shape_basiscolumn hs]
    intro i hi
    by_cases hip : i = p
    · subst hip
      obtain ⟨u1, u2, u3⟩ := pivot_column_unit t i pc hwf (by omega) hpc hne
      rw [shape_basiscolumn hs] at u3
      rw [shape_rows hs] at u2
      exact ⟨pc, hpc, u3, u1, u2⟩
    · obtain ⟨b, hbv, hbi, h1, h0⟩ := hb i hi
      have hz : get t p b = 0 := h0 p (by omega) (fun h => hip h.symm)
      refine ⟨b, hbv, ?_, ?_, ?_⟩
      · rw [pivot_keeps_basis t p pc i hwf (by omega) hpc hip, hbi]
      · rw [pivot_keeps_column t p pc b i hwf (by omega) hpc hbv (by omega) hz, h1]
      · intro r hr hri
        rw [pivot_keeps_column t p pc b r hwf (by omega) hpc hbv hr hz, h0 r hr hri]

/-- What `solverIteration` does when it does not exit. -/
theorem solverIteration_some (t t' : Tableau) (h : solverIteration t = some t') :
    ∃ c r : Nat, c < t.numvars ∧ get t (t.rows - 1) c < 0 ∧ findpivotcolumn t = (c : Int) ∧
      findpivotrow t c = (r : Int) ∧ t' = pivot t r c := by
  unfold solverIteration at h
  by_cases hopt : isoptimal t = true
  · simp [hopt] at h
  · have hopt' : isoptimal t = false := by simpa using hopt
    obtain ⟨k, hk, hlt, hneg⟩ := findpivotcolumn_nonneg t hopt'
    have hkc : (findpivotcolumn t).toNat = k := by rw [hk]; rfl
    simp only [hopt', Bool.not_false, if_true, hkc] at h
    by_cases hr : findpivotrow t k < 0
    · simp [hr] at h
    · simp only [hr, if_false, Option.some.injEq] at h
      refine ⟨k, (findpivotrow t k).toNat, hlt, hneg, hk, ?_, h.symm⟩
      omega

theorem Canonical_solverIteration (t t' : Tableau) (h : Canonical t)
    (hs : solverIteration t = some t') : Canonical t' := by
  obtain ⟨c, r, hc, _, _, hr, rfl⟩ := solverIteration_some t t' hs
  obtain ⟨hrn, hpos, _⟩ := findpivotrow_eq_nat t c r hr
  exact Canonical_pivot t r c h hrn hc (ne_of_gt hpos)

theorem Canonical_iterations (n : Nat) (t t' : Tableau) (h : Canonical t)
    (hs : iterations n t = some t') : Canonical t' := by
  induction n generalizing t with
  | zero =>
    simp only [iterations, Option.some.injEq] at hs
    exact hs ▸ h
  | succ n ih =>
    unfold iterations at hs
    cases hst : solverIteration t with
    | none => rw [hst] at hs; simp at hs
    | some t1 =>
      rw [hst] at hs
      exact ih t1 (Canonical_solverIteration t t1 h hst) hs

theorem condSum_zero (p : Nat → Bool) (g : Nat → ℚ) (n : Nat)
    (h : ∀ i, i < n → p i = true → g i = 0) : condSum p g n = 0 := by
  induction n with
  | zero => rfl
  | succ n ih =>
    rw [condSum_succ, ih (fun i hi => h i (by omega))]
    by_cases hp : p n = true
    · rw [if_pos hp, h n (by omega) hp, add_zero]
    · rw [if_neg hp, add_zero]

theorem AssignedCanonical_bound (t : Tableau) (h : AssignedCanonical t) :
    ∀ i, i < t.numconstraints → isSentinel t i = false →
      get t i t.basiscolumn < (t.numvars : ℚ) := by
  intro i hi hs
  rcases h i hi with h1 | ⟨b, hb, hbi, _, _⟩
  · have := (isSentinel_iff t i).mpr h1
    rw [hs] at this
    exact absurd this (by decide)
  · rw [hbi]
    exact_mod_cast hb

/-- The canonical form of a row with an assigned basic variable survives
`createartificialtableau`. -/
theorem createartificialtableau_assigned (t : Tableau) (hwf : WF t)
    (hn : t.numconstraints < t.rows) (hnv : t.numvars = t.numrealvars + t.numslackvars)
    (h : AssignedCanonical t) (i b : Nat) (hi : i < t.numconstraints)
    (hs : isSentinel t i = false) (hb : b < t.numvars)
    (hbi : get t i t.basiscolumn = (b : ℚ)) (h1 : get t i b = 1)
    (h0 : ∀ r, r < t.rows → r ≠ i → get t r b = 0) :
    get (createartificialtableau t) i (t.basiscolumn + sentinelsBefore t t.numconstraints) =
      (b : ℚ) ∧
    get (createartificialtableau t) i b = 1 ∧
    ∀ r, r < t.rows + 1 → r ≠ i → get (createartificialtableau t) r b = 0 := by
  have hbas := AssignedCanonical_bound t h
  have hns : ¬ (i < t.numconstraints ∧ isSentinel t i = true) := by
    intro hh
    rw [hs] at hh
    exact absurd hh.2 (by decide)
  refine ⟨?_, ?_, ?_⟩
  · rw [(createartificialtableau_frame t hwf hn hnv hbas i (by omega)).2.2.2 hns, hbi]
  · rw [(createartificialtableau_frame t hwf hn hnv hbas i (by omega)).1 b hb, h1]
  · intro r hr hri
    by_cases hrl : r < t.rows
    · rw [(createartificialtableau_frame t hwf hn hnv hbas r hrl).1 b hb, h0 r hrl hri]
    · have hre : r = t.rows := by omega
      rw [hre, (createartificialtableau_aux t hwf hn hnv hbas).2.2.1 b hb, sentinelSum_eq,
        condSum_zero, neg_zero]
      intro j hj hsj
      have hji : j ≠ i := by
        rintro rfl
        rw [hs] at hsj
        exact absurd hsj (by decide)
      exact h0 j (by omega) hji

/-- After `createartificialtableau` every constraint row has a basic variable with a unit
column. -/
theorem Canonical_createartificialtableau (t : Tableau) (hwf : WF t)
    (hn : t.numconstraints < t.rows) (hnv : t.numvars = t.numrealvars + t.numslackvars)
    (h : AssignedCanonical t) : Canonical (createartificialtableau t) := by
  obtain ⟨f1, f2, f3, f4, f5, f6, f7, f8, f9, f10⟩ := fields_createartificialtableau t hwf hn
  have hbas := AssignedCanonical_bound t h
  refine ⟨WF_createartificialtableau t hwf hn, ?_, ?_⟩
  · rw [f7, f1]; exact Nat.lt_succ_of_lt hn
  · rw [f7, f3, f10, f1]
    intro i hi
    by_cases hs : isSentinel t i = true
    · obtain ⟨u1, u2, u3, u4⟩ :=
        createartificialtableau_unit_column t hwf hn hnv hbas i hi hs
      exact ⟨t.numvars + sentinelsBefore t i, u1, u4, u2, u3⟩
    · have hs' : isSentinel t i = false := by simpa using hs
      rcases h i hi with hneg | ⟨b, hb, hbi, h1, h0⟩
      · exact absurd ((isSentinel_iff t i).mpr hneg) hs
      · obtain ⟨v1, v2, v3⟩ :=
          createartificialtableau_assigned t hwf hn hnv h i b hi hs' hb hbi h1 h0
        exact ⟨b, Nat.lt_add_right _ hb, v1, v2, v3⟩

/-! ## Independence of a row that is neither a constraint row nor the last row -/

theorem optScan_congr (a b : Tableau) (n : Nat)
    (h : ∀ i, i < n → get a (a.rows - 1) i = get b (b.rows - 1) i) :
    optScan a n = optScan b n := by
  induction n with
  | zero => rfl
  | succ n ih =>
    rw [optScan_succ, optScan_succ, ih (fun i hi => h i (by omega)), h n (by omega)]

theorem colScan_congr (a b : Tableau) (n : Nat)
    (h : ∀ i, i < n → get a (a.rows - 1) i = get b (b.rows - 1) i) :
    colScan a n = colScan b n := by
  induction n with
  | zero => rfl
  | succ n ih =>
    rw [colScan_succ, colScan_succ, ih (fun i hi => h i (by omega))]
    unfold colScanStep
    rw [h n (by omega)]

theorem rowScan_congr (a b : Tableau) (c n : Nat) (hk : a.constcolumn = b.constcolumn)
    (h : ∀ i, i < n → get a i c = get b i c ∧ get a i a.constcolumn = get b i a.constcolumn) :
    rowScan a c n = rowScan b c n := by
  induction n with
  | zero => rfl
  | succ n ih =>
    rw [rowScan_succ, rowScan_succ, ih (fun i hi => h i (by omega))]
    unfold rowScanStep
    rw [← hk, (h n (by omega)).1, (h n (by omega)).2]

theorem feasScan_congr (a b : Tableau) (n : Nat) (hb : a.basiscolumn = b.basiscolumn)
    (h : ∀ i, i < n → get a i a.basiscolumn = get b i a.basiscolumn) :
    feasScan a n = feasScan b n := by
  induction n with
  | zero => rfl
  | succ n ih =>
    rw [feasScan_succ, feasScan_succ, ih (fun i hi => h i (by omega)), ← hb, h n (by omega)]

theorem Frame_lastrow (k : Nat) (a b : Tableau) (h : Frame k a b) (c : Nat)
    (hc : c < a.cols) : get a (a.rows - 1) c = get b (b.rows - 1) c := by
  obtain ⟨⟨hs, hg⟩, _, _, _, hk⟩ := h
  rw [← shape_rows hs]
  exact hg (a.rows - 1) c (by omega) hc (by omega)

theorem Frame_isoptimal (k : Nat) (a b : Tableau) (h : Frame k a b) :
    isoptimal a = isoptimal b := by
  have hs := h.1.1
  have hw := h.2.1
  rw [isoptimal_eq, isoptimal_eq, ← shape_numvars hs]
  apply optScan_congr
  intro i hi
  exact Frame_lastrow k a b h i (by obtain ⟨_, _, _, _, hc⟩ := hw; omega)

theorem Frame_findpivotcolumn (k : Nat) (a b : Tableau) (h : Frame k a b) :
    findpivotcolumn a = findpivotcolumn b := by
  have hs := h.1.1
  have hw := h.2.1
  rw [findpivotcolumn_eq, findpivotcolumn_eq, ← shape_numvars hs]
  congr 1
  apply colScan_congr
  intro i hi
  exact Frame_lastrow k a b h i (by obtain ⟨_, _, _, _, hc⟩ := hw; omega)

theorem Frame_findpivotrow (k : Nat) (a b : Tableau) (h : Frame k a b) (c : Nat)
    (hc : c < a.cols) : findpivotrow a c = findpivotrow b c := by
  obtain ⟨⟨hs, hg⟩, hw, _, hnk, hk⟩ := h
  obtain ⟨_, _, hkc, _, hcols⟩ := hw
  have hr : rowScan a c a.numconstraints = rowScan b c b.numconstraints := by
    rw [← shape_numconstraints hs]
    apply rowScan_congr _ _ _ _ (shape_constcolumn hs)
    intro i hi
    exact ⟨hg i c (by omega) hc (by omega), hg i _ (by omega) (by omega) (by omega)⟩
  rw [findpivotrow_eq, findpivotrow_eq, hr]

theorem Frame_pivot (k : Nat) (a b : Tableau) (h : Frame k a b) (p pc : Nat)
    (hp : p < a.numconstraints) (hpc : pc < a.numvars) :
    Frame k (pivot a p pc) (pivot b p pc) := by
  obtain ⟨⟨hs, hg⟩, hwa, hwb, hnk, hk⟩ := h
  have hsa := shape_pivot a p pc
  have hsb := shape_pivot b p pc
  have hcols : a.cols = a.numvars + 3 := hwa.2.2.2.2
  refine ⟨⟨hsa.trans (hs.trans hsb.symm), ?_⟩, WF_pivot a p pc hwa, WF_pivot b p pc hwb, ?_, ?_⟩
  · rw [shape_rows hsa, shape_cols hsa]
    intro r c hr hc hrk
    rw [get_pivot a p pc r c hwa (by omega) hpc hc,
      get_pivot b p pc r c hwb (by rw [← shape_rows hs]; omega)
        (by rw [← shape_numvars hs]; exact hpc) (by rw [← shape_cols hs]; exact hc),
      ← shape_basiscolumn hs, ← shape_zcolumn hs, ← shape_rows hs,
      hg r c hr hc hrk, hg p c (by omega) hc (by omega), hg p pc (by omega) (by omega) (by omega),
      hg r pc hr (by omega) hrk]
  · rw [shape_numconstraints hsa]; exact hnk
  · rw [shape_rows hsa]; exact hk

/-- `phasetwo` takes the same decisions on two tableaux that differ only in a row that
is neither a constraint row nor the last row. -/
theorem Frame_phasetwo (k : Nat) (fuel : Nat) (a b : Tableau) (h : Frame k a b) :
    (phasetwo fuel a = none ∧ phasetwo fuel b = none) ∨
    ∃ e a' b', phasetwo fuel a = some (e, a') ∧ phasetwo fuel b = some (e, b') ∧
      Frame k a' b' := by
  induction fuel generalizing a b with
  | zero => exact Or.inl ⟨rfl, rfl⟩
  | succ fuel ih =>
    rw [phasetwo_succ, phasetwo_succ, ← Frame_isoptimal k a b h,
      ← Frame_findpivotcolumn k a b h]
    by_cases hopt : isoptimal a = true
    · rw [hopt]
      exact Or.inr ⟨OK, a, b, rfl, rfl, h⟩
    · have hopt' : isoptimal a = false := by simpa using hopt
      obtain ⟨c, hc, hlt, _⟩ := findpivotcolumn_nonneg a hopt'
      have hct : (findpivotcolumn a).toNat = c := by rw [hc]; rfl
      have hcols : a.cols = a.numvars + 3 := h.2.1.2.2.2.2
      rw [hopt', hct, ← Frame_findpivotrow k a b h c (by omega)]
      simp only [Bool.not_false, if_true]
      by_cases hneg : findpivotrow a c < 0
      · rw [if_pos hneg, if_pos hneg]
        exact Or.inr ⟨_, a, b, rfl, rfl, h⟩
      · rw [if_neg hneg, if_neg hneg]
        have hr : findpivotrow a c = ((findpivotrow a c).toNat : Int) := by omega
        obtain ⟨hrn, _, _⟩ := findpivotrow_eq_nat a c _ hr
        exact ih _ _ (Frame_pivot k a b h _ c hrn hlt)

theorem shape_eq_of_fields (a b : Tableau) (h1 : a.rows = b.rows) (h2 : a.cols = b.cols)
    (h3 : a.numvars = b.numvars) (h4 : a.numrealvars = b.numrealvars)
    (h5 : a.numslackvars = b.numslackvars) (h6 : a.numartificialvars = b.numartificialvars)
    (h7 : a.numconstraints = b.numconstraints) (h8 : a.zcolumn = b.zcolumn)
    (h9 : a.constcolumn = b.constcolumn) (h10 : a.basiscolumn = b.basiscolumn) :
    shape a = shape b := by
  cases a
  cases b
  simp only [shape] at *
  simp only [h1, h2, h3, h4, h5, h6, h7, h8, h9, h10]

theorem AgreeOff_isSentinel (t t' : Tableau) (h : AgreeOff t.numconstraints t t')
    (hb : t.basiscolumn < t.cols) (hn : t.numconstraints ≤ t.rows) (i : Nat)
    (hi : i < t.numconstraints) : isSentinel t i = isSentinel t' i := by
  obtain ⟨hs, hg⟩ := h
  unfold isSentinel
  rw [← shape_basiscolumn hs, hg i _ (by omega) hb (by omega)]

theorem AgreeOff_sentinelsBefore (t t' : Tableau) (h : AgreeOff t.numconstraints t t')
    (hb : t.basiscolumn < t.cols) (hn : t.numconstraints ≤ t.rows) (n : Nat)
    (hle : n ≤ t.numconstraints) : sentinelsBefore t n = sentinelsBefore t' n :=
  sentinelsBefore_congr t t' n (fun i hi => AgreeOff_isSentinel t t' h hb hn i (by omega))

theorem AgreeOff_sentinelSum (t t' : Tableau) (h : AgreeOff t.numconstraints t t')
    (hb : t.basiscolumn < t.cols) (hn : t.numconstraints ≤ t.rows) (c : Nat)
    (hc : c < t.cols) :
    sentinelSum t c t.numconstraints = sentinelSum t' c t.numconstraints := by
  rw [sentinelSum_eq, sentinelSum_eq]
  apply condSum_congr
  · intro i hi
    exact AgreeOff_isSentinel t t' h hb hn i hi
  · intro i hi _
    exact h.2 i c (by omega) hc (by omega)

theorem AgreeOff_createdCell (t t' : Tableau) (h : AgreeOff t.numconstraints t t')
    (hwf : WF t) (hn : t.numconstraints ≤ t.rows) (r c : Nat) (hr : r < t.numconstraints)
    (hc : c < t.cols + sentinelsBefore t t.numconstraints) :
    createdCell t r c = createdCell t' r c := by
  obtain ⟨hlen, hz, hk, hb, hcols⟩ := hwf
  have hbc : t.basiscolumn < t.cols := by omega
  have hs := h.1
  unfold createdCell
  rw [← shape_numvars hs, ← shape_numconstraints hs, ← shape_basiscolumn hs,
    ← AgreeOff_sentinelsBefore t t' h hbc hn _ (le_refl _),
    ← AgreeOff_sentinelsBefore t t' h hbc hn r (by omega),
    ← AgreeOff_isSentinel t t' h hbc hn r hr]
  by_cases c1 : c < t.numvars
  · rw [if_pos c1, if_pos c1, h.2 r c (by omega) (by omega) (by omega)]
  · rw [if_neg c1, if_neg c1]
    by_cases c2 : c < t.numvars + sentinelsBefore t t.numconstraints
    · rw [if_pos c2, if_pos c2]
    · rw [if_neg c2, if_neg c2, h.2 r (c - sentinelsBefore t t.numconstraints) (by omega)
        (by omega) (by omega)]

theorem AgreeOff_auxCell (t t' : Tableau) (h : AgreeOff t.numconstraints t t')
    (hwf : WF t) (hn : t.numconstraints ≤ t.rows) (c : Nat) :
    auxCell t c = auxCell t' c := by
  obtain ⟨hlen, hz, hk, hb, hcols⟩ := hwf
  have hbc : t.basiscolumn < t.cols := by omega
  have hs := h.1
  unfold auxCell
  rw [← shape_numvars hs, ← shape_numconstraints hs, ← shape_zcolumn hs,
    ← shape_constcolumn hs, ← AgreeOff_sentinelsBefore t t' h hbc hn _ (le_refl _),
    ← AgreeOff_sentinelSum t t' h hbc hn t.constcolumn (by omega)]
  by_cases c1 : c < t.numvars
  · rw [if_pos c1, if_pos c1, AgreeOff_sentinelSum t t' h hbc hn c (by omega)]
  · rw [if_neg c1, if_neg c1]

/-- `createartificialtableau` of two tableaux that differ only in the objective row
gives tableaux that differ only in that row. -/
theorem Frame_createartificialtableau (t t' : Tableau) (h : AgreeOff t.numconstraints t t')
    (hwf : WF t) (hwf' : WF t') (hrows : t.rows = t.numconstraints + 1)
    (hnv : t.numvars = t.numrealvars + t.numslackvars)
    (hbas : ∀ i, i < t.numconstraints → isSentinel t i = false →
      get t i t.basiscolumn < (t.numvars : ℚ)) :
    Frame t.numconstraints (createartificialtableau t) (createartificialtableau t') := by
  have hs := h.1
  have hn : t.numconstraints < t.rows := by omega
  have hn' : t'.numconstraints < t'.rows := by
    rw [← shape_numconstraints hs, ← shape_rows hs]; exact hn
  have hbc : t.basiscolumn < t.cols := by
    obtain ⟨_, _, _, hb, hcols⟩ := hwf
    omega
  have hnv' : t'.numvars = t'.numrealvars + t'.numslackvars := by
    rw [← shape_numvars hs, ← shape_numrealvars hs, ← shape_numslackvars hs]; exact hnv
  have hbas' : ∀ i, i < t'.numconstraints → isSentinel t' i = false →
      get t' i t'.basiscolumn < (t'.numvars : ℚ) := by
    intro i hi hsi
    rw [← shape_numconstraints hs] at hi
    rw [← AgreeOff_isSentinel t t' h hbc (by omega) i hi] at hsi
    rw [← shape_basiscolumn hs, ← shape_numvars hs, ← h.2 i _ (by omega) hbc (by omega)]
    exact hbas i hi hsi
  have hk : sentinelsBefore t' t'.numconstraints = sentinelsBefore t t.numconstraints := by
    rw [← shape_numconstraints hs]
    exact (AgreeOff_sentinelsBefore t t' h hbc (by omega) _ (le_refl _)).symm
  obtain ⟨f1, f2, f3, f4, f5, f6, f7, f8, f9, f10⟩ := fields_createartificialtableau t hwf hn
  obtain ⟨g1, g2, g3, g4, g5, g6, g7, g8, g9, g10⟩ :=
    fields_createartificialtableau t' hwf' hn'
  rw [hk] at g2 g3 g6 g8 g9 g10
  refine ⟨⟨?_, ?_⟩, WF_createartificialtableau t hwf hn,
    WF_createartificialtableau t' hwf' hn', by rw [f7], by rw [f1]; omega⟩
  · exact shape_eq_of_fields _ _ (by rw [f1, g1, shape_rows hs])
      (by rw [f2, g2, shape_cols hs]) (by rw [f3, g3, shape_numvars hs])
      (by rw [f4, g4, shape_numrealvars hs]) (by rw [f5, g5, shape_numslackvars hs])
      (by rw [f6, g6, shape_numartificialvars hs]) (by rw [f7, g7, shape_numconstraints hs])
      (by rw [f8, g8, shape_zcolumn hs]) (by rw [f9, g9, shape_constcolumn hs])
      (by rw [f10, g10, shape_basiscolumn hs])
  · rw [f1, f2]
    intro r c hr hc hrk
    have hc' : c < t'.cols + sentinelsBefore t' t'.numconstraints := by
      rw [hk, ← shape_cols hs]; exact hc
    by_cases hrl : r < t.numconstraints
    · rw [createdCell_get t hwf hn hnv hbas r c (by omega) hc,
        createdCell_get t' hwf' hn' hnv' hbas' r c
          (by rw [← shape_rows hs]; omega) hc']
      exact AgreeOff_createdCell t t' h hwf (by omega) r c hrl hc
    · have hre : r = t.rows := by omega
      have hre' : r = t'.rows := by rw [← shape_rows hs]; exact hre
      rw [hre, auxCell_get t hwf hn hnv hbas c hc, ← hre, hre',
        auxCell_get t' hwf' hn' hnv' hbas' c hc']
      exact AgreeOff_auxCell t t' h hwf (by omega) c

theorem phaseone_infeasible_start (fuel : Nat) (t : Tableau)
    (h : isinsidefeasibleregion t = false) :
    phaseone fuel t =
      match phasetwo fuel (createartificialtableau t) with
      | none => none
      | some (error, t) =>
        if error < 0 then some (error, t)
        else if flt_lt (get t (t.rows - 1) t.constcolumn) 0 then some (INFEASIBLE, t)
        else some (OK, destroyartificialtableau t) := by
  unfold phaseone
  rw [h]
  rfl

/-- The code returned by `phaseone` does not depend on the original objective row. -/
theorem Frame_phaseone (fuel : Nat) (t t' : Tableau) (h : AgreeOff t.numconstraints t t')
    (hwf : WF t) (hwf' : WF t') (hrows : t.rows = t.numconstraints + 1)
    (hnv : t.numvars = t.numrealvars + t.numslackvars)
    (hbas : ∀ i, i < t.numconstraints → isSentinel t i = false →
      get t i t.basiscolumn < (t.numvars : ℚ)) :
    (phaseone fuel t).map Prod.fst = (phaseone fuel t').map Prod.fst := by
  have hs := h.1
  have hbc : t.basiscolumn < t.cols := by
    obtain ⟨_, _, _, hb, hcols⟩ := hwf
    omega
  have hfe : isinsidefeasibleregion t = isinsidefeasibleregion t' := by
    rw [isinsidefeasibleregion_eq, isinsidefeasibleregion_eq, ← shape_numconstraints hs]
    apply feasScan_congr _ _ _ (shape_basiscolumn hs)
    intro i hi
    exact h.2 i _ (by omega) hbc (by omega)
  by_cases hf : isinsidefeasibleregion t = true
  · rw [phaseone_feasible fuel t hf, phaseone_feasible fuel t' (hfe ▸ hf)]
    rfl
  · have hf1 : isinsidefeasibleregion t = false := by simpa using hf
    have hf2 : isinsidefeasibleregion t' = false := hfe ▸ hf1
    rw [phaseone_infeasible_start fuel t hf1, phaseone_infeasible_start fuel t' hf2]
    rcases Frame_phasetwo t.numconstraints fuel _ _
      (Frame_createartificialtableau t t' h hwf hwf' hrows hnv hbas) with
      ⟨h1, h2⟩ | ⟨e, a', b', h1, h2, hF⟩
    · rw [h1, h2]
    · rw [h1, h2]
      have hkc : a'.constcolumn < a'.cols := by
        obtain ⟨_, _, hk, _, hcols⟩ := hF.2.1
        omega
      have hlast : get a' (a'.rows - 1) a'.constcolumn = get b' (b'.rows - 1) b'.constcolumn := by
        rw [← shape_constcolumn hF.1.1]
        exact Frame_lastrow _ a' b' hF _ hkc
      simp only [hlast]
      by_cases he : e < 0
      · simp only [if_pos he, Option.map_some']
      · simp only [if_neg he]
        by_cases hl : flt_lt (get b' (b'.rows - 1) b'.constcolumn) 0 = true
        · simp only [if_pos hl, Option.map_some']
        · simp only [if_neg hl, Option.map_some']

theorem phaseone_fuel_mono (fuel fuel' : Nat) (t : Tableau) (r : TabErr × Tableau)
    (h : phaseone fuel t = some r) (hle : fuel ≤ fuel') : phaseone fuel' t = some r := by
  by_cases hf : isinsidefeasibleregion t = true
  · rw [phaseone_feasible fuel t hf] at h
    rw [phaseone_feasible fuel' t hf]
    exact h
  · have hf1 : isinsidefeasibleregion t = false := by simpa using hf
    rw [phaseone_infeasible_start fuel t hf1] at h
    rw [phaseone_infeasible_start fuel' t hf1]
    cases h2 : phasetwo fuel (createartificialtableau t) with
    | none => rw [h2] at h; simp at h
    | some p =>
      rw [h2] at h
      rw [phasetwo_fuel_mono fuel fuel' _ p h2 hle]
      exact h

theorem main_of_phaseone_error (fuel : Nat) (t t' : Tableau) (e : TabErr) (he : e ≠ 0)
    (h : phaseone fuel t = some (e, t')) : main fuel t = some (e, t') := by
  simp [main, h, he]

/-- The infeasible instance agrees with its copy with an all-zero objective row outside
the objective row. -/
theorem infeasibleInstance_agree (o0 o1 o2 o3 o4 o5 o6 : ℚ) :
    AgreeOff (infeasibleInstance o0 o1 o2 o3 o4 o5 o6).numconstraints
      (infeasibleInstance o0 o1 o2 o3 o4 o5 o6) (infeasibleInstance 0 0 0 0 0 0 0) := by
  refine ⟨rfl, ?_⟩
  intro r c hr hc hrk
  have hr' : r < 3 := hr
  have hc' : c < 7 := hc
  have hrk' : r ≠ 2 := hrk
  interval_cases r
  · interval_cases c <;> rfl
  · interval_cases c <;> rfl
  · exact absurd rfl hrk'

theorem infeasibleInstance_WF (o0 o1 o2 o3 o4 o5 o6 : ℚ) :
    WF (infeasibleInstance o0 o1 o2 o3 o4 o5 o6) :=
  ⟨rfl, rfl, rfl, rfl, rfl⟩

theorem infeasibleInstance_assigned (o0 o1 o2 o3 o4 o5 o6 : ℚ) :
    ∀ i, i < (infeasibleInstance o0 o1 o2 o3 o4 o5 o6).numconstraints →
      isSentinel (infeasibleInstance o0 o1 o2 o3 o4 o5 o6) i = false →
      get (infeasibleInstance o0 o1 o2 o3 o4 o5 o6) i
        (infeasibleInstance o0 o1 o2 o3 o4 o5 o6).basiscolumn <
        ((infeasibleInstance o0 o1 o2 o3 o4 o5 o6).numvars : ℚ) := by
  intro i hi hs
  have hi' : i < 2 := hi
  interval_cases i
  · show (2 : ℚ) < ((4 : Nat) : ℚ)
    norm_num
  · exfalso
    have h1 : isSentinel (infeasibleInstance o0 o1 o2 o3 o4 o5 o6) 1 = true := by
      rw [isSentinel_iff]
      show (-1 : ℚ) < 0
      norm_num
    rw [h1] at hs
    exact absurd hs (by decide)

/-! ## Pivots keep the encoded linear program -/

/-- The left-hand side of the pivot row after a pivot. -/
theorem rowValue_pivot_self (t : Tableau) (p pc : Nat) (x : Nat → ℚ) (hwf : WF t)
    (hp : p < t.rows) (hpc : pc < t.numvars) :
    rowValue (pivot t p pc) p x = rowValue t p x * (1 / get t p pc) := by
  obtain ⟨hlen, hz, hk, hb, hcols⟩ := id hwf
  unfold rowValue
  rw [shape_numvars (shape_pivot t p pc), Finset.sum_mul]
  apply Finset.sum_congr rfl
  intro j hj
  have hj' : j < t.numvars := Finset.mem_range.mp hj
  have h1 : j ≠ t.basiscolumn := by omega
  have h2 : j ≠ t.zcolumn := by omega
  have h3 : ¬ (p < t.rows ∧ p ≠ p) := fun h => h.2 rfl
  rw [get_pivot t p pc p j hwf hp hpc (by omega), if_neg h1, if_neg h2, if_neg h3, if_pos rfl]
  ring

/-- The left-hand side of another row after a pivot. -/
theorem rowValue_pivot_other (t : Tableau) (p pc i : Nat) (x : Nat → ℚ) (hwf : WF t)
    (hp : p < t.rows) (hpc : pc < t.numvars) (hi : i < t.rows) (hip : i ≠ p) :
    rowValue (pivot t p pc) i x =
      rowValue t i x + rowValue t p x * (1 / get t p pc) * (-get t i pc) := by
  obtain ⟨hlen, hz, hk, hb, hcols⟩ := id hwf
  unfold rowValue
  rw [shape_numvars (shape_pivot t p pc), Finset.sum_mul, Finset.sum_mul,
    ← Finset.sum_add_distrib]
  apply Finset.sum_congr rfl
  intro j hj
  have hj' : j < t.numvars := Finset.mem_range.mp hj
  have h1 : j ≠ t.basiscolumn := by omega
  have h2 : j ≠ t.zcolumn := by omega
  rw [get_pivot t p pc i j hwf hp hpc (by omega), if_neg h1, if_neg h2, if_pos ⟨hi, hip⟩]
  ring

/-- A pivot on a non-zero cell keeps the equation of every row for the points that
satisfy the equation of the pivot row. -/
theorem rowObjective_pivot (t : Tableau) (p pc k : Nat) (x : Nat → ℚ) (hwf : WF t)
    (hp : p < t.rows) (hpc : pc < t.numvars) (hk : k < t.rows) (hkp : k ≠ p)
    (hrow : rowValue t p x = get t p t.constcolumn) :
    rowObjective (pivot t p pc) k x = rowObjective t k x := by
  unfold rowObjective
  rw [shape_constcolumn (shape_pivot t p pc), get_pivot_const t p pc k hwf hp hpc hk,
    if_neg hkp, rowValue_pivot_other t p pc k x hwf hp hpc hk hkp, hrow]
  ring

/-- A pivot on a non-zero cell of a constraint row keeps the feasible set. -/
theorem Feasible_pivot (t : Tableau) (p pc : Nat) (x : Nat → ℚ) (hwf : WF t)
    (hn : t.numconstraints ≤ t.rows) (hp : p < t.numconstraints) (hpc : pc < t.numvars)
    (hne : get t p pc ≠ 0) : Feasible (pivot t p pc) x ↔ Feasible t x := by
  have hs := shape_pivot t p pc
  unfold Feasible
  rw [shape_numvars hs, shape_numconstraints hs, shape_constcolumn hs]
  constructor
  · rintro ⟨hx, hrows⟩
    have hprow : rowValue t p x = get t p t.constcolumn := by
      have h := hrows p hp
      rw [rowValue_pivot_self t p pc x hwf (by omega) hpc,
        get_pivot_const t p pc p hwf (by omega) hpc (by omega), if_pos rfl] at h
      have hinv : (1 / get t p pc) ≠ 0 := one_div_ne_zero hne
      exact mul_right_cancel₀ hinv h
    refine ⟨hx, ?_⟩
    intro i hi
    by_cases hip : i = p
    · rw [hip]; exact hprow
    · have h := hrows i hi
      rw [rowValue_pivot_other t p pc i x hwf (by omega) hpc (by omega) hip,
        get_pivot_const t p pc i hwf (by omega) hpc (by omega), if_neg hip, hprow] at h
      linarith
  · rintro ⟨hx, hrows⟩
    refine ⟨hx, ?_⟩
    intro i hi
    by_cases hip : i = p
    · rw [hip, rowValue_pivot_self t p pc x hwf (by omega) hpc,
        get_pivot_const t p pc p hwf (by omega) hpc (by omega), if_pos rfl, hrows p hp]
    · rw [rowValue_pivot_other t p pc i x hwf (by omega) hpc (by omega) hip,
        get_pivot_const t p pc i hwf (by omega) hpc (by omega), if_neg hip, hrows p hp,
        hrows i hi]
      ring

/-! ## The basic solution of a tableau in canonical form -/

theorem basic_inner_sum (t : Tableau) (h : Canonical t) (i k : Nat) (hi : i < t.rows)
    (hk : k < t.numconstraints) :
    Finset.sum (Finset.range t.numvars)
        (fun j => get t i j *
          (if get t k t.basiscolumn = (j : ℚ) then get t k t.constcolumn else 0)) =
      if i = k then get t k t.constcolumn else 0 := by
  obtain ⟨_, _, hb⟩ := h
  obtain ⟨b, hbv, hbk, h1, h0⟩ := hb k hk
  rw [Finset.sum_eq_single b]
  · rw [hbk, if_pos rfl]
    by_cases hik : i = k
    · rw [if_pos hik, hik, h1, one_mul]
    · rw [if_neg hik, h0 i hi hik, zero_mul]
  · intro j _ hjb
    have : ¬ get t k t.basiscolumn = (j : ℚ) := by
      rw [hbk]
      intro he
      exact hjb (by exact_mod_cast he.symm)
    rw [if_neg this, mul_zero]
  · intro hnot
    exact absurd (Finset.mem_range.mpr hbv) hnot

/-- The left-hand side of a row at the basic solution. -/
theorem rowValue_basicSolution (t : Tableau) (h : Canonical t) (i : Nat) (hi : i < t.rows) :
    rowValue t i (basicSolution t) =
      if i < t.numconstraints then get t i t.constcolumn else 0 := by
  unfold rowValue basicSolution
  simp only [Finset.mul_sum]
  rw [Finset.sum_comm]
  have hinner : ∀ k ∈ Finset.range t.numconstraints,
      Finset.sum (Finset.range t.numvars)
        (fun j => get t i j *
          (if get t k t.basiscolumn = (j : ℚ) then get t k t.constcolumn else 0)) =
      if i = k then get t k t.constcolumn else 0 :=
    fun k hk => basic_inner_sum t h i k hi (Finset.mem_range.mp hk)
  rw [Finset.sum_congr rfl hinner]
  by_cases hin : i < t.numconstraints
  · rw [if_pos hin, Finset.sum_ite_eq (Finset.range t.numconstraints) i,
      if_pos (Finset.mem_range.mpr hin)]
  · rw [if_neg hin, Finset.sum_ite_eq (Finset.range t.numconstraints) i,
      if_neg (fun hm => hin (Finset.mem_range.mp hm))]

theorem basicSolution_nonneg (t : Tableau) (hr : RhsNonneg t) (j : Nat) :
    0 ≤ basicSolution t j := by
  unfold basicSolution
  apply Finset.sum_nonneg
  intro i hi
  split
  · exact hr i (Finset.mem_range.mp hi)
  · exact le_refl _

/-- The basic solution of a tableau in canonical form with non-negative RHS is feasible
and its objective value is the RHS cell of the last row. -/
theorem basicSolution_feasible (t : Tableau) (h : Canonical t) (hr : RhsNonneg t) :
    Feasible t (basicSolution t) ∧
    objValue t (basicSolution t) = get t (t.rows - 1) t.constcolumn := by
  have hn := h.2.1
  refine ⟨⟨fun j _ => basicSolution_nonneg t hr j, ?_⟩, ?_⟩
  · intro i hi
    rw [rowValue_basicSolution t h i (by omega), if_pos hi]
  · unfold objValue rowObjective
    rw [rowValue_basicSolution t h (t.rows - 1) (by omega), if_neg (by omega), sub_zero]

/-- On an optimal tableau the objective value of a feasible point exceeds the RHS cell
of the last row by at most `EPSILON` times the sum of its coordinates. -/
theorem objValue_le_of_optimal (t : Tableau) (x : Nat → ℚ) (hopt : isoptimal t = true)
    (hx : Feasible t x) :
    objValue t x ≤ get t (t.rows - 1) t.constcolumn +
      EPSILON * Finset.sum (Finset.range t.numvars) (fun j => x j) := by
  have hc := (isoptimal_iff t).mp hopt
  unfold objValue rowObjective rowValue
  have : -(EPSILON * Finset.sum (Finset.range t.numvars) (fun j => x j)) ≤
      Finset.sum (Finset.range t.numvars) (fun j => get t (t.rows - 1) j * x j) := by
    rw [Finset.mul_sum, ← Finset.sum_neg_distrib]
    apply Finset.sum_le_sum
    intro j hj
    have hj' := Finset.mem_range.mp hj
    have h1 := hc j hj'
    have h2 := hx.1 j hj'
    nlinarith
  linarith

/-- With non-negative entries in the last row, no feasible point has an objective value
above the RHS cell of the last row. -/
theorem objValue_le_of_nonneg (t : Tableau) (x : Nat → ℚ)
    (hc : ∀ j, j < t.numvars → 0 ≤ get t (t.rows - 1) j) (hx : Feasible t x) :
    objValue t x ≤ get t (t.rows - 1) t.constcolumn := by
  unfold objValue rowObjective rowValue
  have : 0 ≤ Finset.sum (Finset.range t.numvars) (fun j => get t (t.rows - 1) j * x j) := by
    apply Finset.sum_nonneg
    intro j hj
    have hj' := Finset.mem_range.mp hj
    exact mul_nonneg (hc j hj') (hx.1 j hj')
  linarith

/-! ## Soundness of the solver loop -/

theorem findpivotrow_neg (t : Tableau) (c : Nat) (h : findpivotrow t c < 0) :
    findpivotrow t c = UNBOUNDED := by
  rw [findpivotrow_eq] at h ⊢
  split at h
  · split
    · rfl
    · rename_i h1 h2
      exact absurd h1 h2
  · exfalso
    omega

/-- One pivot chosen by the selection rules, on a tableau in canonical form with
non-negative RHS: the canonical form, the non-negative RHS, the feasible set and the
objective read off any non-constraint row are kept. -/
theorem solver_pivot_sound (t : Tableau) (c r : Nat) (hC : Canonical t) (hR : RhsNonneg t)
    (hc : c < t.numvars) (hr : findpivotrow t c = (r : Int)) :
    Canonical (pivot t r c) ∧ RhsNonneg (pivot t r c) ∧
    (∀ x, Feasible (pivot t r c) x ↔ Feasible t x) ∧
    (∀ x k, Feasible t x → k < t.rows → t.numconstraints ≤ k →
      rowObjective (pivot t r c) k x = rowObjective t k x) := by
  obtain ⟨hrn, hpos, _⟩ := findpivotrow_eq_nat t c r hr
  have hwf := hC.1
  have hn := hC.2.1
  have hs := shape_pivot t r c
  refine ⟨Canonical_pivot t r c hC hrn hc (ne_of_gt hpos), ?_, ?_, ?_⟩
  · unfold RhsNonneg
    rw [shape_numconstraints hs, shape_constcolumn hs]
    exact pivot_rhs_nonneg t c r hwf (by omega) hc hR hr
  · intro x
    exact Feasible_pivot t r c x hwf (by omega) hrn hc (ne_of_gt hpos)
  · intro x k hx hk hnk
    exact rowObjective_pivot t r c k x hwf (by omega) hc hk (by omega) (hx.2 r hrn)

/-- Whatever `phasetwo` returns on a tableau in canonical form with non-negative RHS:
the returned tableau is in canonical form with non-negative RHS, encodes the same
feasible set and the same objective, and is optimal when the code is `OK`. -/
theorem phasetwo_sound (fuel : Nat) (t t' : Tableau) (e : TabErr) (hC : Canonical t)
    (hR : RhsNonneg t) (h : phasetwo fuel t = some (e, t')) :
    shape t' = shape t ∧ Canonical t' ∧ RhsNonneg t' ∧
    (∀ x, Feasible t' x ↔ Feasible t x) ∧
    (∀ x k, Feasible t x → k < t.rows → t.numconstraints ≤ k →
      rowObjective t' k x = rowObjective t k x) ∧
    (e = OK → isoptimal t' = true) ∧ (e = OK ∨ e = UNBOUNDED) := by
  induction fuel generalizing t with
  | zero => simp [phasetwo] at h
  | succ fuel ih =>
    rw [phasetwo_succ] at h
    by_cases hopt : isoptimal t = true
    · simp only [hopt, Bool.not_true, Bool.false_eq_true, if_false, Option.some.injEq,
        Prod.mk.injEq] at h
      obtain ⟨h1, h2⟩ := h
      subst h1 h2
      exact ⟨rfl, hC, hR, fun _ => Iff.rfl, fun _ _ _ _ _ => rfl, fun _ => hopt, Or.inl rfl⟩
    · have hopt' : isoptimal t = false := by simpa using hopt
      obtain ⟨c, hc, hlt, _⟩ := findpivotcolumn_nonneg t hopt'
      have hct : (findpivotcolumn t).toNat = c := by rw [hc]; rfl
      simp only [hopt', Bool.not_false, if_true, hct] at h
      by_cases hneg : findpivotrow t c < 0
      · simp only [hneg, if_true, Option.some.injEq, Prod.mk.injEq] at h
        obtain ⟨h1, h2⟩ := h
        subst h2
        have hu := findpivotrow_neg t c hneg
        refine ⟨rfl, hC, hR, fun _ => Iff.rfl, fun _ _ _ _ _ => rfl, ?_, Or.inr (h1 ▸ hu)⟩
        intro he
        rw [← h1, hu] at he
        exact absurd he (by decide)
      · simp only [hneg, if_false] at h
        have hr : findpivotrow t c = ((findpivotrow t c).toNat : Int) := by omega
        obtain ⟨p1, p2, p3, p4⟩ := solver_pivot_sound t c _ hC hR hlt hr
        obtain ⟨q1, q2, q3, q4, q5, q6, q7⟩ := ih _ p1 p2 h
        have hs := shape_pivot t (findpivotrow t c).toNat c
        refine ⟨q1.trans hs, q2, q3, fun x => (q4 x).trans (p3 x), ?_, q6, q7⟩
        intro x k hx hk hnk
        rw [q5 x k ((p3 x).mpr hx) (by rw [shape_rows hs]; exact hk)
          (by rw [shape_numconstraints hs]; exact hnk), p4 x k hx hk hnk]

/-! ## Artificial columns and the encoded linear program -/

theorem sum_range_add_zero (f : Nat → ℚ) (n k : Nat)
    (h : ∀ j, n ≤ j → j < n + k → f j = 0) :
    Finset.sum (Finset.range (n + k)) f = Finset.sum (Finset.range n) f := by
  induction k with
  | zero => rfl
  | succ k ih =>
    rw [← Nat.add_assoc, Finset.sum_range_succ, ih (fun j h1 h2 => h j h1 (by omega)),
      h (n + k) (by omega) (by omega), add_zero]

/-- A row whose first `n` cells are those of row `r` of `t`, evaluated at a point
extended by zeros. -/
theorem rowValue_extend (T t : Tableau) (r n k : Nat) (x : Nat → ℚ)
    (hT : T.numvars = n + k) (ht : t.numvars = n)
    (hcell : ∀ j, j < n → get T r j = get t r j) :
    rowValue T r (extendPoint n x) = rowValue t r x := by
  unfold rowValue
  rw [hT, ht, sum_range_add_zero]
  · apply Finset.sum_congr rfl
    intro j hj
    have hj' := Finset.mem_range.mp hj
    unfold extendPoint
    rw [if_pos hj', hcell j hj']
  · intro j h1 _
    unfold extendPoint
    rw [if_neg (by omega), mul_zero]

theorem extendPoint_nonneg (n m : Nat) (x : Nat → ℚ) (hnm : n ≤ m) :
    (∀ j, j < m → 0 ≤ extendPoint n x j) ↔ ∀ j, j < n → 0 ≤ x j := by
  unfold extendPoint
  constructor
  · intro h j hj
    have := h j (by omega)
    rw [if_pos hj] at this
    exact this
  · intro h j _
    by_cases hj : j < n
    · rw [if_pos hj]; exact h j hj
    · rw [if_neg hj]

/-- A point is feasible for `t` exactly when its extension by zeros is feasible for the
phase-one tableau, and the original objective row gives it the same objective value. -/
theorem Feasible_createartificialtableau (t : Tableau) (x : Nat → ℚ) (hwf : WF t)
    (hrows : t.rows = t.numconstraints + 1) :
    (Feasible (createartificialtableau t) (extendPoint t.numvars x) ↔ Feasible t x) ∧
    rowObjective (createartificialtableau t) t.numconstraints (extendPoint t.numvars x) =
      objValue t x := by
  have hn : t.numconstraints < t.rows := by omega
  obtain ⟨f1, f2, f3, f4, f5, f6, f7, f8, f9, f10⟩ := fields_createartificialtableau t hwf hn
  obtain ⟨hlen, hz, hk, hb, hcols⟩ := id hwf
  have hrow : ∀ r, r < t.rows →
      rowValue (createartificialtableau t) r (extendPoint t.numvars x) = rowValue t r x ∧
      get (createartificialtableau t) r (createartificialtableau t).constcolumn =
        get t r t.constcolumn := by
    intro r hr
    constructor
    · apply rowValue_extend _ t r t.numvars _ x f3 rfl
      intro j hj
      rw [createdCell_get_raw t hwf hn r j hr (by omega), createdCell_var t r j hj]
    · rw [f9, createdCell_get_raw t hwf hn r _ hr (by omega),
        createdCell_marker t r _ (by omega) (by omega)]
  constructor
  · unfold Feasible
    rw [f3, f7, extendPoint_nonneg _ _ x (Nat.le_add_right _ _)]
    constructor
    · rintro ⟨h1, h2⟩
      refine ⟨h1, fun i hi => ?_⟩
      have := h2 i hi
      rw [(hrow i (by omega)).1, (hrow i (by omega)).2] at this
      exact this
    · rintro ⟨h1, h2⟩
      refine ⟨h1, fun i hi => ?_⟩
      rw [(hrow i (by omega)).1, (hrow i (by omega)).2]
      exact h2 i hi
  · unfold objValue rowObjective
    have hl : t.rows - 1 = t.numconstraints := by omega
    rw [hl, (hrow t.numconstraints hn).1, (hrow t.numconstraints hn).2]

/-- A point is feasible for the torn-down tableau exactly when its extension by zeros is
feasible for the phase-one tableau, with the same objective value in every remaining
row. -/
theorem Feasible_destroyartificialtableau (t : Tableau) (x : Nat → ℚ) (hwf : WF t)
    (hlay : Layout t) (hn : t.numconstraints < t.rows) :
    (Feasible (destroyartificialtableau t) x ↔
      Feasible t (extendPoint (t.numvars - t.numartificialvars) x)) ∧
    ∀ k, k < t.rows - 1 →
      rowObjective (destroyartificialtableau t) k x =
        rowObjective t k (extendPoint (t.numvars - t.numartificialvars) x) := by
  obtain ⟨w, r1, r2, r3, r4, r5, r6, r7⟩ := destroyartificialtableau_fields t hwf hlay hn
  obtain ⟨l1, l2, l3, l4, l5⟩ := id hlay
  have hk : (destroyartificialtableau t).constcolumn =
      t.numvars - t.numartificialvars + 1 := by rw [w.2.2.1, r3]
  have hle : t.numartificialvars ≤ t.numvars := by omega
  have hrow : ∀ r, r < t.rows - 1 →
      rowValue t r (extendPoint (t.numvars - t.numartificialvars) x) =
        rowValue (destroyartificialtableau t) r x ∧
      get (destroyartificialtableau t) r (destroyartificialtableau t).constcolumn =
        get t r t.constcolumn := by
    intro r hr
    constructor
    · apply rowValue_extend t _ r (t.numvars - t.numartificialvars) t.numartificialvars x
        (by omega) r3
      intro j hj
      rw [destroyartificialtableau_var t hlay r j hr hj]
    · rw [hk, destroyartificialtableau_marker t hlay r 1 hr (by omega), l3]
  constructor
  · unfold Feasible
    rw [r3, r7, extendPoint_nonneg _ _ x (Nat.sub_le _ _)]
    constructor
    · rintro ⟨h1, h2⟩
      refine ⟨h1, fun i hi => ?_⟩
      rw [(hrow i (by omega)).1, ← (hrow i (by omega)).2]
      exact h2 i hi
    · rintro ⟨h1, h2⟩
      refine ⟨h1, fun i hi => ?_⟩
      have := h2 i hi
      rw [(hrow i (by omega)).1, ← (hrow i (by omega)).2] at this
      exact this
  · intro k hk'
    unfold rowObjective
    rw [(hrow k hk').1, (hrow k hk').2]

/-! ## Soundness of phase one -/

theorem RhsNonneg_createartificialtableau (t : Tableau) (hwf : WF t)
    (hn : t.numconstraints < t.rows) (hR : RhsNonneg t) :
    RhsNonneg (createartificialtableau t) := by
  obtain ⟨f1, f2, f3, f4, f5, f6, f7, f8, f9, f10⟩ := fields_createartificialtableau t hwf hn
  obtain ⟨hlen, hz, hk, hb, hcols⟩ := id hwf
  unfold RhsNonneg
  rw [f7, f9]
  intro i hi
  rw [createdCell_get_raw t hwf hn i _ (by omega) (by omega),
    createdCell_marker t i _ (by omega) (by omega)]
  exact hR i hi

/-- Tearing down a phase-one tableau in canonical form in which no artificial variable
is basic gives a tableau in canonical form. -/
theorem Canonical_destroyartificialtableau (t : Tableau) (hC : Canonical t)
    (hlay : Layout t) (hrows : t.numconstraints + 1 < t.rows)
    (hb : ∀ i, i < t.numconstraints →
      get (destroyartificialtableau t) i (destroyartificialtableau t).basiscolumn <
        ((destroyartificialtableau t).numvars : ℚ)) :
    Canonical (destroyartificialtableau t) := by
  obtain ⟨hwf, hn, hbasis⟩ := hC
  obtain ⟨w, r1, r2, r3, r4, r5, r6, r7⟩ := destroyartificialtableau_fields t hwf hlay hn
  obtain ⟨l1, l2, l3, l4, l5⟩ := id hlay
  have hbc : (destroyartificialtableau t).basiscolumn =
      t.numvars - t.numartificialvars + 2 := by rw [w.2.2.2.1, r3]
  refine ⟨w, by rw [r7, r1]; omega, ?_⟩
  rw [r7, r3, r1, hbc]
  intro i hi
  obtain ⟨b, hbv, hbi, h1, h0⟩ := hbasis i hi
  have hcell : get (destroyartificialtableau t) i (t.numvars - t.numartificialvars + 2) =
      (b : ℚ) := by
    rw [destroyartificialtableau_marker t hlay i 2 (by omega) (by omega), ← l4, hbi]
  have hlt : b < t.numvars - t.numartificialvars := by
    have := hb i hi
    rw [hbc, hcell, r3] at this
    exact_mod_cast this
  refine ⟨b, hlt, hcell, ?_, ?_⟩
  · rw [destroyartificialtableau_var t hlay i b (by omega) hlt, h1]
  · intro r hr hri
    rw [destroyartificialtableau_var t hlay r b hr hlt, h0 r (by omega) hri]

theorem RhsNonneg_destroyartificialtableau (t : Tableau) (hwf : WF t) (hlay : Layout t)
    (hrows : t.numconstraints + 1 < t.rows) (hR : RhsNonneg t) :
    RhsNonneg (destroyartificialtableau t) := by
  obtain ⟨w, r1, r2, r3, r4, r5, r6, r7⟩ :=
    destroyartificialtableau_fields t hwf hlay (by omega)
  unfold RhsNonneg
  rw [r7, w.2.2.1, r3]
  intro i hi
  rw [destroyartificialtableau_marker t hlay i 1 (by omega) (by omega), ← hlay.2.2.1]
  exact hR i hi

theorem Canonical_of_assigned (t : Tableau) (hwf : WF t) (hn : t.numconstraints < t.rows)
    (h : AssignedCanonical t) (hf : isinsidefeasibleregion t = true) : Canonical t := by
  refine ⟨hwf, hn, ?_⟩
  intro i hi
  rcases h i hi with hneg | hb
  · have := (isinsidefeasibleregion_iff t).mp hf i hi
    exact absurd hneg (not_lt.mpr this)
  · exact hb

/-- What `phaseone` returns with code `OK`, in the two cases of its `if`. -/
theorem phaseone_ok_cases (fuel : Nat) (t t3 : Tableau) (hC : Canonical (createartificialtableau t))
    (hR : RhsNonneg (createartificialtableau t))
    (h : phaseone fuel t = some (OK, t3)) :
    (isinsidefeasibleregion t = true ∧ t3 = t) ∨
    (isinsidefeasibleregion t = false ∧
      ∃ t2, phasetwo fuel (createartificialtableau t) = some (OK, t2) ∧
        t3 = destroyartificialtableau t2) := by
  by_cases hf : isinsidefeasibleregion t = true
  · rw [phaseone_feasible fuel t hf] at h
    simp only [Option.some.injEq, Prod.mk.injEq, true_and] at h
    exact Or.inl ⟨hf, h.symm⟩
  · have hf1 : isinsidefeasibleregion t = false := by simpa using hf
    right
    refine ⟨hf1, ?_⟩
    rw [phaseone_infeasible_start fuel t hf1] at h
    cases h2 : phasetwo fuel (createartificialtableau t) with
    | none => rw [h2] at h; simp at h
    | some p =>
      obtain ⟨e, t2⟩ := p
      rw [h2] at h
      have hcode := (phasetwo_sound fuel _ t2 e hC hR h2).2.2.2.2.2.2
      simp only at h
      rcases hcode with he | he
      · subst he
        have h0 : ¬ (OK < 0) := by decide
        rw [if_neg h0] at h
        by_cases hl : flt_lt (get t2 (t2.rows - 1) t2.constcolumn) 0 = true
        · rw [if_pos hl] at h
          simp only [Option.some.injEq, Prod.mk.injEq] at h
          exact absurd h.1 (by decide)
        · rw [if_neg hl] at h
          simp only [Option.some.injEq, Prod.mk.injEq, true_and] at h
          exact ⟨t2, rfl, h.symm⟩
      · subst he
        have h0 : UNBOUNDED < 0 := by decide
        rw [if_pos h0] at h
        simp only [Option.some.injEq, Prod.mk.injEq] at h
        exact absurd h.1 (by decide)

/-- The integer fields of the phase-one tableau after the inner solve. -/
theorem phaseone_inner_fields (t t2 : Tableau) (hwf : WF t)
    (hrows : t.rows = t.numconstraints + 1) (ha : t.numartificialvars = 0)
    (hs : shape t2 = shape (createartificialtableau t)) :
    t2.rows = t.numconstraints + 2 ∧ t2.numconstraints = t.numconstraints ∧
    t2.numvars - t2.numartificialvars = t.numvars := by
  obtain ⟨f1, f2, f3, f4, f5, f6, f7, f8, f9, f10⟩ :=
    fields_createartificialtableau t hwf (by omega)
  refine ⟨?_, ?_, ?_⟩
  · rw [shape_rows hs, f1, hrows]
  · rw [shape_numconstraints hs, f7]
  · rw [shape_numvars hs, shape_numartificialvars hs, f3, f6, ha]; omega

/-- The second case of `phaseone`: the artificial problem is solved and torn down.  When
no artificial variable is basic at the end, the result is a canonical tableau of the
original problem. -/
theorem phaseone_inner_sound (fuel : Nat) (t t2 : Tableau) (hwf : WF t) (hlay : Layout t)
    (hrows : t.rows = t.numconstraints + 1) (ha : t.numartificialvars = 0)
    (hA : AssignedCanonical t) (hR : RhsNonneg t)
    (h2 : phasetwo fuel (createartificialtableau t) = some (OK, t2))
    (hb : ∀ i, i < t.numconstraints →
      get (destroyartificialtableau t2) i (destroyartificialtableau t2).basiscolumn <
        ((destroyartificialtableau t2).numvars : ℚ)) :
    Canonical (destroyartificialtableau t2) ∧ RhsNonneg (destroyartificialtableau t2) ∧
    (∀ x, Feasible (destroyartificialtableau t2) x ↔ Feasible t x) ∧
    (∀ x, Feasible t x → objValue (destroyartificialtableau t2) x = objValue t x) ∧
    (destroyartificialtableau t2).numvars = t.numvars := by
  have hn : t.numconstraints < t.rows := by omega
  have hnv : t.numvars = t.numrealvars + t.numslackvars := by
    have := hlay.1; omega
  have hC1 := Canonical_createartificialtableau t hwf hn hnv hA
  have hR1 := RhsNonneg_createartificialtableau t hwf hn hR
  obtain ⟨hs, hC2, hR2, hfe, hob, -, -⟩ := phasetwo_sound fuel _ t2 OK hC1 hR1 h2
  obtain ⟨g1, g2, g3⟩ := phaseone_inner_fields t t2 hwf hrows ha hs
  have hlay2 : Layout t2 := Layout_of_shape hs (Layout_createartificialtableau t hlay)
  have hwf2 : WF t2 := hC2.1
  have hrows2 : t2.numconstraints + 1 < t2.rows := by omega
  have hcr := fields_createartificialtableau t hwf hn
  refine ⟨Canonical_destroyartificialtableau t2 hC2 hlay2 hrows2 (by rw [g2]; exact hb),
    RhsNonneg_destroyartificialtableau t2 hwf2 hlay2 hrows2 hR2, ?_, ?_, ?_⟩
  · intro x
    have d := (Feasible_destroyartificialtableau t2 x hwf2 hlay2 (by omega)).1
    rw [g3] at d
    exact d.trans ((hfe _).trans (Feasible_createartificialtableau t x hwf hrows).1)
  · intro x hx
    have d := (Feasible_destroyartificialtableau t2 x hwf2 hlay2 (by omega)).2
      t.numconstraints (by omega)
    rw [g3] at d
    have hrw : (destroyartificialtableau t2).rows - 1 = t.numconstraints := by
      rw [(destroyartificialtableau_fields t2 hwf2 hlay2 (by omega)).2.1, g1]; rfl
    have c := Feasible_createartificialtableau t x hwf hrows
    unfold objValue
    rw [hrw, d, hob _ _ (c.1.mpr hx) (by rw [hcr.1]; omega) (by rw [hcr.2.2.2.2.2.2.1])]
    exact c.2
  · rw [(destroyartificialtableau_fields t2 hwf2 hlay2 (by omega)).2.2.2.1, g3]

/-- Soundness of `phaseone` when it returns `OK` and no constraint row of the result is
left with a deleted (artificial) basic variable: the result is a canonical tableau with
non-negative RHS that encodes the same linear program. -/
theorem phaseone_sound (fuel : Nat) (t t3 : Tableau) (hwf : WF t) (hlay : Layout t)
    (hrows : t.rows = t.numconstraints + 1) (ha : t.numartificialvars = 0)
    (hA : AssignedCanonical t) (hR : RhsNonneg t)
    (h : phaseone fuel t = some (OK, t3))
    (hb : ∀ i, i < t.numconstraints → get t3 i t3.basiscolumn < (t3.numvars : ℚ)) :
    Canonical t3 ∧ RhsNonneg t3 ∧ (∀ x, Feasible t3 x ↔ Feasible t x) ∧
    (∀ x, Feasible t x → objValue t3 x = objValue t x) ∧ t3.numvars = t.numvars := by
  have hn : t.numconstraints < t.rows := by omega
  have hnv : t.numvars = t.numrealvars + t.numslackvars := by
    have := hlay.1; omega
  rcases phaseone_ok_cases fuel t t3 (Canonical_createartificialtableau t hwf hn hnv hA)
    (RhsNonneg_createartificialtableau t hwf hn hR) h with ⟨hf, rfl⟩ | ⟨-, t2, h2, rfl⟩
  · exact ⟨Canonical_of_assigned t3 hwf hn hA hf, hR, fun _ => Iff.rfl, fun _ _ => rfl, rfl⟩
  · exact phaseone_inner_sound fuel t t2 hwf hlay hrows ha hA hR h2 hb

/-! ## The loop of `phasetwo` as iterated passes -/

theorem phasetwo_step (fuel : Nat) (t t1 : Tableau) (h : solverIteration t = some t1) :
    phasetwo (fuel + 1) t = phasetwo fuel t1 := by
  rw [phasetwo_succ]
  unfold solverIteration at h
  by_cases hopt : isoptimal t = true
  · simp [hopt] at h
  · have hopt1 : isoptimal t = false := by simpa using hopt
    simp only [hopt1, Bool.not_false, if_true] at h ⊢
    by_cases hr : findpivotrow t (findpivotcolumn t).toNat < 0
    · simp [hr] at h
    · simp only [hr, if_false, Option.some.injEq] at h ⊢
      rw [h]

/-- While the loop of `phasetwo` is still running after `n` passes, no fuel up to `n`
lets `phasetwo` return. -/
theorem phasetwo_none_of_iterations (n : Nat) (t t1 : Tableau) (fuel : Nat)
    (h : iterations n t = some t1) (hf : fuel ≤ n) : phasetwo fuel t = none := by
  induction n generalizing t fuel with
  | zero =>
    have : fuel = 0 := by omega
    subst this; rfl
  | succ n ih =>
    cases fuel with
    | zero => rfl
    | succ f =>
      unfold iterations at h
      cases hs : solverIteration t with
      | none => rw [hs] at h; simp at h
      | some t2 =>
        rw [hs] at h
        rw [phasetwo_step f t t2 hs]
        exact ih t2 f h (by omega)

theorem phasetwo_iterations (n : Nat) (t t1 : Tableau) (fuel : Nat)
    (h : iterations n t = some t1) : phasetwo (fuel + n) t = phasetwo fuel t1 := by
  induction n generalizing t with
  | zero =>
    simp only [iterations, Option.some.injEq] at h
    rw [h]; rfl
  | succ n ih =>
    unfold iterations at h
    cases hs : solverIteration t with
    | none => rw [hs] at h; simp at h
    | some t2 =>
      rw [hs] at h
      rw [← Nat.add_assoc, phasetwo_step (fuel + n) t t2 hs]
      exact ih t2 h

/-- A tableau that the loop of `phasetwo` reaches again after `n + 1` passes is never
left: `phasetwo` does not return, whatever the fuel. -/
theorem phasetwo_cycle (n : Nat) (t : Tableau) (h : iterations (n + 1) t = some t)
    (fuel : Nat) : phasetwo fuel t = none := by
  induction fuel using Nat.strong_induction_on with
  | _ fuel ih =>
    by_cases hf : fuel ≤ n + 1
    · exact phasetwo_none_of_iterations (n + 1) t t fuel h hf
    · have hsplit : fuel = (fuel - (n + 1)) + (n + 1) := by omega
      rw [hsplit, phasetwo_iterations (n + 1) t t _ h]
      exact ih _ (by omega)

theorem main_of_feasible_start (fuel : Nat) (t : Tableau)
    (h : isinsidefeasibleregion t = true) : main fuel t = phasetwo fuel t :=
  main_of_phaseone_ok fuel t t (phaseone_feasible fuel t h)

set_option maxRecDepth 100000 in
theorem degenerate_cycle : iterations 6 degenerate = some degenerate := by decide!


/-! ## Two concrete linear programs -/

theorem tolerance_cells :
    get tolerance 0 0 = 1 ∧ get tolerance 0 1 = 1 ∧ get tolerance 0 3 = 1000 ∧
    get tolerance 1 0 = -(1 / 100000000000) ∧ get tolerance 1 1 = 0 ∧
    get tolerance 1 3 = 0 := by decide!

/-- The optimum of the linear program of `tolerance` is `1 / 10^8`. -/
theorem tolerance_optimum : IsOptimum tolerance (1 / 100000000) := by
  obtain ⟨c00, c01, c03, c10, c11, c13⟩ := tolerance_cells
  have hobj : ∀ x : Nat → ℚ, objValue tolerance x = x 0 / 100000000000 := by
    intro x
    show get tolerance 1 3 - Finset.sum (Finset.range 2) (fun j => get tolerance 1 j * x j) = _
    rw [Finset.sum_range_succ, Finset.sum_range_one, c10, c11, c13]
    ring
  have hrow : ∀ x : Nat → ℚ, Feasible tolerance x → x 0 + x 1 = 1000 := by
    intro x hx
    have h := hx.2 0 (by decide)
    have e : rowValue tolerance 0 x = get tolerance 0 0 * x 0 + get tolerance 0 1 * x 1 := by
      show Finset.sum (Finset.range 2) (fun j => get tolerance 0 j * x j) = _
      rw [Finset.sum_range_succ, Finset.sum_range_one]
    rw [e, c00, c01] at h
    have h3 : get tolerance 0 tolerance.constcolumn = 1000 := c03
    rw [h3] at h
    linarith
  refine ⟨⟨fun j => if j = 0 then 1000 else 0, ⟨?_, ?_⟩, ?_⟩, ?_⟩
  · intro j _
    by_cases hj : j = 0
    · simp [hj]
    · simp [hj]
  · intro i hi
    have hi0 : i = 0 := by
      have : i < 1 := hi
      omega
    subst hi0
    show Finset.sum (Finset.range 2) (fun j => get tolerance 0 j * _) = get tolerance 0 3
    rw [Finset.sum_range_succ, Finset.sum_range_one, c00, c01, c03]
    norm_num
  · rw [hobj]; norm_num
  · intro x hx
    rw [hobj]
    have h1 := hrow x hx
    have h2 := hx.1 1 (by decide)
    linarith

theorem degenerate_cells :
    (get degenerate 1 0 = 1 / 2 ∧ get degenerate 1 1 = -(3 / 2) ∧
      get degenerate 1 2 = -(1 / 2) ∧ get degenerate 1 3 = 1 ∧ get degenerate 1 4 = 0 ∧
      get degenerate 1 5 = 1 ∧ get degenerate 1 6 = 0 ∧ get degenerate 1 8 = 0) ∧
    (get degenerate 2 0 = 1 ∧ get degenerate 2 1 = 0 ∧
      get degenerate 2 2 = 0 ∧ get degenerate 2 3 = 0 ∧ get degenerate 2 4 = 0 ∧
      get degenerate 2 5 = 0 ∧ get degenerate 2 6 = 1 ∧ get degenerate 2 8 = 1) ∧
    (get degenerate 3 0 = -10 ∧ get degenerate 3 1 = 57 ∧
      get degenerate 3 2 = 9 ∧ get degenerate 3 3 = 24 ∧ get degenerate 3 4 = 0 ∧
      get degenerate 3 5 = 0 ∧ get degenerate 3 6 = 0 ∧ get degenerate 3 8 = 0) := by
  decide!

theorem degeneratePoint_feasible :
    Feasible degenerate degeneratePoint ∧ objValue degenerate degeneratePoint = 1 := by
  unfold Feasible objValue rowObjective rowValue
  decide!

theorem sum_range_seven (f : Nat → ℚ) :
    Finset.sum (Finset.range 7) f = f 0 + f 1 + f 2 + f 3 + f 4 + f 5 + f 6 := by
  simp only [Finset.sum_range_succ, Finset.sum_range_zero, zero_add]

/-- The optimum of the linear program of `degenerate` is 1. -/
theorem degenerate_optimum : IsOptimum degenerate 1 := by
  refine ⟨⟨degeneratePoint, degeneratePoint_feasible⟩, ?_⟩
  intro x hx
  obtain ⟨⟨a0, a1, a2, a3, a4, a5, a6, a8⟩, ⟨b0, b1, b2, b3, b4, b5, b6, b8⟩,
    ⟨c0, c1, c2, c3, c4, c5, c6, c8⟩⟩ := degenerate_cells
  have r1 : rowValue degenerate 1 x = get degenerate 1 8 := hx.2 1 (by decide)
  have r2 : rowValue degenerate 2 x = get degenerate 2 8 := hx.2 2 (by decide)
  have o : objValue degenerate x = get degenerate 3 8 - rowValue degenerate 3 x := rfl
  have e : ∀ i, rowValue degenerate i x =
      Finset.sum (Finset.range 7) (fun j => get degenerate i j * x j) := fun _ => rfl
  rw [e, sum_range_seven, a0, a1, a2, a3, a4, a5, a6, a8] at r1
  rw [e, sum_range_seven, b0, b1, b2, b3, b4, b5, b6, b8] at r2
  rw [o, e, sum_range_seven, c0, c1, c2, c3, c4, c5, c6, c8]
  have p1 := hx.1 1 (by decide)
  have p3 := hx.1 3 (by decide)
  have p5 := hx.1 5 (by decide)
  have p6 := hx.1 6 (by decide)
  linarith


/-! ## Rounded arithmetic: the exact functions are the instance `fl := id` -/

theorem addscaledrowsFl_id (t : Tableau) (s : ℚ) (x y z : Nat) :
    addscaledrowsFl id t s x y z = addscaledrows t s x y z := rfl

theorem scalerowFl_id (t : Tableau) (s : ℚ) (z : Nat) :
    scalerowFl id t s z = scalerow t s z := rfl

theorem pivotFl_id (t : Tableau) (r c : Nat) : pivotFl id t r c = pivot t r c := rfl

theorem findpivotrowFl_id (t : Tableau) (c : Nat) :
    findpivotrowFl id t c = findpivotrow t c := rfl

theorem createartificialtableauFl_id (t : Tableau) :
    createartificialtableauFl id t = createartificialtableau t := rfl

/-! ## Properties of `round64` -/

theorem pow2_pos (e : Int) : 0 < pow2 e := by
  unfold pow2
  split
  · exact_mod_cast Nat.pos_pow_of_pos _ (by decide)
  · apply one_div_pos.mpr
    exact_mod_cast Nat.pos_pow_of_pos _ (by decide)

theorem roundMagnitude64_nonneg (a : ℚ) : 0 ≤ roundMagnitude64 a := by
  unfold roundMagnitude64
  split
  · exact le_refl _
  · exact mul_nonneg (Nat.cast_nonneg _) (le_of_lt (pow2_pos _))

theorem round64_zero : round64 0 = 0 := by decide!

/-- Rounding keeps the sign: a non-negative number rounds to a non-negative one. -/
theorem round64_nonneg (q : ℚ) (h : 0 ≤ q) : 0 ≤ round64 q := by
  unfold round64
  rw [if_neg (not_lt.mpr h)]
  exact roundMagnitude64_nonneg q

/-! ## Rounded row operations -/

theorem addrowsFl_eq (fl : ℚ → ℚ) (t : Tableau) (x y z : Nat) :
    addrowsFl fl t x y z = rowCombine (fun a b => fl (a + b)) t x y z t.cols := rfl

theorem addscaledrowsFl_eq (fl : ℚ → ℚ) (t : Tableau) (s : ℚ) (x y z : Nat) :
    addscaledrowsFl fl t s x y z =
      rowCombine (fun a b => fl (fl (a * s) + b)) t x y z t.cols := rfl

theorem scalerowFl_eq (fl : ℚ → ℚ) (t : Tableau) (s : ℚ) (z : Nat) :
    scalerowFl fl t s z = rowCombine (fun a _ => fl (a * s)) t z z z t.cols := rfl

theorem shape_addrowsFl (fl : ℚ → ℚ) (t : Tableau) (x y z : Nat) :
    shape (addrowsFl fl t x y z) = shape t := by
  rw [addrowsFl_eq]; exact shape_rowCombine _ t x y z t.cols

theorem shape_addscaledrowsFl (fl : ℚ → ℚ) (t : Tableau) (s : ℚ) (x y z : Nat) :
    shape (addscaledrowsFl fl t s x y z) = shape t := by
  rw [addscaledrowsFl_eq]; exact shape_rowCombine _ t x y z t.cols

theorem shape_scalerowFl (fl : ℚ → ℚ) (t : Tableau) (s : ℚ) (z : Nat) :
    shape (scalerowFl fl t s z) = shape t := by
  rw [scalerowFl_eq]; exact shape_rowCombine _ t z z z t.cols

theorem length_addrowsFl (fl : ℚ → ℚ) (t : Tableau) (x y z : Nat) :
    (addrowsFl fl t x y z).data.length = t.data.length := by
  rw [addrowsFl_eq]; exact length_rowCombine _ t x y z t.cols

theorem length_addscaledrowsFl (fl : ℚ → ℚ) (t : Tableau) (s : ℚ) (x y z : Nat) :
    (addscaledrowsFl fl t s x y z).data.length = t.data.length := by
  rw [addscaledrowsFl_eq]; exact length_rowCombine _ t x y z t.cols

theorem length_scalerowFl (fl : ℚ → ℚ) (t : Tableau) (s : ℚ) (z : Nat) :
    (scalerowFl fl t s z).data.length = t.data.length := by
  rw [scalerowFl_eq]; exact length_rowCombine _ t z z z t.cols

theorem get_addrowsFl (fl : ℚ → ℚ) (t : Tableau) (x y z r c : Nat)
    (hlen : t.data.length = t.rows * t.cols) (hz : z < t.rows) (hc : c < t.cols) :
    get (addrowsFl fl t x y z) r c =
      if r = z ∧ c ≠ t.zcolumn ∧ c ≠ t.basiscolumn then fl (get t x c + get t y c)
      else get t r c := by
  rw [addrowsFl_eq, get_rowCombine _ t x y z t.cols r c hlen hz (le_refl _) hc]
  simp [hc]

theorem get_addscaledrowsFl (fl : ℚ → ℚ) (t : Tableau) (s : ℚ) (x y z r c : Nat)
    (hlen : t.data.length = t.rows * t.cols) (hz : z < t.rows) (hc : c < t.cols) :
    get (addscaledrowsFl fl t s x y z) r c =
      if r = z ∧ c ≠ t.zcolumn ∧ c ≠ t.basiscolumn then fl (fl (get t x c * s) + get t y c)
      else get t r c := by
  rw [addscaledrowsFl_eq, get_rowCombine _ t x y z t.cols r c hlen hz (le_refl _) hc]
  simp [hc]

theorem get_scalerowFl (fl : ℚ → ℚ) (t : Tableau) (s : ℚ) (z r c : Nat)
    (hlen : t.data.length = t.rows * t.cols) (hz : z < t.rows) (hc : c < t.cols) :
    get (scalerowFl fl t s z) r c =
      if r = z ∧ c ≠ t.zcolumn ∧ c ≠ t.basiscolumn then fl (get t z c * s)
      else get t r c := by
  rw [scalerowFl_eq, get_rowCombine _ t z z z t.cols r c hlen hz (le_refl _) hc]
  simp [hc]

/-! ## Rounded pivot -/

theorem pivotFl_eq (fl : ℚ → ℚ) (t : Tableau) (p pc : Nat) :
    pivotFl fl t p pc =
      pivotLoopFl fl (scalerowFl fl (set t p t.basiscolumn (pc : ℚ))
        (fl (1 / get (set t p t.basiscolumn (pc : ℚ)) p pc)) p) p pc t.rows := by
  have h : (scalerowFl fl (set t p t.basiscolumn (pc : ℚ))
      (fl (1 / get (set t p t.basiscolumn (pc : ℚ)) p pc)) p).rows = t.rows :=
    shape_rows ((shape_scalerowFl _ _ _ _).trans (shape_set _ _ _ _))
  unfold pivotFl pivotLoopFl
  simp only [h]

theorem pivotLoopFl_succ (fl : ℚ → ℚ) (t : Tableau) (p pc n : Nat) :
    pivotLoopFl fl t p pc (n + 1) =
      (if n ≠ p then
        addscaledrowsFl fl (pivotLoopFl fl t p pc n) (-get (pivotLoopFl fl t p pc n) n pc) p n n
      else pivotLoopFl fl t p pc n) := by
  simp [pivotLoopFl, List.range_succ, List.foldl_append]

theorem shape_pivotLoopFl (fl : ℚ → ℚ) (t : Tableau) (p pc n : Nat) :
    shape (pivotLoopFl fl t p pc n) = shape t := by
  induction n with
  | zero => rfl
  | succ n ih =>
    rw [pivotLoopFl_succ]
    split
    · rw [shape_addscaledrowsFl, ih]
    · exact ih

theorem length_pivotLoopFl (fl : ℚ → ℚ) (t : Tableau) (p pc n : Nat) :
    (pivotLoopFl fl t p pc n).data.length = t.data.length := by
  induction n with
  | zero => rfl
  | succ n ih =>
    rw [pivotLoopFl_succ]
    split
    · rw [length_addscaledrowsFl, ih]
    · exact ih

theorem get_pivotLoopFl (fl : ℚ → ℚ) (t : Tableau) (p pc n r c : Nat)
    (hlen : t.data.length = t.rows * t.cols) (hn : n ≤ t.rows) (hc : c < t.cols)
    (hpc : pc < t.cols) :
    get (pivotLoopFl fl t p pc n) r c =
      if r < n ∧ r ≠ p ∧ c ≠ t.zcolumn ∧ c ≠ t.basiscolumn then
        fl (fl (get t p c * (-get t r pc)) + get t r c)
      else get t r c := by
  induction n generalizing r c with
  | zero => simp [pivotLoopFl]
  | succ n ih =>
    have hs := shape_pivotLoopFl fl t p pc n
    have hl := length_pivotLoopFl fl t p pc n
    rw [pivotLoopFl_succ]
    by_cases hnp : n ≠ p
    · rw [if_pos hnp, get_addscaledrowsFl _ _ _ _ _ _ _ _
        (by rw [hl, shape_rows hs, shape_cols hs]; exact hlen)
        (by rw [shape_rows hs]; omega) (by rw [shape_cols hs]; exact hc),
        shape_zcolumn hs, shape_basiscolumn hs,
        ih n pc (by omega) hpc, ih p c (by omega) hc, ih n c (by omega) hc,
        ih r c (by omega) hc]
      by_cases hr : r = n
      · subst hr
        simp [hnp]
      · have h1 : (r < n + 1) = (r < n) := by
          apply propext; constructor <;> intro h <;> omega
        simp only [h1, hr, false_and, if_false]
    · rw [if_neg hnp, ih r c (by omega) hc]
      have hnp : n = p := by omega
      by_cases hr : r = n
      · have : r = p := by omega
        simp [this]
      · have h1 : (r < n + 1) = (r < n) := by
          apply propext; constructor <;> intro h <;> omega
        simp only [h1]

theorem shape_pivotFl (fl : ℚ → ℚ) (t : Tableau) (p pc : Nat) :
    shape (pivotFl fl t p pc) = shape t := by
  rw [pivotFl_eq, shape_pivotLoopFl, shape_scalerowFl, shape_set]

theorem length_pivotFl (fl : ℚ → ℚ) (t : Tableau) (p pc : Nat) :
    (pivotFl fl t p pc).data.length = t.data.length := by
  rw [pivotFl_eq, length_pivotLoopFl, length_scalerowFl, length_set]

theorem WF_pivotFl (fl : ℚ → ℚ) (t : Tableau) (p pc : Nat) (h : WF t) :
    WF (pivotFl fl t p pc) :=
  WF_of_shape (shape_pivotFl fl t p pc) (length_pivotFl fl t p pc) h

/-- Cell-wise description of `pivotFl` on a well-formed tableau, for a pivot cell in a
variable column: every arithmetic result is rounded where the source computes it. -/
theorem get_pivotFl (fl : ℚ → ℚ) (t : Tableau) (p pc r c : Nat) (hwf : WF t)
    (hp : p < t.rows) (hpc : pc < t.numvars) (hc : c < t.cols) :
    get (pivotFl fl t p pc) r c =
      if c = t.basiscolumn then (if r = p then (pc : ℚ) else get t r c)
      else if c = t.zcolumn then get t r c
      else if r < t.rows ∧ r ≠ p then
        fl (fl (fl (get t p c * fl (1 / get t p pc)) * (-get t r pc)) + get t r c)
      else if r = p then fl (get t p c * fl (1 / get t p pc))
      else get t r c := by
  obtain ⟨hlen, hz, hk, hb, hcols⟩ := hwf
  have hpcc : pc < t.cols := by omega
  have hbc : t.basiscolumn < t.cols := by omega
  have hs0 : shape (set t p t.basiscolumn (pc : ℚ)) = shape t := shape_set _ _ _ _
  have hl0 : (set t p t.basiscolumn (pc : ℚ)).data.length = t.data.length := length_set _ _ _ _
  have hlen0 : (set t p t.basiscolumn (pc : ℚ)).data.length =
      (set t p t.basiscolumn (pc : ℚ)).rows * (set t p t.basiscolumn (pc : ℚ)).cols := by
    rw [hl0, shape_rows hs0, shape_cols hs0]; exact hlen
  have g0 : ∀ r' c', c' < t.cols → get (set t p t.basiscolumn (pc : ℚ)) r' c' =
      if r' = p ∧ c' = t.basiscolumn then (pc : ℚ) else get t r' c' :=
    fun r' c' hc' => get_set t p t.basiscolumn r' c' _ hlen hp hbc hc'
  have hs1 := shape_scalerowFl fl (set t p t.basiscolumn (pc : ℚ))
    (fl (1 / get (set t p t.basiscolumn (pc : ℚ)) p pc)) p
  have hl1 := length_scalerowFl fl (set t p t.basiscolumn (pc : ℚ))
    (fl (1 / get (set t p t.basiscolumn (pc : ℚ)) p pc)) p
  have g1 : ∀ r' c', c' < t.cols →
      get (scalerowFl fl (set t p t.basiscolumn (pc : ℚ))
        (fl (1 / get (set t p t.basiscolumn (pc : ℚ)) p pc)) p) r' c' =
      if r' = p ∧ c' ≠ t.zcolumn ∧ c' ≠ t.basiscolumn then
        fl (get t p c' * fl (1 / get t p pc))
      else if r' = p ∧ c' = t.basiscolumn then (pc : ℚ) else get t r' c' := by
    intro r' c' hc'
    rw [get_scalerowFl _ _ _ _ _ _ hlen0 (by rw [shape_rows hs0]; exact hp)
      (by rw [shape_cols hs0]; exact hc'), shape_zcolumn hs0, shape_basiscolumn hs0,
      g0 p c' hc', g0 p pc hpcc, g0 r' c' hc']
    have hne : pc ≠ t.basiscolumn := by omega
    by_cases h : r' = p ∧ c' ≠ t.zcolumn ∧ c' ≠ t.basiscolumn
    · simp [h, hne]
    · simp only [h, if_false]
  rw [pivotFl_eq, get_pivotLoopFl _ _ _ _ _ _ _
      (by rw [hl1, shape_rows hs1, shape_cols hs1]; exact hlen0)
      (by rw [shape_rows hs1, shape_rows hs0]) (by rw [shape_cols hs1, shape_cols hs0]; exact hc)
      (by rw [shape_cols hs1, shape_cols hs0]; exact hpcc),
    shape_zcolumn hs1, shape_basiscolumn hs1, shape_zcolumn hs0, shape_basiscolumn hs0,
    g1 p c hc, g1 r pc hpcc, g1 r c hc]
  have hpz : pc ≠ t.zcolumn := by omega
  have hpb : pc ≠ t.basiscolumn := by omega
  by_cases hcb : c = t.basiscolumn
  · subst hcb
    by_cases hr : r = p <;> simp [hr]
  · by_cases hcz : c = t.zcolumn
    · have hzb : t.zcolumn ≠ t.basiscolumn := by omega
      simp [hcz, hzb]
    · by_cases hr : r = p
      · subst hr
        simp [hcb, hcz]
      · by_cases hlt : r < t.rows
        · simp [hcb, hcz, hr, hlt]
        · simp [hcb, hcz, hr, hlt]

/-! ## Rounded ratio test -/

theorem rowScanFl_succ (fl : ℚ → ℚ) (t : Tableau) (pc n : Nat) :
    rowScanFl fl t pc (n + 1) = rowScanStepFl fl t pc (rowScanFl fl t pc n) n := by
  simp [rowScanFl, List.range_succ, List.foldl_append]

theorem findpivotrowFl_eq (fl : ℚ → ℚ) (t : Tableau) (pc : Nat) :
    findpivotrowFl fl t pc =
      if !(rowScanFl fl t pc t.numconstraints).found then UNBOUNDED
      else ((rowScanFl fl t pc t.numconstraints).minratiorow : Int) := rfl

/-- Invariant of the rounded ratio-test loop: `found` records whether a row with a
positive entry was seen; if so, the recorded row is the first one attaining the least
computed (rounded) ratio. -/
theorem rowScanFl_inv (fl : ℚ → ℚ) (t : Tableau) (pc n : Nat) :
    ((rowScanFl fl t pc n).found = true ↔ ∃ i, i < n ∧ 0 < get t i pc) ∧
    ((rowScanFl fl t pc n).found = true →
      (rowScanFl fl t pc n).minratiorow < n ∧
      0 < get t (rowScanFl fl t pc n).minratiorow pc ∧
      (rowScanFl fl t pc n).minratio = fl (ratio t pc (rowScanFl fl t pc n).minratiorow) ∧
      ∀ i, i < n → 0 < get t i pc →
        (rowScanFl fl t pc n).minratio ≤ fl (ratio t pc i) ∧
        (fl (ratio t pc i) = (rowScanFl fl t pc n).minratio →
          (rowScanFl fl t pc n).minratiorow ≤ i)) := by
  induction n with
  | zero => simp [rowScanFl]
  | succ n ih =>
    obtain ⟨ih1, ih2⟩ := ih
    rw [rowScanFl_succ]
    generalize rowScanFl fl t pc n = s at ih1 ih2
    unfold rowScanStepFl
    by_cases hpos : get t n pc ≤ 0
    · simp only [hpos, if_true]
      refine ⟨?_, ?_⟩
      · rw [ih1]
        constructor
        · rintro ⟨i, hi, h⟩; exact ⟨i, by omega, h⟩
        · rintro ⟨i, hi, h⟩
          have : i ≠ n := by rintro rfl; exact absurd h (not_lt.mpr hpos)
          exact ⟨i, by omega, h⟩
      · intro hf
        obtain ⟨h1, h2, h3, h4⟩ := ih2 hf
        refine ⟨by omega, h2, h3, ?_⟩
        intro i hi hp
        have : i ≠ n := by rintro rfl; exact absurd hp (not_lt.mpr hpos)
        exact h4 i (by omega) hp
    · simp only [hpos, if_false]
      have hposn : 0 < get t n pc := not_le.mp hpos
      by_cases hf : s.found = true
      · obtain ⟨h1, h2, h3, h4⟩ := ih2 hf
        simp only [hf, Bool.not_true, Bool.false_eq_true, if_false]
        by_cases hlt : fl (get t n t.constcolumn / get t n pc) < s.minratio
        · simp only [hlt, if_true]
          refine ⟨⟨fun _ => ⟨n, by omega, hposn⟩, fun _ => trivial⟩, fun _ => ?_⟩
          refine ⟨by omega, hposn, rfl, ?_⟩
          intro i hi hp
          by_cases hin : i = n
          · subst hin; exact ⟨le_refl _, fun _ => le_refl _⟩
          · have := h4 i (by omega) hp
            refine ⟨le_trans (le_of_lt hlt) this.1, ?_⟩
            intro he
            exfalso
            have h5 := this.1
            rw [he] at h5
            exact absurd hlt (not_lt.mpr h5)
        · simp only [hlt, if_false]
          refine ⟨⟨fun _ => ⟨n, by omega, hposn⟩, fun _ => trivial⟩, fun _ => ?_⟩
          refine ⟨by omega, h2, h3, ?_⟩
          intro i hi hp
          by_cases hin : i = n
          · subst hin
            exact ⟨not_lt.mp hlt, fun _ => by omega⟩
          · exact h4 i (by omega) hp
      · have hf' : s.found = false := by simpa using hf
        simp only [hf', Bool.not_false, if_true]
        refine ⟨⟨fun _ => ⟨n, by omega, hposn⟩, fun _ => trivial⟩, fun _ => ?_⟩
        refine ⟨by omega, hposn, rfl, ?_⟩
        intro i hi hp
        by_cases hin : i = n
        · subst hin; exact ⟨le_refl _, fun _ => le_refl _⟩
        · exfalso
          have : s.found = true := ih1.mpr ⟨i, by omega, hp⟩
          exact hf this

/-- The rounded ratio test returns the first row attaining the least computed ratio. -/
theorem findpivotrowFl_found (fl : ℚ → ℚ) (t : Tableau) (c : Nat)
    (h : ∃ i, i < t.numconstraints ∧ 0 < get t i c) :
    ∃ r : Nat, findpivotrowFl fl t c = (r : Int) ∧ r < t.numconstraints ∧ 0 < get t r c ∧
      ∀ i, i < t.numconstraints → 0 < get t i c →
        fl (ratio t c r) ≤ fl (ratio t c i) ∧ (fl (ratio t c i) = fl (ratio t c r) → r ≤ i) := by
  have hinv := rowScanFl_inv fl t c t.numconstraints
  have hf : (rowScanFl fl t c t.numconstraints).found = true := hinv.1.mpr h
  obtain ⟨h1, h2, h3, h4⟩ := hinv.2 hf
  refine ⟨(rowScanFl fl t c t.numconstraints).minratiorow, ?_, h1, h2, ?_⟩
  · rw [findpivotrowFl_eq]; simp [hf]
  · intro i hi hp
    have := h4 i hi hp
    rw [h3] at this
    exact this

/-- A row returned by the rounded ratio test is a constraint row with a positive entry
in the column. -/
theorem findpivotrowFl_row (fl : ℚ → ℚ) (t : Tableau) (c r : Nat)
    (h : findpivotrowFl fl t c = (r : Int)) : r < t.numconstraints ∧ 0 < get t r c := by
  have hinv := rowScanFl_inv fl t c t.numconstraints
  rw [findpivotrowFl_eq] at h
  by_cases hf : (rowScanFl fl t c t.numconstraints).found = true
  · obtain ⟨h1, h2, -, -⟩ := hinv.2 hf
    simp only [hf, Bool.not_true, Bool.false_eq_true, if_false] at h
    have : (rowScanFl fl t c t.numconstraints).minratiorow = r := by exact_mod_cast h
    rw [← this]
    exact ⟨h1, h2⟩
  · have hf' : (rowScanFl fl t c t.numconstraints).found = false := by simpa using hf
    simp only [hf', Bool.not_false, if_true] at h
    unfold UNBOUNDED at h
    omega

theorem findpivotrowFl_neg (fl : ℚ → ℚ) (t : Tableau) (c : Nat)
    (h : ¬ findpivotrowFl fl t c < 0) :
    ∃ r : Nat, findpivotrowFl fl t c = (r : Int) :=
  ⟨(findpivotrowFl fl t c).toNat, (Int.toNat_of_nonneg (not_lt.mp h)).symm⟩

/-! ## Rounded optimality test -/

theorem optScanFl_succ (fl : ℚ → ℚ) (t : Tableau) (n : Nat) :
    optScanFl fl t (n + 1) =
      if flt_ltFl fl (get t (t.rows - 1) n) 0 then false else optScanFl fl t n := by
  simp [optScanFl, List.range_succ, List.foldl_append]

theorem isoptimalFl_eq (fl : ℚ → ℚ) (t : Tableau) :
    isoptimalFl fl t = optScanFl fl t t.numvars := rfl

theorem optScanFl_true_iff (fl : ℚ → ℚ) (t : Tableau) (n : Nat) :
    optScanFl fl t n = true ↔ ∀ i, i < n → flt_ltFl fl (get t (t.rows - 1) i) 0 = false := by
  induction n with
  | zero => simp [optScanFl]
  | succ n ih =>
    rw [optScanFl_succ]
    by_cases h : flt_ltFl fl (get t (t.rows - 1) n) 0 = true
    · simp only [h, if_true, Bool.false_eq_true, false_iff]
      intro hall
      have := hall n (by omega)
      rw [h] at this
      exact absurd this (by decide)
    · have h' : flt_ltFl fl (get t (t.rows - 1) n) 0 = false := by simpa using h
      simp only [h', Bool.false_eq_true, if_false, ih]
      constructor
      · intro hall i hi
        by_cases hin : i = n
        · subst hin; exact h'
        · exact hall i (by omega)
      · intro hall i hi
        exact hall i (by omega)

/-- With a sign-preserving rounding, the rounded test `flt_lt(a, 0)` only succeeds on a
negative `a`. -/
theorem flt_ltFl_neg (fl : ℚ → ℚ) (hsign : ∀ q, 0 ≤ q → 0 ≤ fl q) (a : ℚ)
    (h : flt_ltFl fl a 0 = true) : a < 0 := by
  unfold flt_ltFl at h
  rw [decide_eq_true_iff] at h
  by_contra hc
  have h1 : 0 ≤ fl EPSILON := hsign _ (le_of_lt EPSILON_pos)
  have h2 : 0 ≤ fl (a + fl EPSILON) := hsign _ (add_nonneg (not_lt.mp hc) h1)
  exact absurd h (not_lt.mpr h2)

/-- On a tableau that the rounded optimality test rejects, `findpivotcolumn` returns a
variable column whose entry in the last row is negative. -/
theorem findpivotcolumn_of_not_optimalFl (fl : ℚ → ℚ) (hsign : ∀ q, 0 ≤ q → 0 ≤ fl q)
    (t : Tableau) (h : isoptimalFl fl t = false) :
    ∃ k : Nat, findpivotcolumn t = (k : Int) ∧ k < t.numvars ∧ get t (t.rows - 1) k < 0 := by
  rw [findpivotcolumn_eq]
  rcases (colScan_inv t t.numvars).2 with ⟨_, _, h3⟩ | ⟨k, hk, h1, h2⟩
  · exfalso
    have : isoptimalFl fl t = true := by
      rw [isoptimalFl_eq, optScanFl_true_iff]
      intro i hi
      by_contra hc
      have hc' : flt_ltFl fl (get t (t.rows - 1) i) 0 = true := by simpa using hc
      exact absurd (flt_ltFl_neg fl hsign _ hc') (not_lt.mpr (h3 i hi))
    rw [h] at this
    exact absurd this (by decide)
  · exact ⟨k, h1, hk, h2⟩

/-- What one pass of the rounded solver loop does, when it pivots. -/
theorem solverIterationFl_some (fl : ℚ → ℚ) (hsign : ∀ q, 0 ≤ q → 0 ≤ fl q)
    (t t' : Tableau) (h : solverIterationFl fl t = some t') :
    ∃ c r : Nat, c < t.numvars ∧ get t (t.rows - 1) c < 0 ∧ findpivotcolumn t = (c : Int) ∧
      findpivotrowFl fl t c = (r : Int) ∧ t' = pivotFl fl t r c := by
  unfold solverIterationFl at h
  by_cases hopt : isoptimalFl fl t = true
  · simp [hopt] at h
  · have hopt' : isoptimalFl fl t = false := by simpa using hopt
    obtain ⟨k, hk, hlt, hneg⟩ := findpivotcolumn_of_not_optimalFl fl hsign t hopt'
    have hkc : (findpivotcolumn t).toNat = k := by rw [hk]; rfl
    simp only [hopt', Bool.not_false, if_true, hkc] at h
    by_cases hr : findpivotrowFl fl t k < 0
    · simp [hr] at h
    · obtain ⟨r, hre⟩ := findpivotrowFl_neg fl t k hr
      simp only [hr, if_false, Option.some.injEq] at h
      refine ⟨k, r, hlt, hneg, hk, hre, ?_⟩
      rw [← h, hre]; rfl

/-! ## Rounded `createartificialtableau`: only the auxiliary objective row is rounded -/

theorem cancelLoopFl_succ (fl : ℚ → ℚ) (t : Tableau) (n : Nat) :
    cancelLoopFl fl t (n + 1) =
      (if hasArtificialBasis (cancelLoopFl fl t n) n = true then
        addrowsFl fl (cancelLoopFl fl t n) n ((cancelLoopFl fl t n).rows - 1)
          ((cancelLoopFl fl t n).rows - 1)
      else cancelLoopFl fl t n) := by
  simp [cancelLoopFl, List.range_succ, List.foldl_append, hasArtificialBasis]

/-- The second loop of `createartificialtableauFl` changes the last row only, and not
its basis-index cell. -/
theorem cancelLoopFl_frame (fl : ℚ → ℚ) (B : Tableau) (n : Nat)
    (hlen : B.data.length = B.rows * B.cols) (hn : 0 < B.rows) :
    shape (cancelLoopFl fl B n) = shape B ∧
    (cancelLoopFl fl B n).data.length = B.data.length ∧
    ∀ r c, c < B.cols → (r ≠ B.rows - 1 ∨ c = B.basiscolumn) →
      get (cancelLoopFl fl B n) r c = get B r c := by
  induction n with
  | zero => exact ⟨rfl, rfl, fun _ _ _ _ => rfl⟩
  | succ n ih =>
    obtain ⟨ihs, ihl, ihg⟩ := ih
    rw [cancelLoopFl_succ]
    by_cases hp : hasArtificialBasis (cancelLoopFl fl B n) n = true
    · rw [if_pos hp]
      refine ⟨(shape_addrowsFl _ _ _ _ _).trans ihs, (length_addrowsFl _ _ _ _ _).trans ihl, ?_⟩
      intro r c hc hrc
      rw [get_addrowsFl _ _ _ _ _ _ _
        (by rw [ihl, shape_rows ihs, shape_cols ihs]; exact hlen)
        (by rw [shape_rows ihs]; omega) (by rw [shape_cols ihs]; exact hc),
        shape_rows ihs, shape_basiscolumn ihs]
      have h1 : ¬ (r = B.rows - 1 ∧ c ≠ (cancelLoopFl fl B n).zcolumn ∧ c ≠ B.basiscolumn) := by
        rintro ⟨h2, -, h3⟩
        rcases hrc with h | h
        · exact h h2
        · exact h3 h
      rw [if_neg h1]
      exact ihg r c hc hrc
    · rw [if_neg hp]
      exact ⟨ihs, ihl, ihg⟩

theorem createartificialtableauFl_eq (fl : ℚ → ℚ) (t : Tableau) :
    createartificialtableauFl fl t =
      scalerowFl fl
        (cancelLoopFl fl (artLoop (addobjectiverow t) (addobjectiverow t).numconstraints)
          (artLoop (addobjectiverow t) (addobjectiverow t).numconstraints).numconstraints)
        (-1)
        ((cancelLoopFl fl (artLoop (addobjectiverow t) (addobjectiverow t).numconstraints)
          (artLoop (addobjectiverow t) (addobjectiverow t).numconstraints).numconstraints).rows
            - 1) := rfl

/-- The tableau built by `createartificialtableauFl` has the integer fields of the one
built by `createartificialtableau`, and the same cells outside the rounded part (the
auxiliary objective row). -/
theorem createartificialtableauFl_frame (fl : ℚ → ℚ) (t : Tableau) (hwf : WF t)
    (hrows : t.numconstraints < t.rows) :
    shape (createartificialtableauFl fl t) = shape (artLoop (addobjectiverow t) t.numconstraints) ∧
    (createartificialtableauFl fl t).data.length =
      (artLoop (addobjectiverow t) t.numconstraints).data.length ∧
    ∀ r c, c < (artLoop (addobjectiverow t) t.numconstraints).cols →
      (r ≠ t.rows ∨ c = (artLoop (addobjectiverow t) t.numconstraints).basiscolumn) →
      get (createartificialtableauFl fl t) r c =
        get (artLoop (addobjectiverow t) t.numconstraints) r c := by
  have hwfA := WF_addobjectiverow t hwf
  have hAr : (addobjectiverow t).rows = t.rows + 1 := rfl
  have hAn : (addobjectiverow t).numconstraints = t.numconstraints := rfl
  obtain ⟨hsh, hlen, -⟩ := shape_artLoop (addobjectiverow t) t.numconstraints hwfA
    (by rw [hAr]; omega)
  obtain ⟨s1, s2, -, -, -, -, s7, -, -, -⟩ := hsh
  rw [hAr] at s1
  have hBlen : (artLoop (addobjectiverow t) t.numconstraints).data.length =
      (artLoop (addobjectiverow t) t.numconstraints).rows *
        (artLoop (addobjectiverow t) t.numconstraints).cols := by
    rw [hlen, s1, s2, hAr]
  rw [createartificialtableauFl_eq, hAn]
  obtain ⟨cs, cl, cg⟩ := cancelLoopFl_frame fl _
    (artLoop (addobjectiverow t) t.numconstraints).numconstraints hBlen (by rw [s1]; omega)
  refine ⟨(shape_scalerowFl _ _ _ _).trans cs, (length_scalerowFl _ _ _ _).trans cl, ?_⟩
  intro r c hc hrc
  rw [get_scalerowFl _ _ _ _ _ _ (by rw [cl, shape_rows cs, shape_cols cs]; exact hBlen)
    (by rw [shape_rows cs, s1]; omega) (by rw [shape_cols cs]; exact hc),
    shape_rows cs, shape_basiscolumn cs, s1, Nat.add_sub_cancel]
  have h1 : ¬ (r = t.rows ∧
      c ≠ (cancelLoopFl fl (artLoop (addobjectiverow t) t.numconstraints)
        (artLoop (addobjectiverow t) t.numconstraints).numconstraints).zcolumn ∧
      c ≠ (artLoop (addobjectiverow t) t.numconstraints).basiscolumn) := by
    rintro ⟨h2, -, h3⟩
    rcases hrc with h | h
    · exact h h2
    · exact h3 h
  rw [if_neg h1]
  exact cg r c hc (by rw [s1, Nat.add_sub_cancel]; exact hrc)

/-- The basis-index cells after `createartificialtableauFl` are those after
`createartificialtableau`, whatever the rounding. -/
theorem createartificialtableauFl_basis (fl : ℚ → ℚ) (t : Tableau) (hwf : WF t)
    (hrows : t.numconstraints < t.rows) :
    (createartificialtableauFl fl t).numconstraints =
      (createartificialtableau t).numconstraints ∧
    (createartificialtableauFl fl t).basiscolumn = (createartificialtableau t).basiscolumn ∧
    ∀ r, get (createartificialtableauFl fl t) r (createartificialtableauFl fl t).basiscolumn =
      get (createartificialtableau t) r (createartificialtableau t).basiscolumn := by
  obtain ⟨a1, -, a3⟩ := createartificialtableauFl_frame fl t hwf hrows
  obtain ⟨b1, -, b3⟩ := createartificialtableauFl_frame id t hwf hrows
  rw [createartificialtableauFl_id] at b1 b3
  have hwfB : (artLoop (addobjectiverow t) t.numconstraints).basiscolumn <
      (artLoop (addobjectiverow t) t.numconstraints).cols := by
    have hw := WF_createartificialtableau t hwf hrows
    rw [← shape_basiscolumn b1, ← shape_cols b1, hw.2.2.2.1, hw.2.2.2.2]
    omega
  refine ⟨(shape_numconstraints a1).trans (shape_numconstraints b1).symm,
    (shape_basiscolumn a1).trans (shape_basiscolumn b1).symm, ?_⟩
  intro r
  rw [shape_basiscolumn a1, shape_basiscolumn b1, a3 r _ hwfB (Or.inr rfl),
    b3 r _ hwfB (Or.inr rfl)]

theorem DistinctBasis_createartificialtableauFl (fl : ℚ → ℚ) (t : Tableau) (hwf : WF t)
    (hrows : t.numconstraints < t.rows)
    (h : DistinctBasis (createartificialtableau t)) :
    DistinctBasis (createartificialtableauFl fl t) := by
  obtain ⟨e1, -, e3⟩ := createartificialtableauFl_basis fl t hwf hrows
  intro i j hi hj hij
  rw [e3 i, e3 j]
  exact h i j (by rw [← e1]; exact hi) (by rw [← e1]; exact hj) hij

/-! ## Basis indices under a rounded pivot -/

/-- The basis-index cells after `pivotFl`: row `r` is given the pivot column, every
other row keeps its cell. -/
theorem pivotFl_basis (fl : ℚ → ℚ) (t : Tableau) (r c i : Nat) (hwf : WF t) (hr : r < t.rows)
    (hc : c < t.numvars) :
    get (pivotFl fl t r c) i (pivotFl fl t r c).basiscolumn =
      if i = r then (c : ℚ) else get t i t.basiscolumn := by
  have hbc : t.basiscolumn < t.cols := by
    obtain ⟨-, -, -, hb, hcols⟩ := hwf
    omega
  rw [shape_basiscolumn (shape_pivotFl fl t r c), get_pivotFl fl t r c i _ hwf hr hc hbc,
    if_pos rfl]

/-- A rounded pivot on a column that is not the basis index of another row keeps the
basis indices pairwise distinct. -/
theorem DistinctBasis_pivotFl (fl : ℚ → ℚ) (t : Tableau) (r c : Nat) (hwf : WF t)
    (hr : r < t.rows) (hc : c < t.numvars) (hd : DistinctBasis t)
    (hfree : ∀ i, i < t.numconstraints → i ≠ r → get t i t.basiscolumn ≠ (c : ℚ)) :
    DistinctBasis (pivotFl fl t r c) := by
  intro i j hi hj hij
  rw [shape_numconstraints (shape_pivotFl fl t r c)] at hi hj
  rw [pivotFl_basis fl t r c i hwf hr hc, pivotFl_basis fl t r c j hwf hr hc]
  by_cases hir : i = r
  · have hjr : j ≠ r := fun h => hij (hir.trans h.symm)
    rw [if_pos hir, if_neg hjr]
    exact fun h => hfree j hj hjr h.symm
  · rw [if_neg hir]
    by_cases hjr : j = r
    · rw [if_pos hjr]
      exact hfree i hi hir
    · rw [if_neg hjr]
      exact hd i j hi hj hij

/-! ## The rounded solver -/

theorem mainFl_of_phaseoneFl_ok (fl : ℚ → ℚ) (fuel : Nat) (t t' : Tableau)
    (h : phaseoneFl fl fuel t = some (OK, t')) : mainFl fl fuel t = phasetwoFl fl fuel t' := by
  simp [mainFl, h, OK]

theorem phaseoneFl_feasible (fl : ℚ → ℚ) (fuel : Nat) (t : Tableau)
    (h : isinsidefeasibleregion t = true) : phaseoneFl fl fuel t = some (OK, t) := by
  simp [phaseoneFl, h]

/-- A canonical tableau holds 0, hence no negative entry, in the last-row cell of every
basic column. -/
theorem Canonical_basic_nonneg (t : Tableau) (h : Canonical t) :
    ∀ i, i < t.numconstraints → ∀ b : Nat, b < t.numvars →
      get t i t.basiscolumn = (b : ℚ) → 0 ≤ get t (t.rows - 1) b := by
  obtain ⟨-, hn, hb⟩ := h
  intro i hi b _ hbi
  obtain ⟨b', -, hbi', -, h0⟩ := hb i hi
  have : b = b' := by
    have : (b : ℚ) = (b' : ℚ) := by rw [← hbi, ← hbi']
    exact_mod_cast this
  subst this
  rw [h0 (t.rows - 1) (by omega) (by omega)]

/-- One pass of the rounded solver loop keeps the basis indices pairwise distinct when
no basic column has a negative entry in the last row. -/
theorem DistinctBasis_solverIterationFl (fl : ℚ → ℚ) (hsign : ∀ q, 0 ≤ q → 0 ≤ fl q)
    (t t' : Tableau) (hwf : WF t) (hn : t.numconstraints ≤ t.rows) (hd : DistinctBasis t)
    (hbasic : ∀ i, i < t.numconstraints → ∀ b : Nat, b < t.numvars →
      get t i t.basiscolumn = (b : ℚ) → 0 ≤ get t (t.rows - 1) b)
    (h : solverIterationFl fl t = some t') : DistinctBasis t' := by
  obtain ⟨c, r, hc, hneg, -, hrow, rfl⟩ := solverIterationFl_some fl hsign t t' h
  obtain ⟨hr, -⟩ := findpivotrowFl_row fl t c r hrow
  refine DistinctBasis_pivotFl fl t r c hwf (by omega) hc hd ?_
  intro i hi _ hbi
  exact absurd hneg (not_lt.mpr (hbasic i hi c hc hbi))

theorem DistinctBasis_destroyartificialtableau (t : Tableau) (hwf : WF t) (hlay : Layout t)
    (hn : t.numconstraints < t.rows) (hd : DistinctBasis t) :
    DistinctBasis (destroyartificialtableau t) := by
  obtain ⟨w, -, -, r3, -, -, -, r7⟩ := destroyartificialtableau_fields t hwf hlay hn
  have hbc : (destroyartificialtableau t).basiscolumn =
      t.numvars - t.numartificialvars + 2 := by rw [w.2.2.2.1, r3]
  intro i j hi hj hij
  rw [r7] at hi hj
  rw [hbc, destroyartificialtableau_marker t hlay i 2 (by omega) (by omega),
    destroyartificialtableau_marker t hlay j 2 (by omega) (by omega), ← hlay.2.2.2.1]
  exact hd i j hi hj hij

/-! ## The loop of `phasetwoFl` as iterated passes -/

theorem phasetwoFl_succ (fl : ℚ → ℚ) (fuel : Nat) (t : Tableau) :
    phasetwoFl fl (fuel + 1) t =
      if !isoptimalFl fl t then
        if findpivotrowFl fl t (findpivotcolumn t).toNat < 0 then
          some (findpivotrowFl fl t (findpivotcolumn t).toNat, t)
        else phasetwoFl fl fuel
          (pivotFl fl t (findpivotrowFl fl t (findpivotcolumn t).toNat).toNat
            (findpivotcolumn t).toNat)
      else some (OK, t) := rfl

theorem phasetwoFl_step (fl : ℚ → ℚ) (fuel : Nat) (t t1 : Tableau)
    (h : solverIterationFl fl t = some t1) :
    phasetwoFl fl (fuel + 1) t = phasetwoFl fl fuel t1 := by
  rw [phasetwoFl_succ]
  unfold solverIterationFl at h
  by_cases hopt : isoptimalFl fl t = true
  · simp [hopt] at h
  · have hopt1 : isoptimalFl fl t = false := by simpa using hopt
    simp only [hopt1, Bool.not_false, if_true] at h ⊢
    by_cases hr : findpivotrowFl fl t (findpivotcolumn t).toNat < 0
    · simp [hr] at h
    · simp only [hr, if_false, Option.some.injEq] at h ⊢
      rw [h]

/-- While the loop of `phasetwoFl` is still running after `n` passes, no fuel up to `n`
lets `phasetwoFl` return. -/
theorem phasetwoFl_none_of_iterations (fl : ℚ → ℚ) (n : Nat) (t t1 : Tableau) (fuel : Nat)
    (h : iterationsFl fl n t = some t1) (hf : fuel ≤ n) : phasetwoFl fl fuel t = none := by
  induction n generalizing t fuel with
  | zero =>
    have : fuel = 0 := by omega
    subst this; rfl
  | succ n ih =>
    cases fuel with
    | zero => rfl
    | succ f =>
      unfold iterationsFl at h
      cases hs : solverIterationFl fl t with
      | none => rw [hs] at h; simp at h
      | some t2 =>
        rw [hs] at h
        rw [phasetwoFl_step fl f t t2 hs]
        exact ih t2 f h (by omega)

theorem phasetwoFl_iterations (fl : ℚ → ℚ) (n : Nat) (t t1 : Tableau) (fuel : Nat)
    (h : iterationsFl fl n t = some t1) :
    phasetwoFl fl (fuel + n) t = phasetwoFl fl fuel t1 := by
  induction n generalizing t with
  | zero =>
    simp only [iterationsFl, Option.some.injEq] at h
    rw [h]; rfl
  | succ n ih =>
    unfold iterationsFl at h
    cases hs : solverIterationFl fl t with
    | none => rw [hs] at h; simp at h
    | some t2 =>
      rw [hs] at h
      rw [← Nat.add_assoc, phasetwoFl_step fl (fuel + n) t t2 hs]
      exact ih t2 h

/-- A tableau that the loop of `phasetwoFl` reaches again after `n + 1` passes is never
left: `phasetwoFl` does not return, whatever the fuel. -/
theorem phasetwoFl_cycle (fl : ℚ → ℚ) (n : Nat) (t : Tableau)
    (h : iterationsFl fl (n + 1) t = some t) (fuel : Nat) : phasetwoFl fl fuel t = none := by
  induction fuel using Nat.strong_induction_on with
  | _ fuel ih =>
    by_cases hf : fuel ≤ n + 1
    · exact phasetwoFl_none_of_iterations fl (n + 1) t t fuel h hf
    · have hsplit : fuel = (fuel - (n + 1)) + (n + 1) := by omega
      rw [hsplit, phasetwoFl_iterations fl (n + 1) t t _ h]
      exact ih _ (by omega)

theorem mainFl_of_feasible_start (fl : ℚ → ℚ) (fuel : Nat) (t : Tableau)
    (h : isinsidefeasibleregion t = true) : mainFl fl fuel t = phasetwoFl fl fuel t :=
  mainFl_of_phaseoneFl_ok fl fuel t t (phaseoneFl_feasible fl fuel t h)

set_option maxRecDepth 100000 in
theorem degenerate_cycle64 : iterationsFl round64 6 degenerate = some degenerate := by
  decide!

/-! ## The linear program of `roundedBasis` -/

theorem roundedBasis_cells :
    (get roundedBasis 0 0 = 0 ∧ get roundedBasis 0 1 = 49 ∧ get roundedBasis 0 2 = 1 ∧
      get roundedBasis 0 3 = 0 ∧ get roundedBasis 0 5 = 1) ∧
    (get roundedBasis 1 0 = 1 ∧ get roundedBasis 1 1 = 98 ∧ get roundedBasis 1 2 = 0 ∧
      get roundedBasis 1 3 = 1 ∧ get roundedBasis 1 5 = 2) ∧
    (get roundedBasis 2 0 = -(1 / 2) ∧
      get roundedBasis 2 1 = -(5404319552844595 / 18014398509481984) ∧
      get roundedBasis 2 2 = 0 ∧ get roundedBasis 2 3 = 0 ∧ get roundedBasis 2 5 = 0) := by
  decide!

/-- The point `x1 = 2`, `s1 = 1` of the linear program of `roundedBasis` is feasible and
has the objective value 1. -/
theorem roundedBasisPoint_feasible :
    Feasible roundedBasis roundedBasisPoint ∧ objValue roundedBasis roundedBasisPoint = 1 := by
  unfold Feasible objValue rowObjective rowValue
  decide!

theorem sum_range_four (f : Nat → ℚ) :
    Finset.sum (Finset.range 4) f = f 0 + f 1 + f 2 + f 3 := by
  simp only [Finset.sum_range_succ, Finset.sum_range_zero, zero_add]

/-- The optimum of the linear program of `roundedBasis` is 1. -/
theorem roundedBasis_optimum : IsOptimum roundedBasis 1 := by
  refine ⟨⟨roundedBasisPoint, roundedBasisPoint_feasible⟩, ?_⟩
  intro x hx
  obtain ⟨⟨a0, a1, a2, a3, a5⟩, ⟨b0, b1, b2, b3, b5⟩, ⟨c0, c1, c2, c3, c5⟩⟩ :=
    roundedBasis_cells
  have r1 : rowValue roundedBasis 1 x = get roundedBasis 1 5 := hx.2 1 (by decide)
  have o : objValue roundedBasis x = get roundedBasis 2 5 - rowValue roundedBasis 2 x := rfl
  have e : ∀ i, rowValue roundedBasis i x =
      Finset.sum (Finset.range 4) (fun j => get roundedBasis i j * x j) := fun _ => rfl
  rw [e, sum_range_four, b0, b1, b2, b3, b5] at r1
  rw [o, e, sum_range_four, c0, c1, c2, c3, c5]
  have p1 := hx.1 1 (by decide)
  have p3 := hx.1 3 (by decide)
  linarith

/-! ## The rounding error of `round64` -/

theorem halvings_spec (fuel n : Nat) (h1 : 1 ≤ n) (h2 : n < 2 ^ (fuel + 1)) :
    2 ^ halvings fuel n ≤ n ∧ n < 2 ^ (halvings fuel n + 1) := by
  induction fuel generalizing n with
  | zero =>
    have hn : n = 1 := by
      have : n < 2 := by simpa using h2
      omega
    subst hn
    simp [halvings]
  | succ fuel ih =>
    unfold halvings
    by_cases hlt : n < 2
    · have hn : n = 1 := by omega
      subst hn
      simp
    · rw [if_neg hlt]
      have hpow : 2 ^ (fuel + 1 + 1) = 2 * 2 ^ (fuel + 1) := by rw [pow_succ]; ring
      obtain ⟨a, b⟩ := ih (n / 2) (by omega) (by omega)
      have e1 : 2 ^ (halvings fuel (n / 2) + 1) = 2 * 2 ^ halvings fuel (n / 2) := by
        rw [pow_succ]; ring
      have e2 : 2 ^ (halvings fuel (n / 2) + 1 + 1) = 2 * 2 ^ (halvings fuel (n / 2) + 1) := by
        rw [pow_succ]; ring
      constructor
      · rw [e1]; omega
      · rw [e2]; omega

theorem natLog2_spec (n : Nat) (h1 : 1 ≤ n) :
    2 ^ natLog2 n ≤ n ∧ n < 2 ^ (natLog2 n + 1) :=
  halvings_spec n n h1
    (lt_trans (Nat.lt_two_pow n) (Nat.pow_lt_pow_right (by decide) (Nat.lt_succ_self n)))

theorem pow2_eq_zpow (e : Int) : pow2 e = (2 : ℚ) ^ e := by
  unfold pow2
  split
  · rename_i h
    have : e = ((e.toNat : Nat) : Int) := (Int.toNat_of_nonneg h).symm
    rw [Nat.cast_pow, Nat.cast_ofNat]
    conv_rhs => rw [this, zpow_natCast]
  · rename_i h
    have hn : 0 ≤ -e := by omega
    have : e = -(((-e).toNat : Nat) : Int) := by rw [Int.toNat_of_nonneg hn]; ring
    rw [Nat.cast_pow, Nat.cast_ofNat]
    conv_rhs => rw [this, zpow_neg, zpow_natCast]
    rw [one_div]

/-- The exponent computed by `exponent2` is not too large: `2 ^ e ≤ q`. -/
theorem exponent2_le (q : ℚ) (hq : 0 < q) : pow2 (exponent2 q) ≤ q := by
  unfold exponent2
  by_cases h : pow2 ((natLog2 q.num.toNat : Int) - (natLog2 q.den : Int)) ≤ q
  · simp only [h, if_true]
  · simp only [h, if_false]
    have hnum : 0 < q.num := Rat.num_pos.mpr hq
    have hn1 : 1 ≤ q.num.toNat := by omega
    have hd1 : 1 ≤ q.den := q.den_pos
    obtain ⟨hl, -⟩ := natLog2_spec q.num.toNat hn1
    obtain ⟨-, hu⟩ := natLog2_spec q.den hd1
    have hqe : q = (q.num.toNat : ℚ) / (q.den : ℚ) := by
      have h1 : ((q.num.toNat : Nat) : Int) = q.num := Int.toNat_of_nonneg (le_of_lt hnum)
      have h2 : ((q.num.toNat : Nat) : ℚ) = (q.num : ℚ) := by exact_mod_cast h1
      rw [h2]
      exact (Rat.num_div_den q).symm
    have hdpos : (0 : ℚ) < (q.den : ℚ) := by exact_mod_cast hd1
    have hl' : (2 : ℚ) ^ natLog2 q.num.toNat ≤ (q.num.toNat : ℚ) := by exact_mod_cast hl
    have hu' : (q.den : ℚ) ≤ (2 : ℚ) ^ (natLog2 q.den + 1) := by exact_mod_cast le_of_lt hu
    rw [pow2_eq_zpow]
    have hz : (2 : ℚ) ^ ((natLog2 q.num.toNat : Int) - (natLog2 q.den : Int) - 1) =
        (2 : ℚ) ^ natLog2 q.num.toNat / (2 : ℚ) ^ (natLog2 q.den + 1) := by
      have h2 : (2 : ℚ) ≠ 0 := by norm_num
      rw [show ((natLog2 q.num.toNat : Int) - (natLog2 q.den : Int) - 1) =
        (natLog2 q.num.toNat : Int) - ((natLog2 q.den + 1 : Nat) : Int) by push_cast; ring,
        zpow_sub₀ h2, zpow_natCast, zpow_natCast]
    rw [hz]
    conv_rhs => rw [hqe]
    have hp : (0 : ℚ) < (2 : ℚ) ^ (natLog2 q.den + 1) := by positivity
    rw [div_le_div_iff₀ hp hdpos]
    calc (2 : ℚ) ^ natLog2 q.num.toNat * (q.den : ℚ)
        ≤ (q.num.toNat : ℚ) * (q.den : ℚ) := mul_le_mul_of_nonneg_right hl' (le_of_lt hdpos)
      _ ≤ (q.num.toNat : ℚ) * (2 : ℚ) ^ (natLog2 q.den + 1) :=
          mul_le_mul_of_nonneg_left hu' (by positivity)

/-- Rounding to the nearest integer moves a non-negative rational by at most `1/2`. -/
theorem roundHalfEven_error (m : ℚ) (hm : 0 ≤ m) : |(roundHalfEven m : ℚ) - m| ≤ 1 / 2 := by
  have hfl : m.floor = ⌊m⌋ := rfl
  have hf0 : 0 ≤ ⌊m⌋ := Int.floor_nonneg.mpr hm
  have hcast : ((m.floor.toNat : Nat) : ℚ) = (⌊m⌋ : ℚ) := by
    rw [hfl]
    have : ((⌊m⌋.toNat : Nat) : Int) = ⌊m⌋ := Int.toNat_of_nonneg hf0
    exact_mod_cast this
  have h1 : (⌊m⌋ : ℚ) ≤ m := Int.floor_le m
  have h2 : m < (⌊m⌋ : ℚ) + 1 := Int.lt_floor_add_one m
  unfold roundHalfEven
  simp only
  rw [hcast]
  by_cases c1 : m - (⌊m⌋ : ℚ) < 1 / 2
  · rw [if_pos c1, hcast, abs_le]
    constructor <;> linarith
  · rw [if_neg c1]
    by_cases c2 : 1 / 2 < m - (⌊m⌋ : ℚ)
    · rw [if_pos c2, Nat.cast_add, Nat.cast_one, hcast, abs_le]
      constructor <;> linarith
    · rw [if_neg c2]
      have c3 : m - (⌊m⌋ : ℚ) = 1 / 2 := le_antisymm (not_lt.mp c2) (not_lt.mp c1)
      split
      · rw [hcast, abs_le]
        constructor <;> linarith
      · rw [Nat.cast_add, Nat.cast_one, hcast, abs_le]
        constructor <;> linarith

theorem pow2_sub (e : Int) (k : Nat) : pow2 (e - k) = pow2 e / 2 ^ k := by
  have h2 : (2 : ℚ) ≠ 0 := by norm_num
  rw [pow2_eq_zpow, pow2_eq_zpow, zpow_sub₀ h2, zpow_natCast]

/-- The rounding error of `roundMagnitude64` in the normal range: at most `a / 2^53`. -/
theorem roundMagnitude64_error (a : ℚ) (ha : pow2 (-1022) ≤ a) :
    |roundMagnitude64 a - a| ≤ unitRoundoff * a := by
  have hpos : 0 < a := lt_of_lt_of_le (pow2_pos _) ha
  unfold roundMagnitude64
  rw [if_neg (ne_of_gt hpos)]
  simp only
  generalize he : (if exponent2 a < -1022 then (-1022 : Int) else exponent2 a) = e
  have hle : pow2 e ≤ a := by
    rw [← he]
    split
    · exact ha
    · exact exponent2_le a hpos
  have hq : pow2 (e - 52) = pow2 e / 2 ^ 52 := by
    have := pow2_sub e 52
    simpa using this
  have hqpos : 0 < pow2 (e - 52) := pow2_pos _
  have hm : 0 ≤ a / pow2 (e - 52) := div_nonneg (le_of_lt hpos) (le_of_lt hqpos)
  have herr := roundHalfEven_error (a / pow2 (e - 52)) hm
  have hfac : (roundHalfEven (a / pow2 (e - 52)) : ℚ) * pow2 (e - 52) - a =
      ((roundHalfEven (a / pow2 (e - 52)) : ℚ) - a / pow2 (e - 52)) * pow2 (e - 52) := by
    field_simp
  rw [hfac, abs_mul, abs_of_pos hqpos]
  have h1 : |(roundHalfEven (a / pow2 (e - 52)) : ℚ) - a / pow2 (e - 52)| * pow2 (e - 52) ≤
      1 / 2 * pow2 (e - 52) := mul_le_mul_of_nonneg_right herr (le_of_lt hqpos)
  have h2 : 1 / 2 * pow2 (e - 52) = unitRoundoff * pow2 e := by
    rw [hq]; unfold unitRoundoff; ring
  have h3 : unitRoundoff * pow2 e ≤ unitRoundoff * a :=
    mul_le_mul_of_nonneg_left hle (by unfold unitRoundoff; positivity)
  linarith

/-- In the normal range of binary64 the relative rounding error is at most `2^(-53)`. -/
theorem round64_accurate (q : ℚ) (h : pow2 (-1022) ≤ |q|) : Accurate round64 q := by
  unfold Accurate round64
  by_cases hq : q < 0
  · rw [if_pos hq, abs_of_neg hq] at *
    have := roundMagnitude64_error (-q) h
    have e : -roundMagnitude64 (-q) - q = -(roundMagnitude64 (-q) - -q) := by ring
    rw [e, abs_neg]
    exact this
  · rw [if_neg hq]
    have hq0 : 0 ≤ q := not_lt.mp hq
    rw [abs_of_nonneg hq0] at h ⊢
    exact roundMagnitude64_error q h

theorem id_accurate (q : ℚ) : Accurate id q := by
  unfold Accurate unitRoundoff
  simp only [id, sub_self, abs_zero]
  positivity

/-! ## Error analysis of one pivot

Facts about rationals: `u` bounds the relative error of each operation. -/

/-- The product of `x` with its computed reciprocal `s` is within `u` of 1. -/
theorem recip_error (x s u : ℚ) (hx : x ≠ 0) (hs : |s - 1 / x| ≤ u * |1 / x|) :
    |x * s - 1| ≤ u := by
  have h1 : x * s - 1 = x * (s - 1 / x) := by
    rw [mul_sub, mul_one_div_cancel hx]
  rw [h1, abs_mul]
  have hxpos : 0 < |x| := abs_pos.mpr hx
  calc |x| * |s - 1 / x| ≤ |x| * (u * |1 / x|) := mul_le_mul_of_nonneg_left hs (le_of_lt hxpos)
    _ = u * (|x| * |1 / x|) := by ring
    _ = u := by rw [← abs_mul, mul_one_div_cancel hx, abs_one, mul_one]

/-- The scaled pivot cell `p = fl(x * s)` is within `2u + u^2` of 1. -/
theorem pivot_cell_error (x s p u : ℚ) (hx : x ≠ 0) (hu : 0 ≤ u)
    (hs : |s - 1 / x| ≤ u * |1 / x|) (hp : |p - x * s| ≤ u * |x * s|) :
    |p - 1| ≤ 2 * u + u ^ 2 := by
  have h1 := recip_error x s u hx hs
  have h2 : |x * s| ≤ 1 + u := by
    have : x * s = (x * s - 1) + 1 := by ring
    calc |x * s| = |(x * s - 1) + 1| := by rw [← this]
      _ ≤ |x * s - 1| + |1| := abs_add _ _
      _ ≤ u + 1 := by rw [abs_one]; linarith
      _ = 1 + u := by ring
  have h3 : |p - x * s| ≤ u * (1 + u) := le_trans hp (mul_le_mul_of_nonneg_left h2 hu)
  have h4 : p - 1 = (p - x * s) + (x * s - 1) := by ring
  calc |p - 1| = |(p - x * s) + (x * s - 1)| := by rw [← h4]
    _ ≤ |p - x * s| + |x * s - 1| := abs_add _ _
    _ ≤ u * (1 + u) + u := add_le_add h3 h1
    _ = 2 * u + u ^ 2 := by ring

/-- The new cell `w = fl(fl(p * (-e)) + e)` of another row of the pivot column is small
relative to its old value `e`. -/
theorem other_cell_error (p e v w u k : ℚ) (hu : 0 ≤ u)
    (hp : |p - 1| ≤ k) (hv : |v - p * (-e)| ≤ u * |p * (-e)|)
    (hw : |w - (v + e)| ≤ u * |v + e|) :
    |w| ≤ (1 + u) * (u * (1 + k) + k) * |e| := by
  have hpa : |p| ≤ 1 + k := by
    have : p = (p - 1) + 1 := by ring
    calc |p| = |(p - 1) + 1| := by rw [← this]
      _ ≤ |p - 1| + |1| := abs_add _ _
      _ ≤ k + 1 := by rw [abs_one]; linarith
      _ = 1 + k := by ring
  have he : 0 ≤ |e| := abs_nonneg e
  have h1 : |p * (-e)| ≤ (1 + k) * |e| := by
    rw [abs_mul, abs_neg]
    exact mul_le_mul_of_nonneg_right hpa he
  have h2 : |v - p * (-e)| ≤ u * ((1 + k) * |e|) :=
    le_trans hv (mul_le_mul_of_nonneg_left h1 hu)
  have h3 : |v + e| ≤ (u * (1 + k) + k) * |e| := by
    have : v + e = (v - p * (-e)) + (-(p - 1) * e) := by ring
    calc |v + e| = |(v - p * (-e)) + (-(p - 1) * e)| := by rw [← this]
      _ ≤ |v - p * (-e)| + |-(p - 1) * e| := abs_add _ _
      _ ≤ u * ((1 + k) * |e|) + k * |e| := by
          apply add_le_add h2
          rw [abs_mul, abs_neg]
          exact mul_le_mul_of_nonneg_right hp he
      _ = (u * (1 + k) + k) * |e| := by ring
  have h4 : |w - (v + e)| ≤ u * ((u * (1 + k) + k) * |e|) :=
    le_trans hw (mul_le_mul_of_nonneg_left h3 hu)
  have : w = (w - (v + e)) + (v + e) := by ring
  calc |w| = |(w - (v + e)) + (v + e)| := by rw [← this]
    _ ≤ |w - (v + e)| + |v + e| := abs_add _ _
    _ ≤ u * ((u * (1 + k) + k) * |e|) + (u * (1 + k) + k) * |e| := add_le_add h4 h3
    _ = (1 + u) * (u * (1 + k) + k) * |e| := by ring

/-- The new RHS of the pivot row, computed with relative error `u` per operation, is
non-negative and at most `(1 + 3u) * (br / x)`. -/
theorem scaled_rhs_bound (x br s q u : ℚ) (hu : 0 ≤ u) (hu1 : u ≤ 1 / 16)
    (hx : 0 < x) (hbr : 0 ≤ br)
    (hs : |s - 1 / x| ≤ u * |1 / x|) (hq : |q - br * s| ≤ u * |br * s|) :
    0 ≤ q ∧ q ≤ (1 + 3 * u) * (br / x) := by
  have hxi : 0 < 1 / x := one_div_pos.mpr hx
  have hrr : 0 ≤ br / x := div_nonneg hbr (le_of_lt hx)
  rw [abs_of_pos hxi] at hs
  obtain ⟨hs1, hs2⟩ := abs_le.mp hs
  have h1u : 0 ≤ 1 - u := by linarith
  have hs0 : 0 ≤ s := by
    have : 0 ≤ (1 - u) * (1 / x) := mul_nonneg h1u (le_of_lt hxi)
    linarith
  have hbs : 0 ≤ br * s := mul_nonneg hbr hs0
  rw [abs_of_nonneg hbs] at hq
  obtain ⟨hq1, hq2⟩ := abs_le.mp hq
  have hq0 : 0 ≤ q := by
    have : 0 ≤ (1 - u) * (br * s) := mul_nonneg h1u hbs
    linarith
  refine ⟨hq0, ?_⟩
  have hbsx : br * s ≤ (1 + u) * (br / x) := by
    have : br * s ≤ br * ((1 + u) * (1 / x)) :=
      mul_le_mul_of_nonneg_left (by linarith) hbr
    calc br * s ≤ br * ((1 + u) * (1 / x)) := this
      _ = (1 + u) * (br / x) := by ring
  have a1 : q ≤ (1 + u) * (br * s) := by linarith
  have a2 : (1 + u) * (br * s) ≤ (1 + u) * ((1 + u) * (br / x)) :=
    mul_le_mul_of_nonneg_left hbsx (by linarith)
  have a3 : (1 + u) * ((1 + u) * (br / x)) ≤ (1 + 3 * u) * (br / x) := by
    have huu : 16 * (u * u) ≤ u := by
      have := mul_le_mul_of_nonneg_left hu1 hu
      linarith
    have : (1 + u) * (1 + u) ≤ 1 + 3 * u := by linarith
    calc (1 + u) * ((1 + u) * (br / x)) = (1 + u) * (1 + u) * (br / x) := by ring
      _ ≤ (1 + 3 * u) * (br / x) := mul_le_mul_of_nonneg_right this hrr
  linarith

/-- The product of the new RHS of the pivot row with a positive entry `e` of the pivot
column stays below the old RHS `b` of that row, up to rounding, when the computed ratio
of the pivot row is at most the computed ratio of that row. -/
theorem product_bound (x e br b q Rr Ri u : ℚ) (hu : 0 ≤ u) (hu1 : u ≤ 1 / 16)
    (hx : 0 < x) (he : 0 < e) (hbr : 0 ≤ br) (hb : 0 ≤ b)
    (hq3 : q ≤ (1 + 3 * u) * (br / x))
    (hRr : |Rr - br / x| ≤ u * |br / x|) (hRi : |Ri - b / e| ≤ u * |b / e|)
    (hle : Rr ≤ Ri) :
    (1 - u) * (q * e) ≤ (1 + 5 * u) * b := by
  have hrr : 0 ≤ br / x := div_nonneg hbr (le_of_lt hx)
  have hri : 0 ≤ b / e := div_nonneg hb (le_of_lt he)
  rw [abs_of_nonneg hrr] at hRr
  rw [abs_of_nonneg hri] at hRi
  obtain ⟨hr1, -⟩ := abs_le.mp hRr
  obtain ⟨-, hi2⟩ := abs_le.mp hRi
  have h1u : 0 ≤ 1 - u := by linarith
  have hrat : (1 - u) * (br / x) ≤ (1 + u) * (b / e) := by linarith
  have huu : 16 * (u * u) ≤ u := by
    have := mul_le_mul_of_nonneg_left hu1 hu
    linarith
  have h4 : (1 - u) * q ≤ (1 + 5 * u) * (b / e) := by
    have a1 : (1 - u) * q ≤ (1 - u) * ((1 + 3 * u) * (br / x)) :=
      mul_le_mul_of_nonneg_left hq3 h1u
    have a2 : (1 + 3 * u) * ((1 - u) * (br / x)) ≤ (1 + 3 * u) * ((1 + u) * (b / e)) :=
      mul_le_mul_of_nonneg_left hrat (by linarith)
    have a3 : (1 + 3 * u) * (1 + u) ≤ 1 + 5 * u := by linarith
    have a4 : (1 + 3 * u) * (1 + u) * (b / e) ≤ (1 + 5 * u) * (b / e) :=
      mul_le_mul_of_nonneg_right a3 hri
    calc (1 - u) * q ≤ (1 - u) * ((1 + 3 * u) * (br / x)) := a1
      _ = (1 + 3 * u) * ((1 - u) * (br / x)) := by ring
      _ ≤ (1 + 3 * u) * ((1 + u) * (b / e)) := a2
      _ = (1 + 3 * u) * (1 + u) * (b / e) := by ring
      _ ≤ (1 + 5 * u) * (b / e) := a4
  have : (1 - u) * q * e ≤ (1 + 5 * u) * (b / e) * e :=
    mul_le_mul_of_nonneg_right h4 (le_of_lt he)
  have hbe : b / e * e = b := div_mul_cancel₀ b (ne_of_gt he)
  calc (1 - u) * (q * e) = (1 - u) * q * e := by ring
    _ ≤ (1 + 5 * u) * (b / e) * e := this
    _ = (1 + 5 * u) * (b / e * e) := by ring
    _ = (1 + 5 * u) * b := by rw [hbe]

/-- The new RHS `w = fl(fl(q * (-e)) + b)` of a row is at least `-16 u b`. -/
theorem new_rhs_bound (e b q v w u : ℚ) (hu : 0 ≤ u) (hu1 : u ≤ 1 / 16)
    (he : 0 < e) (hb : 0 ≤ b) (hq0 : 0 ≤ q)
    (h5 : (1 - u) * (q * e) ≤ (1 + 5 * u) * b)
    (hv : |v - q * (-e)| ≤ u * |q * (-e)|) (hw : |w - (v + b)| ≤ u * |v + b|) :
    -(16 * u) * b ≤ w := by
  have h1u : 0 ≤ 1 - u := by linarith
  have hqe : 0 ≤ q * e := mul_nonneg hq0 (le_of_lt he)
  have hqe' : |q * (-e)| = q * e := by
    rw [abs_mul, abs_neg, abs_of_nonneg hq0, abs_of_pos he]
  rw [hqe'] at hv
  obtain ⟨hv1, -⟩ := abs_le.mp hv
  have huu : 16 * (u * u) ≤ u := by
    have := mul_le_mul_of_nonneg_left hu1 hu
    linarith
  have hv' : -((1 + u) * (q * e)) ≤ v := by linarith
  have h6 : (1 - u) * ((1 + u) * (q * e)) ≤ (1 + 7 * u) * b := by
    have a1 : (1 + u) * ((1 - u) * (q * e)) ≤ (1 + u) * ((1 + 5 * u) * b) :=
      mul_le_mul_of_nonneg_left h5 (by linarith)
    have a3 : (1 + u) * (1 + 5 * u) ≤ 1 + 7 * u := by linarith
    have a4 : (1 + u) * (1 + 5 * u) * b ≤ (1 + 7 * u) * b :=
      mul_le_mul_of_nonneg_right a3 hb
    calc (1 - u) * ((1 + u) * (q * e)) = (1 + u) * ((1 - u) * (q * e)) := by ring
      _ ≤ (1 + u) * ((1 + 5 * u) * b) := a1
      _ = (1 + u) * (1 + 5 * u) * b := by ring
      _ ≤ (1 + 7 * u) * b := a4
  have h7 : -(8 * u) * b ≤ (1 - u) * (v + b) := by
    have : (1 - u) * (-((1 + u) * (q * e))) ≤ (1 - u) * v :=
      mul_le_mul_of_nonneg_left hv' h1u
    linarith
  obtain ⟨hw1, -⟩ := abs_le.mp hw
  have h11 : 0 < 1 - u := by linarith
  have hub : 0 ≤ u * b := mul_nonneg hu hb
  by_cases hvb : 0 ≤ v + b
  · rw [abs_of_nonneg hvb] at hw1
    have : 0 ≤ (1 - u) * (v + b) := mul_nonneg h1u hvb
    linarith
  · have hneg : v + b < 0 := not_le.mp hvb
    rw [abs_of_neg hneg] at hw1
    have hw2 : (1 + u) * (v + b) ≤ w := by linarith
    have h9 : (1 + u) * (-(8 * u) * b) ≤ (1 - u) * w := by
      have a1 : (1 + u) * (-(8 * u) * b) ≤ (1 + u) * ((1 - u) * (v + b)) :=
        mul_le_mul_of_nonneg_left h7 (by linarith)
      have a2 : (1 - u) * ((1 + u) * (v + b)) ≤ (1 - u) * w :=
        mul_le_mul_of_nonneg_left hw2 h1u
      linarith
    have h10 : (1 - u) * (-(16 * u) * b) ≤ (1 + u) * (-(8 * u) * b) := by
      have h3 : 0 ≤ u * b * (1 - 3 * u) := mul_nonneg hub (by linarith)
      linarith
    exact le_of_mul_le_mul_left (le_trans h10 h9) h11

theorem unitRoundoff_bounds :
    0 ≤ unitRoundoff ∧ unitRoundoff ≤ 1 / 16 ∧
    2 * unitRoundoff + unitRoundoff ^ 2 ≤ 1 / 2 ^ 51 ∧
    (1 + unitRoundoff) *
      (unitRoundoff * (1 + (2 * unitRoundoff + unitRoundoff ^ 2)) +
        (2 * unitRoundoff + unitRoundoff ^ 2)) ≤ 1 / 2 ^ 51 ∧
    16 * unitRoundoff = 1 / 2 ^ 49 := by
  unfold unitRoundoff
  norm_num

/-- The row returned by the rounded ratio test has the least computed ratio. -/
theorem findpivotrowFl_min (fl : ℚ → ℚ) (t : Tableau) (c r : Nat)
    (h : findpivotrowFl fl t c = (r : Int)) :
    r < t.numconstraints ∧ 0 < get t r c ∧
    ∀ i, i < t.numconstraints → 0 < get t i c → fl (ratio t c r) ≤ fl (ratio t c i) := by
  obtain ⟨hr, hx⟩ := findpivotrowFl_row fl t c r h
  obtain ⟨r', h1, -, -, h4⟩ := findpivotrowFl_found fl t c ⟨r, hr, hx⟩
  have : r' = r := by
    rw [h] at h1
    exact_mod_cast h1.symm
  subst this
  exact ⟨hr, hx, fun i hi hp => (h4 i hi hp).1⟩

/-! ## Claims -/

/-- C2 (evaluation at the failing input): on the tableau `fractional`, whose last row
holds `-1/2` in column 0 and `-1/4` in column 1, `findpivotcolumn` returns column 1
although column 0 holds the most negative entry: `maxneg` is an `int`, the assignment
`maxneg = get(...)` truncates `-1/2` to `0`, and the later entry `-1/4` still compares
below it. -/
theorem findpivotcolumn_truncates :
    findpivotcolumn fractional = 1 ∧
    get fractional (fractional.rows - 1) 0 < get fractional (fractional.rows - 1) 1 ∧
    ¬ (∀ j, j < fractional.numvars →
        get fractional (fractional.rows - 1) (findpivotcolumn fractional).toNat ≤
          get fractional (fractional.rows - 1) j) := by
  refine ⟨by decide!, by decide!, ?_⟩
  intro h
  exact absurd (h 0 (by decide)) (by decide!)

/-- C4: `findpivotrow(t, c)` returns `UNBOUNDED` (-2) exactly when no constraint row
has a positive entry in column `c`, and otherwise a row index in `[0, numconstraints)`.
Consequently `phasetwo` returns `UNBOUNDED` on a tableau that is not optimal and whose
column chosen by `findpivotcolumn` has no positive entry in a constraint row, returning
that tableau as it was (no pivot in that step); and whenever `phasetwo` returns
`UNBOUNDED`, the tableau it stopped on is such a tableau. -/
theorem unbounded_iff_no_positive_entry :
    (∀ (t : Tableau) (c : Nat),
      (findpivotrow t c = UNBOUNDED ↔ ∀ i, i < t.numconstraints → ¬ 0 < get t i c) ∧
      (findpivotrow t c ≠ UNBOUNDED →
        0 ≤ findpivotrow t c ∧ findpivotrow t c < (t.numconstraints : Int))) ∧
    (∀ (fuel : Nat) (t : Tableau), isoptimal t = false →
      (∀ i, i < t.numconstraints → ¬ 0 < get t i (findpivotcolumn t).toNat) →
      phasetwo (fuel + 1) t = some (UNBOUNDED, t)) ∧
    (∀ (fuel : Nat) (t t' : Tableau), phasetwo fuel t = some (UNBOUNDED, t') →
      isoptimal t' = false ∧
      ∀ i, i < t'.numconstraints → ¬ 0 < get t' i (findpivotcolumn t').toNat) := by
  refine ⟨?_, ?_, ?_⟩
  · intro t c
    refine ⟨findpivotrow_unbounded_iff t c, ?_⟩
    intro hne
    have hex : ∃ i, i < t.numconstraints ∧ 0 < get t i c := by
      by_contra hcon
      apply hne
      rw [findpivotrow_unbounded_iff]
      intro i hi hp
      exact hcon ⟨i, hi, hp⟩
    obtain ⟨r, hr, hlt, _⟩ := findpivotrow_found t c hex
    rw [hr]
    omega
  · intro fuel t hopt hno
    have hu := (findpivotrow_unbounded_iff t (findpivotcolumn t).toNat).mpr hno
    rw [phasetwo_succ, hopt, hu]
    simp [UNBOUNDED]
  · intro fuel
    induction fuel with
    | zero => intro t t' h; simp [phasetwo] at h
    | succ fuel ih =>
      intro t t' h
      rw [phasetwo_succ] at h
      by_cases hopt : isoptimal t = true
      · simp [hopt, OK, UNBOUNDED] at h
      · have hopt' : isoptimal t = false := by simpa using hopt
        simp only [hopt', Bool.not_false, if_true] at h
        by_cases hneg : findpivotrow t (findpivotcolumn t).toNat < 0
        · simp only [hneg, if_true, Option.some.injEq, Prod.mk.injEq] at h
          obtain ⟨h1, h2⟩ := h
          subst h2
          exact ⟨hopt', (findpivotrow_unbounded_iff _ _).mp h1⟩
        · simp only [hneg, if_false] at h
          exact ih _ _ h

/-- Witness for C4: on the tableau reached by the unbounded instance after its first
pivot, `phasetwo` returns `UNBOUNDED` without pivoting. -/
theorem unbounded_iff_no_positive_entry_witness :
    phasetwo (0 + 1) unboundedFinal = some (UNBOUNDED, unboundedFinal) :=
  unbounded_iff_no_positive_entry.2.1 0 unboundedFinal (by decide!) (by decide!)

/-- C6: on the canonical tableau `phaseone` is a no-op returning `OK`, and `phasetwo`
(and so `main`) terminates with `OK`: three tests of the loop condition suffice.  In the
final tableau the objective row has RHS 36, the row whose basis index is 0 (`x1`) has
RHS 2 and the row whose basis index is 1 (`x2`) has RHS 6. -/
theorem canonical_scenario :
    (∀ fuel, phaseone fuel canonical = some (OK, canonical)) ∧
    (∀ fuel, 3 ≤ fuel → phasetwo fuel canonical = some (OK, canonicalFinal)) ∧
    (∀ fuel, 3 ≤ fuel → main fuel canonical = some (OK, canonicalFinal)) ∧
    get canonicalFinal (canonicalFinal.rows - 1) canonicalFinal.constcolumn = 36 ∧
    (∃ i, i < canonicalFinal.numconstraints ∧ get canonicalFinal i canonicalFinal.basiscolumn = 0) ∧
    (∀ i, i < canonicalFinal.numconstraints →
      get canonicalFinal i canonicalFinal.basiscolumn = 0 →
      get canonicalFinal i canonicalFinal.constcolumn = 2) ∧
    (∃ i, i < canonicalFinal.numconstraints ∧ get canonicalFinal i canonicalFinal.basiscolumn = 1) ∧
    (∀ i, i < canonicalFinal.numconstraints →
      get canonicalFinal i canonicalFinal.basiscolumn = 1 →
      get canonicalFinal i canonicalFinal.constcolumn = 6) := by
  have h1 : ∀ fuel, phaseone fuel canonical = some (OK, canonical) :=
    fun fuel => phaseone_feasible fuel canonical (by decide!)
  have h2 : ∀ fuel, 3 ≤ fuel → phasetwo fuel canonical = some (OK, canonicalFinal) :=
    fun fuel hf => phasetwo_fuel_mono 3 fuel canonical _ (by decide!) hf
  refine ⟨h1, h2, ?_, by decide!, ⟨2, by decide, by decide!⟩, by decide!,
    ⟨1, by decide, by decide!⟩, by decide!⟩
  intro fuel hf
  rw [main_of_phaseone_ok fuel canonical canonical (h1 fuel)]
  exact h2 fuel hf

/-- Witness for C6: the run of `main` with fuel 3. -/
theorem canonical_scenario_witness : main 3 canonical = some (OK, canonicalFinal) :=
  canonical_scenario.2.2.1 3 (by decide)

/-- C8: on the unbounded instance `phaseone` returns `OK` without changing the tableau
and `phasetwo` (and so `main`) terminates returning `UNBOUNDED` (-2). -/
theorem unbounded_scenario :
    (∀ fuel, phaseone fuel unboundedInstance = some (OK, unboundedInstance)) ∧
    (∀ fuel, 2 ≤ fuel → phasetwo fuel unboundedInstance = some (UNBOUNDED, unboundedFinal)) ∧
    (∀ fuel, 2 ≤ fuel → main fuel unboundedInstance = some (UNBOUNDED, unboundedFinal)) ∧
    UNBOUNDED = -2 := by
  have h1 : ∀ fuel, phaseone fuel unboundedInstance = some (OK, unboundedInstance) :=
    fun fuel => phaseone_feasible fuel unboundedInstance (by decide!)
  have h2 : ∀ fuel, 2 ≤ fuel →
      phasetwo fuel unboundedInstance = some (UNBOUNDED, unboundedFinal) :=
    fun fuel hf => phasetwo_fuel_mono 2 fuel unboundedInstance _ (by decide!) hf
  refine ⟨h1, h2, ?_, rfl⟩
  intro fuel hf
  rw [main_of_phaseone_ok fuel unboundedInstance unboundedInstance (h1 fuel)]
  exact h2 fuel hf

/-- Witness for C8: the run of `main` with fuel 2. -/
theorem unbounded_scenario_witness :
    main 2 unboundedInstance = some (UNBOUNDED, unboundedFinal) :=
  unbounded_scenario.2.2.1 2 (by decide)

/-- C9: on a tableau in which every constraint row's basis-index cell is non-negative,
`isinsidefeasibleregion` is true and `phaseone` returns `OK` with the very same tableau
(same rows, cols, variable counts, marker offsets and cells), whatever the fuel. -/
theorem phaseone_noop (t : Tableau) (fuel : Nat)
    (h : ∀ i, i < t.numconstraints → 0 ≤ get t i t.basiscolumn) :
    isinsidefeasibleregion t = true ∧ phaseone fuel t = some (OK, t) :=
  ⟨(isinsidefeasibleregion_iff t).mpr h,
    phaseone_feasible fuel t ((isinsidefeasibleregion_iff t).mpr h)⟩

/-- Witness for C9: the canonical tableau. -/
theorem phaseone_noop_witness :
    isinsidefeasibleregion canonical = true ∧ phaseone 0 canonical = some (OK, canonical) :=
  phaseone_noop canonical 0 (by decide!)


/-- C15: on a well-formed tableau and for an in-range row `r`, `addartificialcolumn(t, r)`
inserts one column at index old `numvars` (immediately before the three marker columns):
`cols`, `numvars`, `numartificialvars`, `zcolumn`, `constcolumn` and `basiscolumn` grow
by 1 (the other fields are kept); the new column holds 1 in row `r` and 0 in every other
row; every pre-existing cell keeps its value at its column (variable columns) or at its
column shifted by one (marker columns), except that the basis-index cell of row `r` now
holds the index of the new column. -/
theorem addartificialcolumn_spec (t : Tableau) (r : Nat) (hwf : WF t) (hr : r < t.rows) :
    ((addartificialcolumn t r).rows = t.rows ∧
      (addartificialcolumn t r).cols = t.cols + 1 ∧
      (addartificialcolumn t r).numvars = t.numvars + 1 ∧
      (addartificialcolumn t r).numrealvars = t.numrealvars ∧
      (addartificialcolumn t r).numslackvars = t.numslackvars ∧
      (addartificialcolumn t r).numartificialvars = t.numartificialvars + 1 ∧
      (addartificialcolumn t r).numconstraints = t.numconstraints ∧
      (addartificialcolumn t r).zcolumn = t.zcolumn + 1 ∧
      (addartificialcolumn t r).constcolumn = t.constcolumn + 1 ∧
      (addartificialcolumn t r).basiscolumn = t.basiscolumn + 1) ∧
    t.numvars + 1 = (addartificialcolumn t r).zcolumn ∧
    (∀ i, i < t.rows → get (addartificialcolumn t r) i t.numvars = if i = r then 1 else 0) ∧
    (∀ i c, i < t.rows → c < t.numvars → get (addartificialcolumn t r) i c = get t i c) ∧
    (∀ i c, i < t.rows → t.numvars ≤ c → c < t.cols → ¬ (i = r ∧ c = t.basiscolumn) →
      get (addartificialcolumn t r) i (c + 1) = get t i c) ∧
    get (addartificialcolumn t r) r (addartificialcolumn t r).basiscolumn = (t.numvars : ℚ) := by
  obtain ⟨hlen, hz, hk, hb, hcols⟩ := hwf
  have hbc : t.basiscolumn < t.cols := by omega
  refine ⟨⟨rfl, rfl, rfl, rfl, rfl, rfl, rfl, rfl, rfl, rfl⟩, ?_, ?_, ?_, ?_, ?_⟩
  · show t.numvars + 1 = t.zcolumn + 1
    omega
  · intro i hi
    have h1 : ¬ (i = r ∧ t.numvars = t.basiscolumn + 1) := by omega
    rw [get_addartificialcolumn t r i t.numvars hr hbc hi (by omega), if_neg h1,
      if_neg (lt_irrefl _), if_pos rfl]
  · intro i c hi hc
    have h1 : ¬ (i = r ∧ c = t.basiscolumn + 1) := by omega
    rw [get_addartificialcolumn t r i c hr hbc hi (by omega), if_neg h1, if_pos hc]
  · intro i c hi hc1 hc2 hne
    have h1 : ¬ (i = r ∧ c + 1 = t.basiscolumn + 1) := by
      rintro ⟨h, h'⟩; exact hne ⟨h, by omega⟩
    have h2 : ¬ c + 1 < t.numvars := by omega
    have h3 : ¬ c + 1 = t.numvars := by omega
    rw [get_addartificialcolumn t r i (c + 1) hr hbc hi (by omega), if_neg h1, if_neg h2,
      if_neg h3, Nat.add_sub_cancel]
  · show get (addartificialcolumn t r) r (t.basiscolumn + 1) = _
    rw [get_addartificialcolumn t r r (t.basiscolumn + 1) hr hbc hr (by omega),
      if_pos ⟨rfl, rfl⟩]

/-- Witness for C15: a column added for row 1 of the canonical tableau. -/
theorem addartificialcolumn_spec_witness :
    get (addartificialcolumn canonical 1) 1 (addartificialcolumn canonical 1).basiscolumn =
      (canonical.numvars : ℚ) :=
  (addartificialcolumn_spec canonical 1 (by decide) (by decide)).2.2.2.2.2

/-- C16: the column-layout predicate (`numvars = numrealvars + numslackvars +
numartificialvars`, `zcolumn = numvars`, `constcolumn = numvars + 1`,
`basiscolumn = numvars + 2`, `cols = numvars + 3`) holds for the tableau built by the
reader and is preserved by `addobjectiverow`, `deleterow`, `addartificialcolumn`,
`deletecolumn` (while an artificial column exists), `pivot`, `createartificialtableau`
and `destroyartificialtableau`. -/
theorem layout_preserved :
    (∀ (numrealvars numslackvars numconstraints : Nat) (values : List ℚ),
      Layout (readtableau numrealvars numslackvars numconstraints values)) ∧
    (∀ t, Layout t → Layout (addobjectiverow t)) ∧
    (∀ t r, Layout t → Layout (deleterow t r)) ∧
    (∀ t r, Layout t → Layout (addartificialcolumn t r)) ∧
    (∀ t c, Layout t → 0 < t.numartificialvars → Layout (deletecolumn t c)) ∧
    (∀ t r c, Layout t → Layout (pivot t r c)) ∧
    (∀ t, Layout t → Layout (createartificialtableau t)) ∧
    (∀ t, Layout t → Layout (destroyartificialtableau t)) :=
  ⟨Layout_readtableau, Layout_addobjectiverow, Layout_deleterow, Layout_addartificialcolumn,
    Layout_deletecolumn, Layout_pivot, Layout_createartificialtableau,
    Layout_destroyartificialtableau⟩

/-- Witness for C16: the layout of the canonical tableau survives
`createartificialtableau` followed by `destroyartificialtableau`. -/
theorem layout_preserved_witness :
    Layout (destroyartificialtableau (createartificialtableau canonical)) :=
  layout_preserved.2.2.2.2.2.2.2 _ (layout_preserved.2.2.2.2.2.2.1 canonical (by decide))

/-- C17: on a tableau on which `isoptimal` returns false, `findpivotcolumn` returns an
index `c` with `0 ≤ c < numvars` whose entry in the last row is strictly negative; in
particular it is not `-1`, so the loop of `phasetwo` never hands a "none" column to
`findpivotrow` or `pivot`. -/
theorem findpivotcolumn_valid (t : Tableau) (h : isoptimal t = false) :
    0 ≤ findpivotcolumn t ∧ findpivotcolumn t < (t.numvars : Int) ∧
    findpivotcolumn t ≠ -1 ∧
    get t (t.rows - 1) (findpivotcolumn t).toNat < 0 := by
  obtain ⟨k, hk, hlt, hneg⟩ := findpivotcolumn_nonneg t h
  rw [hk]
  refine ⟨by omega, by omega, by omega, ?_⟩
  simpa using hneg

/-- Witness for C17: the canonical tableau is not optimal. -/
theorem findpivotcolumn_valid_witness :
    0 ≤ findpivotcolumn canonical ∧ findpivotcolumn canonical < (canonical.numvars : Int) ∧
    findpivotcolumn canonical ≠ -1 ∧
    get canonical (canonical.rows - 1) (findpivotcolumn canonical).toNat < 0 :=
  findpivotcolumn_valid canonical (by decide!)

/-- C11: on a well-formed phase-one tableau (`rows = numconstraints + 2`, layout
`numvars = numrealvars + numslackvars + numartificialvars` with the artificial columns
last), `destroyartificialtableau` removes the last row and exactly the artificial
columns: `rows = numconstraints + 1`, `numartificialvars = 0`,
`numvars = numrealvars + numslackvars`, `cols = numvars + 3`, `numconstraints` (and the
real and slack counts) unchanged, and every remaining cell (real/slack columns and the
three marker columns of the remaining rows) keeps its value. -/
theorem destroyartificialtableau_spec (t : Tableau) (hwf : WF t) (hlay : Layout t)
    (hrows : t.rows = t.numconstraints + 2) :
    ((destroyartificialtableau t).rows = t.numconstraints + 1 ∧
      (destroyartificialtableau t).numartificialvars = 0 ∧
      (destroyartificialtableau t).numvars = t.numrealvars + t.numslackvars ∧
      (destroyartificialtableau t).cols = (destroyartificialtableau t).numvars + 3 ∧
      (destroyartificialtableau t).numconstraints = t.numconstraints ∧
      (destroyartificialtableau t).numrealvars = t.numrealvars ∧
      (destroyartificialtableau t).numslackvars = t.numslackvars) ∧
    (∀ r c, r < t.numconstraints + 1 → c < t.numrealvars + t.numslackvars →
      get (destroyartificialtableau t) r c = get t r c) ∧
    (∀ r, r < t.numconstraints + 1 →
      get (destroyartificialtableau t) r (destroyartificialtableau t).zcolumn =
        get t r t.zcolumn ∧
      get (destroyartificialtableau t) r (destroyartificialtableau t).constcolumn =
        get t r t.constcolumn ∧
      get (destroyartificialtableau t) r (destroyartificialtableau t).basiscolumn =
        get t r t.basiscolumn) := by
  have hn : t.numconstraints < t.rows := by omega
  obtain ⟨w, r1, r2, r3, r4, r5, r6, r7⟩ := destroyartificialtableau_fields t hwf hlay hn
  obtain ⟨l1, l2, l3, l4, l5⟩ := id hlay
  obtain ⟨_, wz, wk, wb, wc⟩ := w
  have hnv : t.numvars - t.numartificialvars = t.numrealvars + t.numslackvars := by omega
  have hrr : ∀ r, r < t.numconstraints + 1 → r < t.rows - 1 := fun r h => by omega
  refine ⟨⟨by omega, r6, by omega, wc, r7, r4, r5⟩, ?_, ?_⟩
  · intro r c hr hc
    exact destroyartificialtableau_var t hlay r c (hrr r hr) (by omega)
  · intro r hr
    rw [wz, wk, wb, r3, l2, l3, l4]
    exact ⟨destroyartificialtableau_marker t hlay r 0 (hrr r hr) (by omega),
      destroyartificialtableau_marker t hlay r 1 (hrr r hr) (by omega),
      destroyartificialtableau_marker t hlay r 2 (hrr r hr) (by omega)⟩

/-- Witness for C11: the phase-one tableau of the infeasible instance. -/
theorem destroyartificialtableau_spec_witness :
    (destroyartificialtableau
      (createartificialtableau (infeasibleInstance (-1) (-1) 0 0 1 0 0))).rows =
      (createartificialtableau (infeasibleInstance (-1) (-1) 0 0 1 0 0)).numconstraints + 1 :=
  (destroyartificialtableau_spec
    (createartificialtableau (infeasibleInstance (-1) (-1) 0 0 1 0 0))
    (by decide!) (by decide!) (by decide!)).1.1

/-- C20: on a well-formed tableau with `rows = numconstraints + 1` and no artificial
variables, `destroyartificialtableau` applied directly after `createartificialtableau`
restores every integer field (rows, cols, the variable counts, the marker offsets) and
every cell, except the basis-index cells of the constraint rows that carried the
negative sentinel: these now hold the index the (deleted) artificial column of the row
had, `numvars` + the number of sentinel rows above it. -/
theorem destroy_after_create (t : Tableau) (hwf : WF t) (hlay : Layout t)
    (hrows : t.rows = t.numconstraints + 1) (hart : t.numartificialvars = 0) :
    ((destroyartificialtableau (createartificialtableau t)).rows = t.rows ∧
      (destroyartificialtableau (createartificialtableau t)).cols = t.cols ∧
      (destroyartificialtableau (createartificialtableau t)).numvars = t.numvars ∧
      (destroyartificialtableau (createartificialtableau t)).numrealvars = t.numrealvars ∧
      (destroyartificialtableau (createartificialtableau t)).numslackvars = t.numslackvars ∧
      (destroyartificialtableau (createartificialtableau t)).numartificialvars =
        t.numartificialvars ∧
      (destroyartificialtableau (createartificialtableau t)).numconstraints =
        t.numconstraints ∧
      (destroyartificialtableau (createartificialtableau t)).zcolumn = t.zcolumn ∧
      (destroyartificialtableau (createartificialtableau t)).constcolumn = t.constcolumn ∧
      (destroyartificialtableau (createartificialtableau t)).basiscolumn = t.basiscolumn) ∧
    ∀ r c, r < t.rows → c < t.cols →
      get (destroyartificialtableau (createartificialtableau t)) r c =
        if c = t.basiscolumn ∧ r < t.numconstraints ∧ get t r t.basiscolumn < 0 then
          ((t.numvars + sentinelsBefore t r : Nat) : ℚ)
        else get t r c := by
  have hn : t.numconstraints < t.rows := by omega
  obtain ⟨f1, f2, f3, f4, f5, f6, f7, f8, f9, f10⟩ := fields_createartificialtableau t hwf hn
  have hwfT := WF_createartificialtableau t hwf hn
  have hlayT := Layout_createartificialtableau t hlay
  obtain ⟨w, r1, r2, r3, r4, r5, r6, r7⟩ :=
    destroyartificialtableau_fields (createartificialtableau t) hwfT hlayT
      (by rw [f7, f1]; omega)
  obtain ⟨_, wz, wk, wb, _⟩ := w
  obtain ⟨hlen, hz, hk, hb, hcols⟩ := id hwf
  have e3 : (destroyartificialtableau (createartificialtableau t)).numvars = t.numvars := by
    rw [r3, f3, f6, hart]; omega
  refine ⟨⟨by rw [r1, f1]; omega, by rw [r2, f2, f6, hart]; omega, e3, r4.trans f4,
    r5.trans f5, r6.trans hart.symm, r7.trans f7, by rw [wz, e3, hz], by rw [wk, e3, hk],
    by rw [wb, e3, hb]⟩, ?_⟩
  intro r c hr hc
  have hk0 : (createartificialtableau t).numartificialvars =
      sentinelsBefore t t.numconstraints := by rw [f6, hart, Nat.zero_add]
  have hr' : r < (createartificialtableau t).rows - 1 := by rw [f1]; omega
  have hc' : c < (createartificialtableau t).cols -
      (createartificialtableau t).numartificialvars := by rw [f2, hk0]; omega
  rw [destroyartificialtableau_cells (createartificialtableau t) hlayT r c hr' hc', f3, hk0,
    Nat.add_sub_cancel]
  by_cases hcv : c < t.numvars
  · have hne : ¬ (c = t.basiscolumn ∧ r < t.numconstraints ∧ get t r t.basiscolumn < 0) := by
      intro h; omega
    rw [if_pos hcv, if_neg hne, createdCell_get_raw t hwf hn r c hr (by omega),
      createdCell_var t r c hcv]
  · rw [if_neg hcv, createdCell_get_raw t hwf hn r _ hr (by omega)]
    by_cases hcb : c = t.basiscolumn
    · subst hcb
      by_cases hs : r < t.numconstraints ∧ isSentinel t r = true
      · rw [createdCell_basis_sentinel t r (by omega) hs.1 hs.2,
          if_pos ⟨rfl, hs.1, (isSentinel_iff t r).mp hs.2⟩]
      · have hne : ¬ (t.basiscolumn = t.basiscolumn ∧ r < t.numconstraints ∧
            get t r t.basiscolumn < 0) :=
          fun h => hs ⟨h.2.1, (isSentinel_iff t r).mpr h.2.2⟩
        rw [createdCell_basis_assigned t r (by omega) hs, if_neg hne]
    · have hne : ¬ (c = t.basiscolumn ∧ r < t.numconstraints ∧ get t r t.basiscolumn < 0) :=
        fun h => hcb h.1
      rw [createdCell_marker t r c (by omega) hcb, if_neg hne]

/-- Witness for C20: the infeasible instance, whose second row carries the sentinel. -/
theorem destroy_after_create_witness :
    (destroyartificialtableau
      (createartificialtableau (infeasibleInstance (-1) (-1) 0 0 1 0 0))).cols =
      (infeasibleInstance (-1) (-1) 0 0 1 0 0).cols :=
  (destroy_after_create (infeasibleInstance (-1) (-1) 0 0 1 0 0)
    (by decide) (by decide) (by decide) (by decide)).1.2.1

/-- C13 (evaluation at the failing input): on `duplicated`, whose two constraint rows
both carry the sentinel `-1`, `phaseone` returns `OK`; in the tableau it returns, row 1
has basis-index cell 3 while `numvars` is 2: the artificial variable of row 1 was still
basic (at level 0) when its column was deleted, and 3 is now the index of the RHS
column. -/
theorem phaseone_leaves_deleted_basis :
    (∀ i, i < duplicated.numconstraints →
      get duplicated i duplicated.basiscolumn = -1 ∨
      get duplicated i duplicated.basiscolumn < (duplicated.numvars : ℚ)) ∧
    (∀ fuel, 2 ≤ fuel → phaseone fuel duplicated = some (OK, duplicatedAfter)) ∧
    get duplicatedAfter 1 duplicatedAfter.basiscolumn = 3 ∧
    duplicatedAfter.numvars = 2 ∧ duplicatedAfter.constcolumn = 3 ∧
    ¬ (∀ i, i < duplicatedAfter.numconstraints →
        0 ≤ get duplicatedAfter i duplicatedAfter.basiscolumn ∧
        get duplicatedAfter i duplicatedAfter.basiscolumn < (duplicatedAfter.numvars : ℚ)) := by
  refine ⟨by decide!, ?_, by decide!, rfl, rfl, by decide!⟩
  intro fuel hf
  have h2 : phasetwo 2 (createartificialtableau duplicated) =
      some (OK, pivot (createartificialtableau duplicated) 0 0) := by decide!
  have h := phasetwo_fuel_mono 2 fuel _ _ h2 hf
  have hin : isinsidefeasibleregion duplicated = false := by decide!
  unfold phaseone
  rw [hin]
  simp only [Bool.not_false, if_true, h]
  decide!

/-- C7: on the infeasible instance `x1 + x2 ≤ 4`, `x1 + x2 ≥ 10`, whatever the objective
row `o0 … o6`, `phaseone` terminates (two tests of the loop condition suffice) returning
`INFEASIBLE` (-1), and `main` returns that code without running phase two. -/
theorem infeasible_scenario (o0 o1 o2 o3 o4 o5 o6 : ℚ) (fuel : Nat) (hf : 2 ≤ fuel) :
    ∃ T, phaseone fuel (infeasibleInstance o0 o1 o2 o3 o4 o5 o6) = some (INFEASIBLE, T) ∧
      main fuel (infeasibleInstance o0 o1 o2 o3 o4 o5 o6) = some (INFEASIBLE, T) ∧
      INFEASIBLE = -1 := by
  have hzero : (phaseone 2 (infeasibleInstance 0 0 0 0 0 0 0)).map Prod.fst =
      some INFEASIBLE := by decide!
  have hcode := Frame_phaseone 2 _ _ (infeasibleInstance_agree o0 o1 o2 o3 o4 o5 o6)
    (infeasibleInstance_WF o0 o1 o2 o3 o4 o5 o6) (infeasibleInstance_WF 0 0 0 0 0 0 0)
    rfl rfl (infeasibleInstance_assigned o0 o1 o2 o3 o4 o5 o6)
  rw [hzero] at hcode
  obtain ⟨p, hp, hfst⟩ := Option.map_eq_some'.mp hcode
  obtain ⟨e, T⟩ := p
  have he : e = INFEASIBLE := hfst
  subst he
  have hrun := phaseone_fuel_mono 2 fuel _ _ hp hf
  exact ⟨T, hrun, main_of_phaseone_error fuel _ T INFEASIBLE (by decide) hrun, rfl⟩

/-- Witness for C7: the objective row of `maximize x1 + x2`, fuel 2. -/
theorem infeasible_scenario_witness :
    ∃ T, phaseone 2 (infeasibleInstance (-1) (-1) 0 0 1 0 0) = some (INFEASIBLE, T) ∧
      main 2 (infeasibleInstance (-1) (-1) 0 0 1 0 0) = some (INFEASIBLE, T) ∧
      INFEASIBLE = -1 :=
  infeasible_scenario (-1) (-1) 0 0 1 0 0 2 (by decide)

/-! ## Claims about the arithmetic of the program (binary64) -/

/-- C1 (as stated) fails for the program: on `scaledPivot`, whose cells are binary64
values, the pivot on the non-zero cell `(0, 0) = 49` computes `1/49` rounded, and
`49 * fl(1/49)` rounds to `1 - 2^(-53)`, not `1`; the other cell of the column,
`-10^7`, is left at `-2^(-29)` (about `-1.86e-9`), which is not `0` and is further than
`EPSILON` from it. -/
theorem pivot_column_not_unit :
    WF scaledPivot ∧ 0 < scaledPivot.rows ∧ 0 < scaledPivot.numvars ∧
    get scaledPivot 0 0 ≠ 0 ∧
    (∀ i, i < scaledPivot.rows → ∀ j, j < scaledPivot.cols →
      round64 (get scaledPivot i j) = get scaledPivot i j) ∧
    get (pivotFl round64 scaledPivot 0 0) 0 0 = 1 - 1 / 2 ^ 53 ∧
    get (pivotFl round64 scaledPivot 0 0) 1 0 = -(1 / 2 ^ 29) ∧
    EPSILON < 1 / 2 ^ 29 := by
  decide!

/-- C1 (amended): on a well-formed tableau, for a row `r < rows` and a variable column
`c < numvars` with `tableau[r][c] ≠ 0`, with the arithmetic rounded by `fl` (`round64` for
the program, `id` for exact arithmetic) and no result outside the finite range: after
`pivot(t, r, c)`
(1) the basis-index cell of row `r` equals `c`;
(2) the cell `(r, c)` holds `p = fl(x * fl(1 / x))`, where `x` is the old cell `(r, c)`,
and the cell `(i, c)` of every other row holds `fl(fl(p * (-e)) + e)`, where `e` is its
old value;
(3) when `p = 1` (as in exact arithmetic, or in binary64 for a power of two `x`) and the
cells of the column are values of the arithmetic, the column is exactly a unit column:
`1` in row `r`, `0` in every other row;
(4) when the operations involved have a relative error of at most `2^(-53)` (as every
binary64 result in the normal range has), the cell `(r, c)` is within `2^(-51)` of `1`
and the cell `(i, c)` of every other row is within `2^(-51) * |e|` of `0`: a tolerance
relative to the old value, not `EPSILON`. -/
theorem pivot_column_rounded (fl : ℚ → ℚ) (t : Tableau) (r c : Nat) (hwf : WF t)
    (hr : r < t.rows) (hc : c < t.numvars) (hne : get t r c ≠ 0)
    (_hfin : Finite64 (fl (1 / get t r c)) ∧ ∀ i, i < t.rows → i ≠ r →
      Finite64 (fl (fl (get t r c * fl (1 / get t r c)) * (-get t i c))) ∧
      Finite64 (fl (fl (fl (get t r c * fl (1 / get t r c)) * (-get t i c)) + get t i c))) :
    get (pivotFl fl t r c) r (pivotFl fl t r c).basiscolumn = (c : ℚ) ∧
    get (pivotFl fl t r c) r c = fl (get t r c * fl (1 / get t r c)) ∧
    (∀ i, i < (pivotFl fl t r c).rows → i ≠ r →
      get (pivotFl fl t r c) i c =
        fl (fl (fl (get t r c * fl (1 / get t r c)) * (-get t i c)) + get t i c)) ∧
    (fl 0 = 0 → (∀ i, i < t.rows → fl (-get t i c) = -get t i c) →
      fl (get t r c * fl (1 / get t r c)) = 1 →
      get (pivotFl fl t r c) r c = 1 ∧
      ∀ i, i < (pivotFl fl t r c).rows → i ≠ r → get (pivotFl fl t r c) i c = 0) ∧
    (Accurate fl (1 / get t r c) → Accurate fl (get t r c * fl (1 / get t r c)) →
      |get (pivotFl fl t r c) r c - 1| ≤ 1 / 2 ^ 51 ∧
      ∀ i, i < (pivotFl fl t r c).rows → i ≠ r →
        Accurate fl (fl (get t r c * fl (1 / get t r c)) * (-get t i c)) →
        Accurate fl
          (fl (fl (get t r c * fl (1 / get t r c)) * (-get t i c)) + get t i c) →
        |get (pivotFl fl t r c) i c| ≤ 1 / 2 ^ 51 * |get t i c|) := by
  have hcc : c < t.cols := by
    obtain ⟨-, -, -, -, hcols⟩ := hwf
    omega
  have hcb : c ≠ t.basiscolumn := by
    obtain ⟨-, -, -, hb, -⟩ := hwf
    omega
  have hcz : c ≠ t.zcolumn := by
    obtain ⟨-, hz, -, -, -⟩ := hwf
    omega
  have hrows : (pivotFl fl t r c).rows = t.rows := shape_rows (shape_pivotFl fl t r c)
  have hp : get (pivotFl fl t r c) r c = fl (get t r c * fl (1 / get t r c)) := by
    rw [get_pivotFl fl t r c r c hwf hr hc hcc, if_neg hcb, if_neg hcz,
      if_neg (fun h => h.2 rfl), if_pos rfl]
  have hi : ∀ i, i < (pivotFl fl t r c).rows → i ≠ r →
      get (pivotFl fl t r c) i c =
        fl (fl (fl (get t r c * fl (1 / get t r c)) * (-get t i c)) + get t i c) := by
    intro i hlt hne
    rw [get_pivotFl fl t r c i c hwf hr hc hcc, if_neg hcb, if_neg hcz,
      if_pos ⟨by rw [← hrows]; exact hlt, hne⟩]
  obtain ⟨u0, -, u2, u3, -⟩ := unitRoundoff_bounds
  refine ⟨?_, hp, hi, ?_, ?_⟩
  · rw [pivotFl_basis fl t r c r hwf hr hc, if_pos rfl]
  · intro h0 hrep h1
    refine ⟨hp.trans h1, ?_⟩
    intro i hlt hne
    rw [hi i hlt hne, h1, one_mul, hrep i (by rw [← hrows]; exact hlt), neg_add_cancel, h0]
  · intro a1 a2
    have hp1 := pivot_cell_error (get t r c) (fl (1 / get t r c))
      (fl (get t r c * fl (1 / get t r c))) unitRoundoff hne u0 a1 a2
    refine ⟨by rw [hp]; exact le_trans hp1 u2, ?_⟩
    intro i hlt hne a3 a4
    rw [hi i hlt hne]
    exact le_trans (other_cell_error _ _ _ _ unitRoundoff _ u0 hp1 a3 a4)
      (mul_le_mul_of_nonneg_right u3 (abs_nonneg _))

set_option maxRecDepth 100000 in
/-- C1 (amended), in binary64: on the first pivot of the canonical scenario (row 1,
column 1, pivot element 2) the scaled pivot cell is exactly 1 and the column becomes a
unit column; on `scaledPivot` (pivot element 49) the cell `(0, 0)` is within `2^(-51)`
of 1 and the cell `(1, 0)`, `-10^7` before the pivot, is within `10^7 * 2^(-51)` of 0. -/
theorem pivot_column_rounded_witness :
    (WF canonical ∧ 1 < canonical.rows ∧ 1 < canonical.numvars ∧ get canonical 1 1 ≠ 0) ∧
    (get (pivotFl round64 canonical 1 1) 1 (pivotFl round64 canonical 1 1).basiscolumn =
        ((1 : Nat) : ℚ) ∧
      get (pivotFl round64 canonical 1 1) 1 1 = 1 ∧
      ∀ i, i < (pivotFl round64 canonical 1 1).rows → i ≠ 1 →
        get (pivotFl round64 canonical 1 1) i 1 = 0) ∧
    (WF scaledPivot ∧ 0 < scaledPivot.rows ∧ 0 < scaledPivot.numvars ∧
      get scaledPivot 0 0 ≠ 0) ∧
    |get (pivotFl round64 scaledPivot 0 0) 0 0 - 1| ≤ 1 / 2 ^ 51 ∧
    |get (pivotFl round64 scaledPivot 0 0) 1 0| ≤ 1 / 2 ^ 51 * |get scaledPivot 1 0| :=
  have hc := pivot_column_rounded round64 canonical 1 1 (by decide) (by decide) (by decide)
    (by decide!) (by decide!)
  have hs := pivot_column_rounded round64 scaledPivot 0 0 (by decide) (by decide) (by decide)
    (by decide!) (by decide!)
  have hb := hs.2.2.2.2 (by decide!) (by decide!)
  ⟨⟨by decide, by decide, by decide, by decide!⟩,
    ⟨hc.1, hc.2.2.2.1 round64_zero (by decide!) (by decide!)⟩,
    ⟨by decide, by decide, by decide, by decide!⟩,
    hb.1, hb.2 1 (by decide) (by decide) (by decide!) (by decide!)⟩

/-- C3 (as stated) fails for the program: on `tiedRatios`, whose cells are binary64
values, both constraint rows have a positive entry in column 0; the ratio of row 1 is
strictly below the ratio of row 0, but both quotients round to the same binary64 value,
and `findpivotrow` returns row 0 (exact arithmetic gives row 1). -/
theorem findpivotrow_not_least_ratio :
    (∀ i, i < tiedRatios.rows → ∀ j, j < tiedRatios.cols →
      round64 (get tiedRatios i j) = get tiedRatios i j) ∧
    0 < get tiedRatios 0 0 ∧ 0 < get tiedRatios 1 0 ∧
    findpivotrowFl round64 tiedRatios 0 = 0 ∧
    get tiedRatios 1 tiedRatios.constcolumn / get tiedRatios 1 0 <
      get tiedRatios 0 tiedRatios.constcolumn / get tiedRatios 0 0 ∧
    round64 (get tiedRatios 1 tiedRatios.constcolumn / get tiedRatios 1 0) =
      round64 (get tiedRatios 0 tiedRatios.constcolumn / get tiedRatios 0 0) ∧
    findpivotrowFl id tiedRatios 0 = 1 := by
  decide!

/-- C3 (amended): when some constraint row has a positive entry in column `c` and the
computed ratios are finite, `findpivotrow(t, c)` returns a constraint row `r` with a
positive entry in `c` whose computed ratio `fl(rhs[r] / tableau[r][c])` (the quotient as
rounded by the arithmetic: `round64` for the program, `id` for exact arithmetic) is least
among the computed ratios of the constraint rows with a positive entry in `c`, and `r` is
the lowest row index attaining that least computed ratio.  The exact ratio `ρ(r)` of the
returned row is least up to rounding: `ρ(r) - 2^(-53) |ρ(r)| ≤ ρ(i) + 2^(-53) |ρ(i)|` for
every such row `i`, when the two quotients have a relative error of at most `2^(-53)` (as
every binary64 result in the normal range has). -/
theorem findpivotrow_min_computed_ratio (fl : ℚ → ℚ) (t : Tableau) (c : Nat)
    (h : ∃ row, row < t.numconstraints ∧ 0 < get t row c)
    (_hfin : ∀ i, i < t.numconstraints → 0 < get t i c →
      Finite64 (fl (get t i t.constcolumn / get t i c))) :
    ∃ r : Nat, findpivotrowFl fl t c = (r : Int) ∧ r < t.numconstraints ∧ 0 < get t r c ∧
      ∀ i, i < t.numconstraints → 0 < get t i c →
        fl (get t r t.constcolumn / get t r c) ≤ fl (get t i t.constcolumn / get t i c) ∧
        (fl (get t i t.constcolumn / get t i c) = fl (get t r t.constcolumn / get t r c) →
          r ≤ i) ∧
        (Accurate fl (get t r t.constcolumn / get t r c) →
          Accurate fl (get t i t.constcolumn / get t i c) →
          get t r t.constcolumn / get t r c -
              unitRoundoff * |get t r t.constcolumn / get t r c| ≤
            get t i t.constcolumn / get t i c +
              unitRoundoff * |get t i t.constcolumn / get t i c|) := by
  obtain ⟨r, h1, h2, h3, h4⟩ := findpivotrowFl_found fl t c h
  refine ⟨r, h1, h2, h3, ?_⟩
  intro i hi hp
  obtain ⟨m1, m2⟩ := h4 i hi hp
  refine ⟨m1, m2, ?_⟩
  intro a1 a2
  have b1 := (abs_le.mp a1).1
  have b2 := (abs_le.mp a2).2
  have m1' : fl (get t r t.constcolumn / get t r c) ≤ fl (get t i t.constcolumn / get t i c) :=
    m1
  linarith

set_option maxRecDepth 100000 in
/-- C3 (amended), on `tiedRatios` in binary64: the two computed ratios are equal and
the lowest row index, 0, is returned; the exact ratio of row 0 exceeds the exact ratio of
row 1 by less than the rounding tolerance. -/
theorem findpivotrow_min_computed_ratio_witness :
    (∃ row, row < tiedRatios.numconstraints ∧ 0 < get tiedRatios row 0) ∧
    ∃ r : Nat, findpivotrowFl round64 tiedRatios 0 = (r : Int) ∧
      r < tiedRatios.numconstraints ∧ 0 < get tiedRatios r 0 ∧
      ∀ i, i < tiedRatios.numconstraints → 0 < get tiedRatios i 0 →
        round64 (get tiedRatios r tiedRatios.constcolumn / get tiedRatios r 0) ≤
          round64 (get tiedRatios i tiedRatios.constcolumn / get tiedRatios i 0) ∧
        (round64 (get tiedRatios i tiedRatios.constcolumn / get tiedRatios i 0) =
          round64 (get tiedRatios r tiedRatios.constcolumn / get tiedRatios r 0) → r ≤ i) ∧
        (Accurate round64 (get tiedRatios r tiedRatios.constcolumn / get tiedRatios r 0) →
          Accurate round64 (get tiedRatios i tiedRatios.constcolumn / get tiedRatios i 0) →
          get tiedRatios r tiedRatios.constcolumn / get tiedRatios r 0 -
              unitRoundoff * |get tiedRatios r tiedRatios.constcolumn / get tiedRatios r 0| ≤
            get tiedRatios i tiedRatios.constcolumn / get tiedRatios i 0 +
              unitRoundoff *
                |get tiedRatios i tiedRatios.constcolumn / get tiedRatios i 0|) :=
  ⟨⟨0, by decide, by decide!⟩,
    findpivotrow_min_computed_ratio round64 tiedRatios 0 ⟨0, by decide, by decide!⟩
      (by decide!)⟩

/-- C18 (as stated) fails for the program: on `roundedRhs`, whose cells are binary64
values and whose constraint rows have RHS `3 ≥ 0`, `findpivotrow` returns row 0 for
column 0 (both computed ratios are the binary64 value of `3/5`), and after the pivot on
`(0, 0)` the RHS of constraint row 1 is `-2^(-51)` (about `-4.4e-16`): `1/5` and
`3 * fl(1/5)` are rounded up, so `5 * fl(3 * fl(1/5))` exceeds `3`. -/
theorem ratio_test_negative_rhs :
    (∀ i, i < roundedRhs.rows → ∀ j, j < roundedRhs.cols →
      round64 (get roundedRhs i j) = get roundedRhs i j) ∧
    WF roundedRhs ∧ RhsNonneg roundedRhs ∧
    findpivotrowFl round64 roundedRhs 0 = 0 ∧
    1 < (pivotFl round64 roundedRhs 0 0).numconstraints ∧
    get (pivotFl round64 roundedRhs 0 0) 1 (pivotFl round64 roundedRhs 0 0).constcolumn =
      -(1 / 2 ^ 51) := by
  decide!

/-- C18 (amended): on a well-formed tableau whose constraint rows all have RHS `≥ 0`,
for a variable column `c` for which `findpivotrow(t, c)` returns a row `r`, with the
arithmetic rounded by a sign-preserving `fl` (`round64` for the program) and no result
outside the finite range: after `pivot(t, r, c)`
(1) the RHS of row `r` is `≥ 0`, and so is the RHS of every constraint row whose entry in
column `c` is `≤ 0`;
(2) the RHS of another constraint row `i` becomes `fl(fl(q * (-e)) + b)`, with
`q = fl(rhs[r] * fl(1 / x))` the new RHS of row `r`, `x` the pivot element, `e` the entry
of row `i` in column `c` and `b` its old RHS;
(3) for `e > 0` that RHS can be negative by a rounding error, but it is at least
`-2^(-49) * b` when the operations involved (the two quotients of the ratio test, the
reciprocal, the two products and the sum) have a relative error of at most `2^(-53)`, as
every binary64 result in the normal range has. -/
theorem ratio_test_rhs_rounded (fl : ℚ → ℚ) (hsign : ∀ q, 0 ≤ q → 0 ≤ fl q) (t : Tableau)
    (c r : Nat) (hwf : WF t) (hnc : t.numconstraints ≤ t.rows) (hc : c < t.numvars)
    (hrhs : ∀ i, i < t.numconstraints → 0 ≤ get t i t.constcolumn)
    (hr : findpivotrowFl fl t c = (r : Int))
    (_hfin : Finite64 (fl (1 / get t r c)) ∧
      Finite64 (fl (get t r t.constcolumn * fl (1 / get t r c))) ∧
      ∀ i, i < t.numconstraints → i ≠ r →
        Finite64 (fl (fl (get t r t.constcolumn * fl (1 / get t r c)) * (-get t i c))) ∧
        Finite64 (fl (fl (fl (get t r t.constcolumn * fl (1 / get t r c)) * (-get t i c)) +
          get t i t.constcolumn))) :
    0 ≤ get (pivotFl fl t r c) r (pivotFl fl t r c).constcolumn ∧
    (∀ i, i < (pivotFl fl t r c).numconstraints → i ≠ r → get t i c ≤ 0 →
      0 ≤ get (pivotFl fl t r c) i (pivotFl fl t r c).constcolumn) ∧
    (∀ i, i < (pivotFl fl t r c).numconstraints → i ≠ r →
      get (pivotFl fl t r c) i (pivotFl fl t r c).constcolumn =
        fl (fl (fl (get t r t.constcolumn * fl (1 / get t r c)) * (-get t i c)) +
          get t i t.constcolumn)) ∧
    (∀ i, i < (pivotFl fl t r c).numconstraints → i ≠ r → 0 < get t i c →
      Accurate fl (get t r t.constcolumn / get t r c) →
      Accurate fl (get t i t.constcolumn / get t i c) →
      Accurate fl (1 / get t r c) →
      Accurate fl (get t r t.constcolumn * fl (1 / get t r c)) →
      Accurate fl (fl (get t r t.constcolumn * fl (1 / get t r c)) * (-get t i c)) →
      Accurate fl (fl (fl (get t r t.constcolumn * fl (1 / get t r c)) * (-get t i c)) +
        get t i t.constcolumn) →
      -(1 / 2 ^ 49) * get t i t.constcolumn ≤
        get (pivotFl fl t r c) i (pivotFl fl t r c).constcolumn) := by
  obtain ⟨hrn, hx, hmin⟩ := findpivotrowFl_min fl t c r hr
  have hrr : r < t.rows := by omega
  have hkc : t.constcolumn < t.cols := by
    obtain ⟨-, -, hk, -, hcols⟩ := hwf
    omega
  have hkb : t.constcolumn ≠ t.basiscolumn := by
    obtain ⟨-, -, hk, hb, -⟩ := hwf
    omega
  have hkz : t.constcolumn ≠ t.zcolumn := by
    obtain ⟨-, hz, hk, -, -⟩ := hwf
    omega
  have hs := shape_pivotFl fl t r c
  rw [shape_numconstraints hs, shape_constcolumn hs]
  have hq : 0 ≤ fl (get t r t.constcolumn * fl (1 / get t r c)) :=
    hsign _ (mul_nonneg (hrhs r hrn) (hsign _ (le_of_lt (one_div_pos.mpr hx))))
  have hcell : ∀ i, i < t.numconstraints → i ≠ r →
      get (pivotFl fl t r c) i t.constcolumn =
        fl (fl (fl (get t r t.constcolumn * fl (1 / get t r c)) * (-get t i c)) +
          get t i t.constcolumn) := by
    intro i hi hne
    rw [get_pivotFl fl t r c i _ hwf hrr hc hkc, if_neg hkb, if_neg hkz,
      if_pos ⟨by omega, hne⟩]
  obtain ⟨u0, u1, -, -, u5⟩ := unitRoundoff_bounds
  refine ⟨?_, ?_, hcell, ?_⟩
  · rw [get_pivotFl fl t r c r _ hwf hrr hc hkc, if_neg hkb, if_neg hkz,
      if_neg (fun h => h.2 rfl), if_pos rfl]
    exact hq
  · intro i hi hne hle
    rw [hcell i hi hne]
    exact hsign _ (add_nonneg (hsign _ (mul_nonneg hq (by linarith))) (hrhs i hi))
  · intro i hi hne he a1 a2 a3 a4 a5 a6
    rw [hcell i hi hne, ← u5]
    obtain ⟨-, hq3⟩ := scaled_rhs_bound (get t r c) (get t r t.constcolumn) _ _ unitRoundoff
      u0 u1 hx (hrhs r hrn) a3 a4
    have h5 := product_bound (get t r c) (get t i c) (get t r t.constcolumn)
      (get t i t.constcolumn) _ _ _ unitRoundoff u0 u1 hx he (hrhs r hrn) (hrhs i hi) hq3
      a1 a2 (hmin i hi he)
    exact new_rhs_bound (get t i c) (get t i t.constcolumn) _ _ _ unitRoundoff u0 u1 he
      (hrhs i hi) hq h5 a5 a6

set_option maxRecDepth 100000 in
/-- C18 (amended), in binary64: on the first pivot of the canonical scenario (column 1,
row 1 returned by the ratio test) rows 0 and 1 keep an RHS `≥ 0`; on `roundedRhs`
(column 0, row 0 returned) the RHS of row 1, `3` before the pivot, is at least
`-3 * 2^(-49)` after it. -/
theorem ratio_test_rhs_rounded_witness :
    (WF canonical ∧ canonical.numconstraints ≤ canonical.rows ∧ 1 < canonical.numvars ∧
      (∀ i, i < canonical.numconstraints → 0 ≤ get canonical i canonical.constcolumn) ∧
      findpivotrowFl round64 canonical 1 = ((1 : Nat) : Int)) ∧
    0 ≤ get (pivotFl round64 canonical 1 1) 1 (pivotFl round64 canonical 1 1).constcolumn ∧
    (∀ i, i < (pivotFl round64 canonical 1 1).numconstraints → i ≠ 1 →
      get canonical i 1 ≤ 0 →
      0 ≤ get (pivotFl round64 canonical 1 1) i (pivotFl round64 canonical 1 1).constcolumn) ∧
    (WF roundedRhs ∧ roundedRhs.numconstraints ≤ roundedRhs.rows ∧ 0 < roundedRhs.numvars ∧
      (∀ i, i < roundedRhs.numconstraints → 0 ≤ get roundedRhs i roundedRhs.constcolumn) ∧
      findpivotrowFl round64 roundedRhs 0 = ((0 : Nat) : Int)) ∧
    -(1 / 2 ^ 49) * get roundedRhs 1 roundedRhs.constcolumn ≤
      get (pivotFl round64 roundedRhs 0 0) 1 (pivotFl round64 roundedRhs 0 0).constcolumn :=
  have hc := ratio_test_rhs_rounded round64 round64_nonneg canonical 1 1 (by decide)
    (by decide) (by decide) (by decide!) (by decide!) (by decide!)
  have hs := ratio_test_rhs_rounded round64 round64_nonneg roundedRhs 0 0 (by decide)
    (by decide) (by decide) (by decide!) (by decide!) (by decide!)
  ⟨⟨by decide, by decide, by decide, by decide!, by decide!⟩, hc.1, hc.2.1,
    ⟨by decide, by decide, by decide, by decide!, by decide!⟩,
    hs.2.2.2 1 (by decide) (by decide) (by decide!) (by decide!) (by decide!) (by decide!)
      (by decide!) (by decide!) (by decide!)⟩

set_option maxRecDepth 100000 in
/-- C12 (as stated) fails for the program: `residuePivot` is in canonical form (basis
indices 2 and 3, unit columns with 0 in the objective row) and its cells are binary64
values.  The first solver iteration pivots on `(0, 1)`, where `49 * fl(1/49)` rounds to
`1 - 2^(-53)`; this leaves the residues `2^(-46)` in row 1 and `-2^(-33)` (below
`-EPSILON`) in the objective row of the now basic column 1, the only negative objective
entry.  The second iteration therefore selects column 1 again, the ratio test returns
row 1, and after the pivot on `(1, 1)` both constraint rows carry the basis index 1; the
tableau passes the optimality test, so the solver returns `OK` with it. -/
theorem basis_indices_collide :
    Canonical residuePivot ∧ DistinctBasis residuePivot ∧
    (∀ i, i < residuePivot.rows → ∀ j, j < residuePivot.cols →
      round64 (get residuePivot i j) = get residuePivot i j) ∧
    solverIterationFl round64 residuePivot = some (pivotFl round64 residuePivot 0 1) ∧
    get (pivotFl round64 residuePivot 0 1) 1 1 = 1 / 2 ^ 46 ∧
    get (pivotFl round64 residuePivot 0 1) 2 1 = -(1 / 2 ^ 33) ∧
    (∀ j, j < residuePivot.numvars → j ≠ 1 →
      0 ≤ get (pivotFl round64 residuePivot 0 1) 2 j) ∧
    solverIterationFl round64 (pivotFl round64 residuePivot 0 1) =
      some (pivotFl round64 (pivotFl round64 residuePivot 0 1) 1 1) ∧
    iterationsFl round64 2 residuePivot =
      some (pivotFl round64 (pivotFl round64 residuePivot 0 1) 1 1) ∧
    mainFl round64 3 residuePivot =
      some (OK, pivotFl round64 (pivotFl round64 residuePivot 0 1) 1 1) ∧
    get (pivotFl round64 (pivotFl round64 residuePivot 0 1) 1 1) 0
      (pivotFl round64 (pivotFl round64 residuePivot 0 1) 1 1).basiscolumn = 1 ∧
    get (pivotFl round64 (pivotFl round64 residuePivot 0 1) 1 1) 1
      (pivotFl round64 (pivotFl round64 residuePivot 0 1) 1 1).basiscolumn = 1 ∧
    ¬ DistinctBasis (pivotFl round64 (pivotFl round64 residuePivot 0 1) 1 1) := by
  have h0 : get (pivotFl round64 (pivotFl round64 residuePivot 0 1) 1 1) 0
      (pivotFl round64 (pivotFl round64 residuePivot 0 1) 1 1).basiscolumn = 1 := by decide!
  have h1 : get (pivotFl round64 (pivotFl round64 residuePivot 0 1) 1 1) 1
      (pivotFl round64 (pivotFl round64 residuePivot 0 1) 1 1).basiscolumn = 1 := by decide!
  refine ⟨by decide!, Canonical_distinct _ (by decide!), by decide!, by decide!, by decide!,
    by decide!, by decide!, by decide!, by decide!, by decide!, h0, h1, ?_⟩
  intro hd
  exact hd 0 1 (by decide) (by decide) (by decide) (h0.trans h1.symm)

/-- C12 (amended): with the arithmetic rounded by a sign-preserving `fl` (`round64` for
the program), the basis indices of the constraint rows are pairwise distinct
(1) after `createartificialtableau`, on a well-formed initial tableau (`rows =
numconstraints + 1`, no artificial variables) whose assigned rows name unit columns;
(2) after a solver iteration (non-optimal tableau, `findpivotcolumn`, `findpivotrow`,
`pivot`) on any well-formed tableau with pairwise distinct basis indices in which no
basic column has a negative entry in the last row, in particular (3) after a solver
iteration on a tableau in canonical form; and (4) after `destroyartificialtableau`, on
a well-formed tableau with pairwise distinct basis indices.  The condition of (2) is not
itself preserved by a rounded pivot. -/
theorem basis_indices_distinct_rounded (fl : ℚ → ℚ) (hsign : ∀ q, 0 ≤ q → 0 ≤ fl q) :
    (∀ t, WF t → Layout t → t.rows = t.numconstraints + 1 → t.numartificialvars = 0 →
      AssignedCanonical t → DistinctBasis (createartificialtableauFl fl t)) ∧
    (∀ t t', WF t → t.numconstraints ≤ t.rows → DistinctBasis t →
      (∀ i, i < t.numconstraints → ∀ b : Nat, b < t.numvars →
        get t i t.basiscolumn = (b : ℚ) → 0 ≤ get t (t.rows - 1) b) →
      solverIterationFl fl t = some t' → DistinctBasis t') ∧
    (∀ t t', Canonical t → solverIterationFl fl t = some t' → DistinctBasis t') ∧
    (∀ t, WF t → Layout t → t.numconstraints < t.rows → DistinctBasis t →
      DistinctBasis (destroyartificialtableau t)) := by
  refine ⟨?_, ?_, ?_, ?_⟩
  · intro t hwf hlay hrows hart h
    exact DistinctBasis_createartificialtableauFl fl t hwf (by omega)
      (Canonical_distinct _ (Canonical_createartificialtableau t hwf (by omega)
        (by have := hlay.1; omega) h))
  · intro t t' hwf hn hd hbasic h
    exact DistinctBasis_solverIterationFl fl hsign t t' hwf hn hd hbasic h
  · intro t t' hC h
    exact DistinctBasis_solverIterationFl fl hsign t t' hC.1 (le_of_lt hC.2.1)
      (Canonical_distinct t hC) (Canonical_basic_nonneg t hC) h
  · intro t hwf hlay hn hd
    exact DistinctBasis_destroyartificialtableau t hwf hlay hn hd

set_option maxRecDepth 100000 in
/-- C12 (amended), in binary64: the infeasible instance after `createartificialtableau`,
and `residuePivot` after its first solver iteration. -/
theorem basis_indices_distinct_rounded_witness :
    DistinctBasis
      (createartificialtableauFl round64 (infeasibleInstance (-1) (-1) 0 0 1 0 0)) ∧
    (Canonical residuePivot ∧
      solverIterationFl round64 residuePivot = some (pivotFl round64 residuePivot 0 1)) ∧
    DistinctBasis (pivotFl round64 residuePivot 0 1) :=
  have h := basis_indices_distinct_rounded round64 round64_nonneg
  ⟨h.1 (infeasibleInstance (-1) (-1) 0 0 1 0 0)
      (by decide) (by decide) (by decide) (by decide) (by decide!),
    ⟨by decide!, by decide!⟩,
    h.2.2.1 residuePivot (pivotFl round64 residuePivot 0 1) (by decide!) (by decide!)⟩

/-! ## C5: the whole solver on a feasible, bounded program -/

/-- C5 (amended): partial correctness of phase one followed by phase two, on the runs
without rounding error.  Let `t` be a well-formed initial tableau (one objective row, no
artificial variables, canonical form for the constraint rows with an assigned basic
variable, non-negative RHS).  Suppose that the run of the program, with the arithmetic
rounded by `fl` (`round64`), returns `OK` with `t3` from `phaseone` and `OK` with `t4`
from `phasetwo`, that these are the tableaux exact arithmetic gives, and that no
constraint row of `t3` names a deleted (artificial) column as its basic variable.  Then
`main` returns `OK` with `t4`, the basic solution of `t4` is a feasible point of the
linear program of `t` whose objective value is the RHS cell of the final objective row,
and no feasible point `x` has an objective value above that RHS plus
`EPSILON * ∑ x j`; the RHS is the exact optimum when the final objective row has no
negative entry at all.  Termination is not part of the statement, and neither is a run
in which a result is rounded. -/
theorem main_ok_sound (fl : ℚ → ℚ) (fuel : Nat) (t t3 t4 : Tableau) (hwf : WF t)
    (hlay : Layout t) (hrows : t.rows = t.numconstraints + 1) (ha : t.numartificialvars = 0)
    (hA : AssignedCanonical t) (hR : RhsNonneg t)
    (h1 : phaseoneFl fl fuel t = some (OK, t3))
    (h2 : phasetwoFl fl fuel t3 = some (OK, t4))
    (e1 : phaseone fuel t = some (OK, t3))
    (e2 : phasetwo fuel t3 = some (OK, t4))
    (hb : ∀ i, i < t.numconstraints → get t3 i t3.basiscolumn < (t3.numvars : ℚ)) :
    mainFl fl fuel t = some (OK, t4) ∧
    Feasible t (basicSolution t4) ∧
    objValue t (basicSolution t4) = get t4 (t4.rows - 1) t4.constcolumn ∧
    (∀ x, Feasible t x → objValue t x ≤ get t4 (t4.rows - 1) t4.constcolumn +
      EPSILON * Finset.sum (Finset.range t.numvars) (fun j => x j)) ∧
    ((∀ j, j < t.numvars → 0 ≤ get t4 (t4.rows - 1) j) →
      IsOptimum t (get t4 (t4.rows - 1) t4.constcolumn)) := by
  obtain ⟨hC3, hR3, hf3, ho3, hv3⟩ := phaseone_sound fuel t t3 hwf hlay hrows ha hA hR e1 hb
  obtain ⟨hs, hC4, hR4, hf4, ho4, hopt, -⟩ := phasetwo_sound fuel t3 t4 OK hC3 hR3 e2
  have hbs := basicSolution_feasible t4 hC4 hR4
  have hlast : t4.rows - 1 = t3.rows - 1 := by rw [shape_rows hs]
  have hv4 : t4.numvars = t.numvars := (shape_numvars hs).trans hv3
  have key : ∀ x, Feasible t x → objValue t4 x = objValue t x := by
    intro x hx
    have hx3 := (hf3 x).mpr hx
    have := ho4 x (t3.rows - 1) hx3 (by have := hC3.2.1; omega) (by have := hC3.2.1; omega)
    unfold objValue
    rw [hlast, this]
    exact ho3 x hx
  have hfeas : Feasible t (basicSolution t4) := (hf3 _).mp ((hf4 _).mp hbs.1)
  have hval : objValue t (basicSolution t4) = get t4 (t4.rows - 1) t4.constcolumn := by
    rw [← key _ hfeas]; exact hbs.2
  refine ⟨(mainFl_of_phaseoneFl_ok fl fuel t t3 h1).trans h2, hfeas, hval, ?_, ?_⟩
  · intro x hx
    rw [← key x hx, ← hv4]
    exact objValue_le_of_optimal t4 x (hopt rfl) ((hf4 x).mpr ((hf3 x).mpr hx))
  · intro hc
    refine ⟨⟨_, hfeas, hval⟩, ?_⟩
    intro x hx
    rw [← key x hx]
    exact objValue_le_of_nonneg t4 x (by rw [hv4]; exact hc) ((hf4 x).mpr ((hf3 x).mpr hx))

set_option maxRecDepth 100000 in
/-- C5 (amended), on `twoPhase` in binary64 with fuel 3: phase one adds one artificial
variable, pivots twice and tears the auxiliary problem down (`twoPhaseMid`), phase two
pivots once (`twoPhaseFinal`); no result is rounded, and the final objective RHS is 4,
the optimum of `x1 + 2 x2` subject to `x1 + x2 = 2`, `x1 ≤ 1`. -/
theorem main_ok_sound_witness :
    (WF twoPhase ∧ Layout twoPhase ∧ twoPhase.rows = twoPhase.numconstraints + 1 ∧
      twoPhase.numartificialvars = 0 ∧ AssignedCanonical twoPhase ∧ RhsNonneg twoPhase ∧
      phaseoneFl round64 3 twoPhase = some (OK, twoPhaseMid) ∧
      phasetwoFl round64 3 twoPhaseMid = some (OK, twoPhaseFinal) ∧
      phaseone 3 twoPhase = some (OK, twoPhaseMid) ∧
      phasetwo 3 twoPhaseMid = some (OK, twoPhaseFinal) ∧
      (∀ i, i < twoPhase.numconstraints →
        get twoPhaseMid i twoPhaseMid.basiscolumn < (twoPhaseMid.numvars : ℚ))) ∧
    (mainFl round64 3 twoPhase = some (OK, twoPhaseFinal) ∧
      Feasible twoPhase (basicSolution twoPhaseFinal) ∧
      objValue twoPhase (basicSolution twoPhaseFinal) =
        get twoPhaseFinal (twoPhaseFinal.rows - 1) twoPhaseFinal.constcolumn ∧
      (∀ x, Feasible twoPhase x →
        objValue twoPhase x ≤
          get twoPhaseFinal (twoPhaseFinal.rows - 1) twoPhaseFinal.constcolumn +
            EPSILON * Finset.sum (Finset.range twoPhase.numvars) (fun j => x j)) ∧
      ((∀ j, j < twoPhase.numvars → 0 ≤ get twoPhaseFinal (twoPhaseFinal.rows - 1) j) →
        IsOptimum twoPhase
          (get twoPhaseFinal (twoPhaseFinal.rows - 1) twoPhaseFinal.constcolumn))) ∧
    get twoPhaseFinal (twoPhaseFinal.rows - 1) twoPhaseFinal.constcolumn = 4 ∧
    ∀ j, j < twoPhase.numvars → 0 ≤ get twoPhaseFinal (twoPhaseFinal.rows - 1) j :=
  ⟨⟨by decide, by decide, by decide, by decide, by decide!, by decide!, by decide!,
      by decide!, by decide!, by decide!, by decide!⟩,
    main_ok_sound round64 3 twoPhase twoPhaseMid twoPhaseFinal (by decide) (by decide)
      (by decide) (by decide) (by decide!) (by decide!) (by decide!) (by decide!)
      (by decide!) (by decide!) (by decide!),
    by decide!, by decide!⟩

set_option maxRecDepth 100000 in
/-- C5 (as stated) fails in each of its parts, on tableaux that encode feasible, bounded
linear programs in canonical form with non-negative RHS and every basic variable
assigned (so that `phaseone` is a no-op).
(1) The optimum of `tolerance` is `1 / 10^8`, but its only objective entry
`-1 / 10^11` is not below `-EPSILON`: for every positive fuel the solver returns `OK`
at once with the tableau unchanged, and the objective RHS 0 is at least `EPSILON` away
from the optimum.
(2) The optimum of `degenerate` is 1, but six passes of the loop of `phasetwo`
(pivots on rows 0, 1, 0, 1, 0, 1 in columns 0 to 5) give back the initial tableau: the
solver does not return, whatever the fuel.  Every cell of the six tableaux is a binary64
value and no result is rounded: the program (`mainFl round64`) cycles in the same way.
(3) The optimum of `roundedBasis` is 1 and its cells are binary64 values; the program
returns `OK` after four pivots, with a final objective row without negative entry, an
objective RHS of about `1.3042` and a basic solution that is not feasible: the first
pivot leaves rounding residues in column 1, which `findpivotcolumn` (comparing with its
truncated running minimum) selects again, and the second pivot is on a residue. -/
theorem optimum_claim_fails :
    (WF tolerance ∧ Layout tolerance ∧ Canonical tolerance ∧ RhsNonneg tolerance ∧
      isinsidefeasibleregion tolerance = true ∧
      IsOptimum tolerance (1 / 100000000) ∧
      (∀ fuel, main (fuel + 1) tolerance = some (OK, tolerance)) ∧
      EPSILON ≤
        |get tolerance (tolerance.rows - 1) tolerance.constcolumn - 1 / 100000000|) ∧
    (WF degenerate ∧ Layout degenerate ∧ Canonical degenerate ∧ RhsNonneg degenerate ∧
      isinsidefeasibleregion degenerate = true ∧
      IsOptimum degenerate 1 ∧
      iterations 6 degenerate = some degenerate ∧
      (∀ fuel, main fuel degenerate = none) ∧
      (∀ i, i < degenerate.rows → ∀ j, j < degenerate.cols →
        round64 (get degenerate i j) = get degenerate i j) ∧
      iterationsFl round64 6 degenerate = some degenerate ∧
      ∀ fuel, mainFl round64 fuel degenerate = none) ∧
    (WF roundedBasis ∧ Layout roundedBasis ∧ Canonical roundedBasis ∧
      RhsNonneg roundedBasis ∧ isinsidefeasibleregion roundedBasis = true ∧
      (∀ i, i < roundedBasis.rows → ∀ j, j < roundedBasis.cols →
        round64 (get roundedBasis i j) = get roundedBasis i j) ∧
      IsOptimum roundedBasis 1 ∧
      mainFl round64 5 roundedBasis = some (OK, roundedBasisFinal) ∧
      (∀ j, j < roundedBasisFinal.numvars →
        0 ≤ get roundedBasisFinal (roundedBasisFinal.rows - 1) j) ∧
      EPSILON ≤
        get roundedBasisFinal (roundedBasisFinal.rows - 1) roundedBasisFinal.constcolumn - 1 ∧
      ¬ Feasible roundedBasis (basicSolution roundedBasisFinal)) := by
  refine ⟨⟨by decide, by decide, by decide!, by decide!, by decide!, tolerance_optimum,
    ?_, ?_⟩, ⟨by decide, by decide, by decide!, by decide!, by decide!, degenerate_optimum,
    degenerate_cycle, ?_, by decide!, degenerate_cycle64, ?_⟩,
    ⟨by decide, by decide, by decide!, by decide!, by decide!, by decide!,
      roundedBasis_optimum, by decide!, by decide!, by decide!, ?_⟩⟩
  · intro fuel
    rw [main_of_feasible_start _ _ (by decide!), phasetwo_succ]
    have h : isoptimal tolerance = true := by decide!
    rw [h]; rfl
  · have h : get tolerance (tolerance.rows - 1) tolerance.constcolumn = 0 := by decide!
    rw [h]
    unfold EPSILON
    norm_num [abs_of_nonneg]
  · intro fuel
    rw [main_of_feasible_start _ _ (by decide!)]
    exact phasetwo_cycle 5 degenerate degenerate_cycle fuel
  · intro fuel
    rw [mainFl_of_feasible_start _ _ _ (by decide!)]
    exact phasetwoFl_cycle round64 5 degenerate degenerate_cycle64 fuel
  · unfold Feasible rowValue
    decide!

end TableauSimplex
